import Mathlib

/-!
Verification development for the Fornjot B-rep kernel core: the shape store,
topology entities, the swept-curve geometry and the sweep algorithm.

Scalars of the Rust code (`f64` via `fj_math::Scalar`) are embedded as exact
rationals `ℚ` for the store/topology/sweep development, and as real numbers
`ℝ` for the surface coordinate mappings that involve square roots
(`normalize`/`magnitude`).  Floating-point rounding is abstracted away: all
laws are settled in exact arithmetic.
-/

namespace Fornjot

/-! ## Vectors (fj_math::Vector<3> / Point<3>, embedded over ℚ) -/

/-- A 3D vector / point over exact rationals (embedding of `fj_math`'s
`Vector<3>` and `Point<3>`, which the kernel uses interchangeably via
coordinate-wise arithmetic). -/
structure Vec3 where
  x : ℚ
  y : ℚ
  z : ℚ
deriving DecidableEq, Repr

instance : Zero Vec3 := ⟨⟨0, 0, 0⟩⟩

instance : Add Vec3 := ⟨fun a b => ⟨a.x + b.x, a.y + b.y, a.z + b.z⟩⟩

instance : Sub Vec3 := ⟨fun a b => ⟨a.x - b.x, a.y - b.y, a.z - b.z⟩⟩

instance : Inhabited Vec3 := ⟨0⟩

/-! ## Affine transforms (fj_math::Transform over ℚ)

The kernel only ever feeds rigid transforms (in the sweep: pure translations)
to `transform` methods.  We embed a general affine transform as a 3×3 matrix
plus a translation vector; `transform_point` applies both, `transform_vector`
only the linear part. -/

/-- A 3×3 matrix over ℚ, row-major. -/
structure Mat3 where
  m00 : ℚ
  m01 : ℚ
  m02 : ℚ
  m10 : ℚ
  m11 : ℚ
  m12 : ℚ
  m20 : ℚ
  m21 : ℚ
  m22 : ℚ
deriving DecidableEq, Repr

/-- The identity matrix. -/
def Mat3.id : Mat3 := ⟨1, 0, 0, 0, 1, 0, 0, 0, 1⟩

/-- Matrix-vector product. -/
def Mat3.mulVec (m : Mat3) (v : Vec3) : Vec3 :=
  ⟨m.m00 * v.x + m.m01 * v.y + m.m02 * v.z,
   m.m10 * v.x + m.m11 * v.y + m.m12 * v.z,
   m.m20 * v.x + m.m21 * v.y + m.m22 * v.z⟩

/-- Matrix transpose. -/
def Mat3.transpose (m : Mat3) : Mat3 :=
  ⟨m.m00, m.m10, m.m20, m.m01, m.m11, m.m21, m.m02, m.m12, m.m22⟩

/-- Matrix product. -/
def Mat3.mul (a b : Mat3) : Mat3 :=
  ⟨a.m00 * b.m00 + a.m01 * b.m10 + a.m02 * b.m20,
   a.m00 * b.m01 + a.m01 * b.m11 + a.m02 * b.m21,
   a.m00 * b.m02 + a.m01 * b.m12 + a.m02 * b.m22,
   a.m10 * b.m00 + a.m11 * b.m10 + a.m12 * b.m20,
   a.m10 * b.m01 + a.m11 * b.m11 + a.m12 * b.m21,
   a.m10 * b.m02 + a.m11 * b.m12 + a.m12 * b.m22,
   a.m20 * b.m00 + a.m21 * b.m10 + a.m22 * b.m20,
   a.m20 * b.m01 + a.m21 * b.m11 + a.m22 * b.m21,
   a.m20 * b.m02 + a.m21 * b.m12 + a.m22 * b.m22⟩

/-- An affine transform: linear part plus translation
(embedding of `fj_math::Transform`). -/
structure Transform where
  linear : Mat3
  shift : Vec3
deriving DecidableEq, Repr

/-- `Transform::translation(path)`: identity linear part, translation
by `path`. -/
def Transform.translation (v : Vec3) : Transform := ⟨Mat3.id, v⟩

/-- `Transform::transform_point`: applies both linear part and translation. -/
def Transform.transform_point (t : Transform) (p : Vec3) : Vec3 :=
  t.linear.mulVec p + t.shift

/-- `Transform::transform_vector`: applies only the linear part. -/
def Transform.transform_vector (t : Transform) (v : Vec3) : Vec3 :=
  t.linear.mulVec v

/-- A transform is rigid when its linear part is orthogonal. -/
def Transform.Rigid (t : Transform) : Prop :=
  t.linear.transpose.mul t.linear = Mat3.id

instance (t : Transform) : Decidable t.Rigid := by
  unfold Transform.Rigid; infer_instance

/-! ## Geometry: curves and surfaces

From `fj-kernel/src/geometry`.  The `Curve` enum's single variant is a line;
the curve source file itself is not in the provided sources, so `Line` and its
operations are modelled from the spec (§3: "Curve (variant: Line):
`{ origin, direction }`. Maps a 1D parameter `t` to `origin + t·direction`
and back. Transform produces a new Curve"). -/

/-- Modelled from the spec: a line, `{ origin: Point<3>, direction: Vector<3> }`
(the curve source file is absent from the provided sources). -/
structure Line where
  origin : Vec3
  direction : Vec3
deriving DecidableEq, Repr

/-- Modelled from the spec: `Line::from_points([a, b])` — the line through `a`
in direction `b - a`. -/
def Line.from_points (a b : Vec3) : Line := ⟨a, b - a⟩

/-- Modelled from the spec: transforming a line transforms its origin as a
point and its direction as a vector. -/
def Line.transform (l : Line) (t : Transform) : Line :=
  ⟨t.transform_point l.origin, t.transform_vector l.direction⟩

/-- The `Curve` enum (single variant: `Line`). -/
inductive Curve where
  | line : Line → Curve
deriving DecidableEq, Repr

instance : Inhabited Curve := ⟨.line ⟨0, 0⟩⟩

/-- `Curve::transform`, dispatching to the line. -/
def Curve.transform (c : Curve) (t : Transform) : Curve :=
  match c with
  | .line l => .line (l.transform t)

/-- `Curve::origin`. -/
def Curve.origin (c : Curve) : Vec3 :=
  match c with
  | .line l => l.origin

/-- `SweptCurve { curve, path }` from `geometry/surfaces/swept.rs`. -/
structure SweptCurve where
  curve : Curve
  path : Vec3
deriving DecidableEq, Repr

/-- `SweptCurve::transform` (swept.rs lines 29–33): transform the curve, and
the path as a vector. -/
def SweptCurve.transform (s : SweptCurve) (t : Transform) : SweptCurve :=
  ⟨s.curve.transform t, t.transform_vector s.path⟩

/-- `SweptCurve::plane_from_points([a, b, c])` (swept.rs lines 18–25):
curve through `a` and `b`, path `c - a`. -/
def SweptCurve.plane_from_points (a b c : Vec3) : SweptCurve :=
  ⟨.line (Line.from_points a b), c - a⟩

/-- `SweptCurve::point_surface_to_model` restricted to the ℚ embedding:
`curve(u) + v·path` (swept.rs lines 45–47). -/
def SweptCurve.point_surface_to_model (s : SweptCurve) (q : ℚ × ℚ) : Vec3 :=
  (match s.curve with
   | .line l => ⟨l.origin.x + q.1 * l.direction.x,
                 l.origin.y + q.1 * l.direction.y,
                 l.origin.z + q.1 * l.direction.z⟩) +
  ⟨q.2 * s.path.x, q.2 * s.path.y, q.2 * s.path.z⟩

/-- The `Surface` enum (single variant: `SweptCurve`),
from `geometry/surfaces/mod.rs`. -/
inductive Surface where
  | sweptCurve : SweptCurve → Surface
deriving DecidableEq, Repr

instance : Inhabited Surface := ⟨.sweptCurve ⟨default, 0⟩⟩

/-- `Surface::transform` (surfaces/mod.rs lines 31–38). -/
def Surface.transform (s : Surface) (t : Transform) : Surface :=
  match s with
  | .sweptCurve sc => .sweptCurve (sc.transform t)

/-- `Surface::point_surface_to_model` (surfaces/mod.rs lines 55–59). -/
def Surface.point_surface_to_model (s : Surface) (q : ℚ × ℚ) : Vec3 :=
  match s with
  | .sweptCurve sc => sc.point_surface_to_model q

/-! ## Triangles (fj_math::Triangle<3>) -/

/-- A 3D triangle carrying a color, as `fj_math::Triangle<3>` used by the
legacy `Face::Triangles` representation. -/
structure Triangle3 where
  a : Vec3
  b : Vec3
  c : Vec3
  color : ℕ × ℕ × ℕ × ℕ
deriving DecidableEq, Repr

/-- `Triangle::set_color`. -/
def Triangle3.set_color (t : Triangle3) (col : ℕ × ℕ × ℕ × ℕ) : Triangle3 :=
  { t with color := col }

/-- RGBA color bytes, `[u8; 4]`. -/
abbrev Color := ℕ × ℕ × ℕ × ℕ

/-! ## Handles and topology entities

The shape store and handle source files are absent from the provided sources
(only their callers are), so they are modelled from the spec (§3, §4.1):
an append-only arena per object kind; a handle is a shareable identity
reference into the store that dereferences to the current value.  Handle
provenance ("issued by this same store") is modelled by tagging every shape
with a numeric identity and every handle with the identity of the shape that
issued it, together with the slot index. -/

/-- Modelled from the spec: a handle into a shape store — the identity of the
issuing shape plus the slot index.  The type parameter is a phantom recording
the stored object kind. -/
structure Handle (α : Type) where
  shapeId : ℕ
  idx : ℕ
deriving DecidableEq, Repr

instance {α : Type} : Inhabited (Handle α) := ⟨⟨0, 0⟩⟩

/-- A vertex: wraps a handle to a stored `Point<3>`
(fj-kernel `topology::Vertex`). -/
structure Vertex where
  point : Handle Vec3
deriving DecidableEq, Repr

instance : Inhabited Vertex := ⟨⟨default⟩⟩

/-- An edge: a curve handle plus optional boundary vertices; `none` denotes a
continuous edge (fj-kernel `topology::Edge`). -/
structure Edge where
  curve : Handle Curve
  vertices : Option (Handle Vertex × Handle Vertex)
deriving DecidableEq, Repr

instance : Inhabited Edge := ⟨⟨default, none⟩⟩

/-- A cycle: an ordered list of edge handles (fj-kernel `topology::Cycle`). -/
structure Cycle where
  edges : List (Handle Edge)
deriving DecidableEq, Repr

instance : Inhabited Cycle := ⟨⟨[]⟩⟩

/-- `Face` from `topology/faces.rs`: either a boundary-representation face
(surface handle, cycle handles, color) or the legacy triangle list. -/
inductive Face where
  | face : Handle Surface → List (Handle Cycle) → Color → Face
  | triangles : List Triangle3 → Face
deriving DecidableEq, Repr

instance : Inhabited Face := ⟨.triangles []⟩

/-! ## The shape store (modelled from the spec) -/

/-- Modelled from the spec: the typed referential-integrity failure reported
by insertion operations (§7: "reported to the caller as a typed failure at
the point of insertion"). -/
inductive ValidationError where
  | structural : ValidationError
deriving DecidableEq, Repr

/-- Modelled from the spec: the shape store — an append-only arena per object
kind, tagged with the shape's identity for handle provenance. -/
structure Shape where
  id : ℕ
  points : List Vec3
  curves : List Curve
  surfaces : List Surface
  vertices : List Vertex
  edges : List Edge
  cycles : List Cycle
  faces : List Face
deriving DecidableEq, Repr

/-- `Shape::new()`, with an explicit store identity. -/
def Shape.new (n : ℕ) : Shape := ⟨n, [], [], [], [], [], [], []⟩

/-- Dereference a point handle (out-of-range slots yield a default; valid
handles never are). -/
def Shape.pointAt (s : Shape) (h : Handle Vec3) : Vec3 :=
  s.points.getD h.idx 0

/-- Dereference a curve handle. -/
def Shape.curveAt (s : Shape) (h : Handle Curve) : Curve :=
  s.curves.getD h.idx default

/-- Dereference a surface handle. -/
def Shape.surfaceAt (s : Shape) (h : Handle Surface) : Surface :=
  s.surfaces.getD h.idx default

/-- Dereference a vertex handle. -/
def Shape.vertexAt (s : Shape) (h : Handle Vertex) : Vertex :=
  s.vertices.getD h.idx default

/-- Dereference an edge handle. -/
def Shape.edgeAt (s : Shape) (h : Handle Edge) : Edge :=
  s.edges.getD h.idx default

/-- Dereference a cycle handle. -/
def Shape.cycleAt (s : Shape) (h : Handle Cycle) : Cycle :=
  s.cycles.getD h.idx default

/-- A point handle was issued by this store. -/
def Shape.okPointH (s : Shape) (h : Handle Vec3) : Bool :=
  h.shapeId == s.id && decide (h.idx < s.points.length)

/-- A curve handle was issued by this store. -/
def Shape.okCurveH (s : Shape) (h : Handle Curve) : Bool :=
  h.shapeId == s.id && decide (h.idx < s.curves.length)

/-- A surface handle was issued by this store. -/
def Shape.okSurfaceH (s : Shape) (h : Handle Surface) : Bool :=
  h.shapeId == s.id && decide (h.idx < s.surfaces.length)

/-- A vertex handle was issued by this store. -/
def Shape.okVertexH (s : Shape) (h : Handle Vertex) : Bool :=
  h.shapeId == s.id && decide (h.idx < s.vertices.length)

/-- An edge handle was issued by this store. -/
def Shape.okEdgeH (s : Shape) (h : Handle Edge) : Bool :=
  h.shapeId == s.id && decide (h.idx < s.edges.length)

/-- A cycle handle was issued by this store. -/
def Shape.okCycleH (s : Shape) (h : Handle Cycle) : Bool :=
  h.shapeId == s.id && decide (h.idx < s.cycles.length)

/-- `geometry().add_point` — infallible (no handles embedded). -/
def Shape.addPoint (s : Shape) (p : Vec3) : Handle Vec3 × Shape :=
  (⟨s.id, s.points.length⟩, { s with points := s.points ++ [p] })

/-- `geometry().add_curve` — infallible. -/
def Shape.addCurve (s : Shape) (c : Curve) : Handle Curve × Shape :=
  (⟨s.id, s.curves.length⟩, { s with curves := s.curves ++ [c] })

/-- `geometry().add_surface` — infallible. -/
def Shape.addSurface (s : Shape) (sf : Surface) : Handle Surface × Shape :=
  (⟨s.id, s.surfaces.length⟩, { s with surfaces := s.surfaces ++ [sf] })

/-- Modelled from the spec: `topology().add_vertex` — validates that the
embedded point handle was issued by this store; on failure the store is
returned unmodified with a typed error. -/
def Shape.addVertex (s : Shape) (v : Vertex) :
    Except ValidationError (Handle Vertex) × Shape :=
  if s.okPointH v.point then
    (.ok ⟨s.id, s.vertices.length⟩, { s with vertices := s.vertices ++ [v] })
  else
    (.error .structural, s)

/-- Modelled from the spec: `topology().add_edge` — validates the curve handle
and, for a discrete edge, both vertex handles. -/
def Shape.addEdge (s : Shape) (e : Edge) :
    Except ValidationError (Handle Edge) × Shape :=
  if s.okCurveH e.curve &&
      (match e.vertices with
       | none => true
       | some (a, b) => s.okVertexH a && s.okVertexH b) then
    (.ok ⟨s.id, s.edges.length⟩, { s with edges := s.edges ++ [e] })
  else
    (.error .structural, s)

/-- Modelled from the spec: `topology().add_cycle` — validates every edge
handle. -/
def Shape.addCycle (s : Shape) (c : Cycle) :
    Except ValidationError (Handle Cycle) × Shape :=
  if c.edges.all s.okEdgeH then
    (.ok ⟨s.id, s.cycles.length⟩, { s with cycles := s.cycles ++ [c] })
  else
    (.error .structural, s)

/-- Modelled from the spec: `topology().add_face` — for a boundary-rep face,
validates the surface handle and every cycle handle; the legacy triangle list
embeds no handles. -/
def Shape.addFace (s : Shape) (f : Face) :
    Except ValidationError (Handle Face) × Shape :=
  if (match f with
      | .face sh cys _ => s.okSurfaceH sh && cys.all s.okCycleH
      | .triangles _ => true) then
    (.ok ⟨s.id, s.faces.length⟩, { s with faces := s.faces ++ [f] })
  else
    (.error .structural, s)

/-- Total object count of a store. -/
def Shape.objectCount (s : Shape) : ℕ :=
  s.points.length + s.curves.length + s.surfaces.length + s.vertices.length +
    s.edges.length + s.cycles.length + s.faces.length

/-! ## Structural equality of topological objects

`Face`'s `PartialEq` (faces.rs lines 84–88) compares the dereferenced surface
and the dereferenced cycles; the equality of `Cycle`, `Edge` and `Vertex`
(whose source files are absent) is modelled from the spec as structural on the
dereferenced values — §3 demands that geometrically identical topology compare
equal across stores, which requires dereferencing down to point values. -/

/-- An edge with all handles dereferenced: its curve value and the point
values of its boundary vertices. -/
structure ResolvedEdge where
  curve : Curve
  vertices : Option (Vec3 × Vec3)
deriving DecidableEq, Repr

/-- Dereference an edge completely. -/
def resolveEdge (s : Shape) (e : Edge) : ResolvedEdge :=
  ⟨s.curveAt e.curve,
   e.vertices.map fun ab =>
     (s.pointAt (s.vertexAt ab.1).point, s.pointAt (s.vertexAt ab.2).point)⟩

/-- Dereference a cycle completely (ordered edge list). -/
def resolveCycle (s : Shape) (c : Cycle) : List ResolvedEdge :=
  c.edges.map fun eh => resolveEdge s (s.edgeAt eh)

/-- `Face::surface()` (faces.rs lines 55–64): dereferences the surface handle;
on the `Triangles` variant the accessor is `unreachable!` — modelled as
`none`. -/
def Face.surfaceAcc (s : Shape) : Face → Option Surface
  | .face sh _ _ => some (s.surfaceAt sh)
  | .triangles _ => none

/-- `Face::cycles()` (faces.rs lines 70–81) followed by full dereferencing;
`none` models the `unreachable!` panic on the `Triangles` variant. -/
def Face.cyclesAcc (s : Shape) : Face → Option (List (List ResolvedEdge))
  | .face _ cys _ => some (cys.map fun ch => resolveCycle s (s.cycleAt ch))
  | .triangles _ => none

/-- `impl PartialEq for Face` (faces.rs lines 84–88):
`self.surface() == other.surface() && self.cycles().eq(other.cycles())`.
`none` models the panic raised by the accessors on a `Triangles` operand.
Each operand is dereferenced through its own store. -/
def faceEq (sa : Shape) (fa : Face) (sb : Shape) (fb : Face) : Option Bool :=
  match fa.surfaceAcc sa, fb.surfaceAcc sb, fa.cyclesAcc sa, fb.cyclesAcc sb with
  | some ssa, some ssb, some ca, some cb =>
      some (decide (ssa = ssb) && decide (ca = cb))
  | _, _, _, _ => none

/-! ## Boundary approximation (modelled from the spec)

`approximate_cycle`'s source file is absent from the provided sources (only
its caller in sweep.rs is).  Modelled from the spec (§4.3): samples the
cycle's curves into an ordered, closed polyline within the tolerance,
deterministically, with the point count nondecreasing as tolerance shrinks.
The only curve variant is a line (spec §1 non-goals), which any polyline
follows exactly, so no tolerance-dependent refinement is required. -/

/-- Remove consecutive duplicate points (seams where one edge's end vertex is
the next edge's start vertex). -/
def dedupConsec : List Vec3 → List Vec3
  | [] => []
  | [a] => [a]
  | a :: b :: rest =>
      if a = b then dedupConsec (b :: rest) else a :: dedupConsec (b :: rest)

/-- Modelled from the spec: approximate one edge.  A discrete edge on a line
is sampled by its two boundary vertices; a continuous edge on a line is the
degenerate closed loop out along the direction and back. -/
def approximateEdge (s : Shape) (e : Edge) : List Vec3 :=
  match e.vertices with
  | some (a, b) => [s.pointAt (s.vertexAt a).point, s.pointAt (s.vertexAt b).point]
  | none =>
      match s.curveAt e.curve with
      | .line l => [l.origin, l.origin + l.direction, l.origin]

/-- Modelled from the spec: `approximate_cycle(cycle, tolerance)` — the
edge samples in cycle order, with seam duplicates removed.  The tolerance does
not influence the sampling of lines, the only curve variant. -/
def approximate_cycle (s : Shape) (c : Cycle) (tolerance : ℚ) : List Vec3 :=
  dedupConsec ((c.edges.map fun eh => approximateEdge s (s.edgeAt eh)).flatten)

/-! ## The sweep algorithm (algorithms/sweep.rs) -/

/-- Unwrap a guaranteed-present insertion result (`.unwrap()` in sweep.rs);
the error branch is unreachable for the handles the sweep constructs. -/
def exUnwrap {α : Type} : Except ValidationError (Handle α) → Handle α
  | .ok h => h
  | .error _ => default

/-- Association-list lookup (the `HashMap` lookups of sweep.rs, keyed by
handles). -/
def rlookup {α β : Type} [DecidableEq α] : List (α × β) → α → Option β
  | [], _ => none
  | (k, v) :: rest, k' => if k' = k then some v else rlookup rest k'

/-- Lookup with the `.unwrap()` of sweep.rs; absence is unreachable by
construction. -/
def rlookupD {α β : Type} [DecidableEq α] [Inhabited β]
    (l : List (α × β)) (k : α) : β :=
  (rlookup l k).getD default

/-- The `Relation` bookkeeping of sweep.rs (lines 270–283): maps from source
handles to target handles, per object kind. -/
structure Rel where
  verts : List (Handle Vertex × Handle Vertex)
  edges : List (Handle Edge × Handle Edge)
  cycles : List (Handle Cycle × Handle Cycle)
deriving DecidableEq, Repr

/-- `Relation::new()`. -/
def Rel.new : Rel := ⟨[], [], []⟩

/-- `Relation::vertices_for_edge` (sweep.rs lines 285–292). -/
def Rel.verticesForEdge (r : Rel) (source : Shape) (eh : Handle Edge) :
    Option (Handle Vertex × Handle Vertex) :=
  (source.edgeAt eh).vertices.map fun ab =>
    (rlookupD r.verts ab.1, rlookupD r.verts ab.2)

/-- `Relation::edges_for_cycle` (sweep.rs lines 294–301). -/
def Rel.edgesForCycle (r : Rel) (source : Shape) (ch : Handle Cycle) :
    List (Handle Edge) :=
  (source.cycleAt ch).edges.map fun eh => rlookupD r.edges eh

/-- `Relation::cycles_for_face` (sweep.rs lines 303–317); the `Triangles`
variant is `unreachable!` there. -/
def Rel.cyclesForFace (r : Rel) (f : Face) : List (Handle Cycle) :=
  match f with
  | .face _ cys _ => cys.map fun ch => rlookupD r.cycles ch
  | .triangles _ => []

/-- The handles of all vertices of a shape, in insertion order
(`source.topology().vertices()`). -/
def vertexHandles (s : Shape) : List (Handle Vertex) :=
  (List.range s.vertices.length).map fun i => ⟨s.id, i⟩

/-- The handles of all edges of a shape, in insertion order. -/
def edgeHandles (s : Shape) : List (Handle Edge) :=
  (List.range s.edges.length).map fun i => ⟨s.id, i⟩

/-- The handles of all cycles of a shape, in insertion order. -/
def cycleHandles (s : Shape) : List (Handle Cycle) :=
  (List.range s.cycles.length).map fun i => ⟨s.id, i⟩

/-- The loop body of sweep step 1 (sweep.rs lines 28–48) for one source
vertex: insert a bottom copy of its point and a top copy translated by
`path`, a bottom and a top vertex over them, and record both relations. -/
def sweepVertexStep (source : Shape) (path : Vec3) (h : Handle Vertex)
    (t : Shape) (rb rt : Rel) : Shape × Rel × Rel :=
  let p := source.pointAt (source.vertexAt h).point
  let (pb, t1) := t.addPoint p
  let (pt, t2) := t1.addPoint (t1.pointAt pb + path)
  let (rvb, t3) := t2.addVertex ⟨pb⟩
  let vb := exUnwrap rvb
  let (rvt, t4) := t3.addVertex ⟨pt⟩
  let vt := exUnwrap rvt
  (t4, { rb with verts := rb.verts ++ [(h, vb)] },
    { rt with verts := rt.verts ++ [(h, vt)] })

/-- Sweep step 1 (sweep.rs lines 27–48): the vertex loop. -/
def sweepVertices (source : Shape) (path : Vec3) :
    List (Handle Vertex) → Shape → Rel → Rel → Shape × Rel × Rel
  | [], t, rb, rt => (t, rb, rt)
  | h :: hs, t, rb, rt =>
      let (t', rb', rt') := sweepVertexStep source path h t rb rt
      sweepVertices source path hs t' rb' rt'

/-- The loop body of sweep step 2 (sweep.rs lines 51–80) for one source edge:
insert a bottom curve (copy) and a top curve (translated), then bottom and
top edges over the mapped vertices, and record both relations. -/
def sweepEdgeStep (source : Shape) (translation : Transform) (h : Handle Edge)
    (t : Shape) (rb rt : Rel) : Shape × Rel × Rel :=
  let (cb, t1) := t.addCurve (source.curveAt (source.edgeAt h).curve)
  let (ct, t2) := t1.addCurve ((t1.curveAt cb).transform translation)
  let vsB := rb.verticesForEdge source h
  let vsT := rt.verticesForEdge source h
  let (reb, t3) := t2.addEdge ⟨cb, vsB⟩
  let eb := exUnwrap reb
  let (ret, t4) := t3.addEdge ⟨ct, vsT⟩
  let et := exUnwrap ret
  (t4, { rb with edges := rb.edges ++ [(h, eb)] },
    { rt with edges := rt.edges ++ [(h, et)] })

/-- Sweep step 2 (sweep.rs lines 50–80): the edge loop. -/
def sweepEdges (source : Shape) (translation : Transform) :
    List (Handle Edge) → Shape → Rel → Rel → Shape × Rel × Rel
  | [], t, rb, rt => (t, rb, rt)
  | h :: hs, t, rb, rt =>
      let (t', rb', rt') := sweepEdgeStep source translation h t rb rt
      sweepEdges source translation hs t' rb' rt'

/-- The loop body of sweep step 3 (sweep.rs lines 83–102) for one source
cycle: insert bottom and top cycles over the mapped edges, and record both
relations. -/
def sweepCycleStep (source : Shape) (h : Handle Cycle)
    (t : Shape) (rb rt : Rel) : Shape × Rel × Rel :=
  let edgesB := rb.edgesForCycle source h
  let edgesT := rt.edgesForCycle source h
  let (rcb, t1) := t.addCycle ⟨edgesB⟩
  let cb := exUnwrap rcb
  let (rct, t2) := t1.addCycle ⟨edgesT⟩
  let ct := exUnwrap rct
  (t2, { rb with cycles := rb.cycles ++ [(h, cb)] },
    { rt with cycles := rt.cycles ++ [(h, ct)] })

/-- Sweep step 3 (sweep.rs lines 82–102): the cycle loop. -/
def sweepCycles (source : Shape) :
    List (Handle Cycle) → Shape → Rel → Rel → Shape × Rel × Rel
  | [], t, rb, rt => (t, rb, rt)
  | h :: hs, t, rb, rt =>
      let (t', rb', rt') := sweepCycleStep source h t rb rt
      sweepCycles source hs t' rb' rt'

/-- The loop body of sweep step 4 (sweep.rs lines 105–131) for one source
face: insert the bottom surface (copy) and top surface (translated), then
bottom and top cap faces over the mapped cycles, both with the
caller-supplied color.  A `Triangles` source face is `unreachable!` in the
accessors used there. -/
def sweepCapStep (source : Shape) (translation : Transform) (color : Color)
    (rb rt : Rel) (f : Face) (t : Shape) : Shape :=
  match f with
  | .face sh _ _ =>
      let (sb, t1) := t.addSurface (source.surfaceAt sh)
      let (st, t2) := t1.addSurface ((t1.surfaceAt sb).transform translation)
      let cyB := rb.cyclesForFace f
      let cyT := rt.cyclesForFace f
      let (_, t3) := t2.addFace (.face sb cyB color)
      let (_, t4) := t3.addFace (.face st cyT color)
      t4
  | .triangles _ => t

/-- Sweep step 4 (sweep.rs lines 104–131): the cap-face loop. -/
def sweepCapFaces (source : Shape) (translation : Transform) (color : Color)
    (rb rt : Rel) : List Face → Shape → Shape
  | [], t => t
  | f :: fs, t =>
      sweepCapFaces source translation color rb rt fs
        (sweepCapStep source translation color rb rt f t)

/-- Consecutive windows of length two (`approx.windows(2)` in sweep.rs). -/
def windows2 {α : Type} : List α → List (α × α)
  | a :: b :: rest => (a, b) :: windows2 (b :: rest)
  | _ => []

/-- The triangle list of the continuous-edge fallback (sweep.rs lines
147–173): one quad per consecutive pair of polyline points and its
path-translate, each quad split into two triangles, all tagged with the
caller-supplied color. -/
def contTriangles (approx : List Vec3) (path : Vec3) (color : Color) :
    List Triangle3 :=
  let quads := (windows2 approx).map fun pq =>
    (pq.1, pq.2, pq.2 + path, pq.1 + path)
  let sideFace := (quads.map fun q =>
    [Triangle3.mk q.1 q.2.1 q.2.2.1 (0, 0, 0, 0),
     Triangle3.mk q.1 q.2.2.1 q.2.2.2 (0, 0, 0, 0)]).flatten
  sideFace.map fun tr => tr.set_color color

/-- The side-edge cache of one cycle, keyed by the bottom vertex handle
(`vertex_bottom_to_edge` in sweep.rs line 183). -/
abbrev Cache := List (Handle Vertex × Handle Edge)

/-- One `vertices_source.map(..)` step of sweep.rs lines 193–226: fetch the
cached side edge for the vertex's bottom copy, or create the curve and the
bottom-to-top side edge and cache it. -/
def sideEdgeFor (source : Shape) (rb rt : Rel) (eh : Handle Edge)
    (vs : Handle Vertex) (t : Shape) (cache : Cache) :
    Handle Edge × Shape × Cache :=
  let vb := rlookupD rb.verts vs
  match rlookup cache vb with
  | some e => (e, t, cache)
  | none =>
      let (cvh, t1) := t.addCurve (source.curveAt (source.edgeAt eh).curve)
      let vt := rlookupD rt.verts vs
      let (re, t2) := t1.addEdge ⟨cvh, some (vb, vt)⟩
      let e := exUnwrap re
      (e, t2, cache ++ [(vb, e)])

/-- The per-edge body of the general (boundary-representation) side-face
construction (sweep.rs lines 185–263): derive or reuse the two side edges,
build the swept side surface from the bottom edge's curve, the four-edge side
cycle and the side face. -/
def sideFaceStep (source : Shape) (rb rt : Rel) (path : Vec3) (color : Color)
    (eh : Handle Edge) (st : Shape × Cache) : Shape × Cache :=
  match (source.edgeAt eh).vertices with
  | none =>
      -- The continuous-edge case was ruled out: in the Rust code this
      -- `unwrap` cannot panic for supported (unmixed) inputs.
      st
  | some (a, b) =>
      let (sea, t1, cache1) := sideEdgeFor source rb rt eh a st.1 st.2
      let (seb, t2, cache2) := sideEdgeFor source rb rt eh b t1 cache1
      let beh := rlookupD rb.edges eh
      let teh := rlookupD rt.edges eh
      let (sh, t3) :=
        t2.addSurface (.sweptCurve ⟨t2.curveAt (t2.edgeAt beh).curve, path⟩)
      let (rc, t4) := t3.addCycle ⟨[beh, teh, sea, seb]⟩
      let cyh := exUnwrap rc
      let (_, t5) := t4.addFace (.face sh [cyh] color)
      (t5, cache2)

/-- The general side-face construction for all edges of one discrete cycle,
threading the target and the per-cycle side-edge cache. -/
def sideFacesForCycle (source : Shape) (rb rt : Rel) (path : Vec3)
    (color : Color) : List (Handle Edge) → Shape × Cache → Shape × Cache
  | [], st => st
  | eh :: rest, st =>
      sideFacesForCycle source rb rt path color rest
        (sideFaceStep source rb rt path color eh st)

/-- The per-cycle body of sweep step 5 (sweep.rs lines 133–265): either the
continuous-edge fallback (exactly one edge: approximate, form quads with the
path-translated copy, split each quad into two triangles, insert one
`Triangles` face) or the general boundary-representation side faces, with a
fresh side-edge cache for the cycle. -/
def sweepSideStep (source : Shape) (rb rt : Rel) (path : Vec3)
    (tolerance : ℚ) (color : Color) (ch : Handle Cycle) (t : Shape) : Shape :=
  if (source.cycleAt ch).edges.length == 1 then
    (t.addFace (.triangles
      (contTriangles
        (approximate_cycle source (source.cycleAt ch) tolerance)
        path color))).2
  else
    (sideFacesForCycle source rb rt path color
      (source.cycleAt ch).edges (t, [])).1

/-- Sweep step 5 (sweep.rs lines 133–265): the side-face loop over all source
cycles. -/
def sweepSideFaces (source : Shape) (rb rt : Rel) (path : Vec3)
    (tolerance : ℚ) (color : Color) : List (Handle Cycle) → Shape → Shape
  | [], t => t
  | ch :: chs, t =>
      sweepSideFaces source rb rt path tolerance color chs
        (sweepSideStep source rb rt path tolerance color ch t)

/-- `sweep_shape(source, path, tolerance, color)` (sweep.rs lines 14–268):
build a brand-new target shape from bottom/top copies of the source's
vertices, edges, cycles and cap faces, plus side faces per source cycle.
The target store's identity is fresh (distinct from the source's). -/
def sweep_shape (source : Shape) (path : Vec3) (tolerance : ℚ)
    (color : Color) : Shape :=
  let target := Shape.new (source.id + 1)
  let translation := Transform.translation path
  let (t1, rb1, rt1) :=
    sweepVertices source path (vertexHandles source) target Rel.new Rel.new
  let (t2, rb2, rt2) :=
    sweepEdges source translation (edgeHandles source) t1 rb1 rt1
  let (t3, rb3, rt3) := sweepCycles source (cycleHandles source) t2 rb2 rt2
  let t4 := sweepCapFaces source translation color rb3 rt3 source.faces t3
  sweepSideFaces source rb3 rt3 path tolerance color (cycleHandles source) t4

/-! ## Face counting and source well-formedness -/

/-- Is a face the legacy triangle-list variant? -/
def isTriFace : Face → Bool
  | .triangles _ => true
  | .face _ _ _ => false

/-- Is a face the boundary-representation variant? -/
def isBrepFace : Face → Bool
  | .face _ _ _ => true
  | .triangles _ => false

/-- Number of `Triangles` faces in a face list. -/
def countTriL (l : List Face) : ℕ := (l.filter isTriFace).length

/-- Number of boundary-representation faces in a face list. -/
def countBrepL (l : List Face) : ℕ := (l.filter isBrepFace).length

/-- Number of `Triangles` faces of a shape. -/
def countTriFaces (s : Shape) : ℕ := countTriL s.faces

/-- Number of boundary-representation faces of a shape. -/
def countBrepFaces (s : Shape) : ℕ := countBrepL s.faces

/-- The vertex handles of an edge of `s`, if the edge is discrete. -/
def Shape.okEdgeVerts (s : Shape) (e : Edge) : Bool :=
  match e.vertices with
  | none => true
  | some (a, b) => s.okVertexH a && s.okVertexH b

/-- The source shape is well formed: every discrete edge's vertex handles,
every cycle's edge handles, and every face's cycle handles were issued by the
shape itself, and every face is boundary-representation (a `Triangles` face
cannot appear as a sweep input face). -/
def sourceWF (s : Shape) : Bool :=
  s.edges.all s.okEdgeVerts &&
  (s.cycles.all (fun c => c.edges.all s.okEdgeH) &&
   s.faces.all (fun f =>
     match f with
     | .face _ cys _ => cys.all s.okCycleH
     | .triangles _ => false))

/-- Every cycle that is not a single-edge cycle consists of discrete edges
only (the spec's edge-case policy: mixed cycles are unsupported). -/
def multiEdgeCyclesDiscrete (s : Shape) : Bool :=
  s.cycles.all fun c =>
    c.edges.length == 1 || c.edges.all fun eh => (s.edgeAt eh).vertices.isSome

/-- The first boundary vertex of an edge (a continuous edge yields the
default handle; never consulted for discrete chains). -/
def edgeFst (s : Shape) (eh : Handle Edge) : Handle Vertex :=
  match (s.edgeAt eh).vertices with
  | some (a, _) => a
  | none => default

/-- The second boundary vertex of an edge. -/
def edgeSnd (s : Shape) (eh : Handle Edge) : Handle Vertex :=
  match (s.edgeAt eh).vertices with
  | some (_, b) => b
  | none => default

/-- A cycle's edges form a closed discrete chain: all edges are discrete and
each edge's second vertex is the next edge's (cyclically) first vertex. -/
def closedChainB (s : Shape) (c : Cycle) : Bool :=
  c.edges.all (fun eh => (s.edgeAt eh).vertices.isSome) &&
  (List.range c.edges.length).all fun i =>
    edgeSnd s (c.edges.getD i default) ==
      edgeFst s (c.edges.getD ((i + 1) % c.edges.length) default)

/-- The total number of edge occurrences over all cycles of a shape. -/
def totalCycleEdges (s : Shape) : ℕ :=
  (s.cycles.map fun c => c.edges.length).sum

/-- The vertex handles of one edge, in occurrence order. -/
def edgeVertList (s : Shape) (eh : Handle Edge) : List (Handle Vertex) :=
  match (s.edgeAt eh).vertices with
  | some (a, b) => [a, b]
  | none => []

/-! ## Concrete shapes used as inputs -/

/-- The triangular sketch of the sweep unit test (sweep.rs lines 371–423):
three vertices, three line-segment edges, one cycle, one face on the plane
through the three points. -/
def triangleShape (sid : ℕ) (a b c : Vec3) : Shape :=
  let s0 := Shape.new sid
  let (pa, s1) := s0.addPoint a
  let (pb, s2) := s1.addPoint b
  let (pc, s3) := s2.addPoint c
  let (rva, s4) := s3.addVertex ⟨pa⟩
  let va := exUnwrap rva
  let (rvb, s5) := s4.addVertex ⟨pb⟩
  let vb := exUnwrap rvb
  let (rvc, s6) := s5.addVertex ⟨pc⟩
  let vc := exUnwrap rvc
  let (cab, s7) := s6.addCurve
    (.line (Line.from_points (s6.pointAt (s6.vertexAt va).point)
      (s6.pointAt (s6.vertexAt vb).point)))
  let (reab, s8) := s7.addEdge ⟨cab, some (va, vb)⟩
  let eab := exUnwrap reab
  let (cbc, s9) := s8.addCurve
    (.line (Line.from_points (s8.pointAt (s8.vertexAt vb).point)
      (s8.pointAt (s8.vertexAt vc).point)))
  let (rebc, s10) := s9.addEdge ⟨cbc, some (vb, vc)⟩
  let ebc := exUnwrap rebc
  let (cca, s11) := s10.addCurve
    (.line (Line.from_points (s10.pointAt (s10.vertexAt vc).point)
      (s10.pointAt (s10.vertexAt va).point)))
  let (reca, s12) := s11.addEdge ⟨cca, some (vc, va)⟩
  let eca := exUnwrap reca
  let (rcy, s13) := s12.addCycle ⟨[eab, ebc, eca]⟩
  let cy := exUnwrap rcy
  let (srf, s14) := s13.addSurface
    (.sweptCurve (SweptCurve.plane_from_points
      (s13.pointAt (s13.vertexAt va).point)
      (s13.pointAt (s13.vertexAt vb).point)
      (s13.pointAt (s13.vertexAt vc).point)))
  let (_, s15) := s14.addFace (.face srf [cy] (255, 0, 0, 255))
  s15

/-- The unit triangle sketch `{(0,0,0), (1,0,0), (0,1,0)}`. -/
def unitTriangleShape : Shape := triangleShape 0 ⟨0, 0, 0⟩ ⟨1, 0, 0⟩ ⟨0, 1, 0⟩

/-- The unit triangle sketch translated to height `h`:
`{(0,0,h), (1,0,h), (0,1,h)}`. -/
def raisedTriangleShape (h : ℚ) : Shape :=
  triangleShape 0 ⟨0, 0, h⟩ ⟨1, 0, h⟩ ⟨0, 1, h⟩

/-- A shape whose sole cycle consists of exactly one discrete (non-continuous)
edge: the input that separates "single edge" from "single continuous edge". -/
def singleDiscreteEdgeShape : Shape :=
  let s0 := Shape.new 0
  let (pa, s1) := s0.addPoint ⟨0, 0, 0⟩
  let (pb, s2) := s1.addPoint ⟨1, 0, 0⟩
  let (rva, s3) := s2.addVertex ⟨pa⟩
  let va := exUnwrap rva
  let (rvb, s4) := s3.addVertex ⟨pb⟩
  let vb := exUnwrap rvb
  let (cab, s5) := s4.addCurve (.line (Line.from_points ⟨0, 0, 0⟩ ⟨1, 0, 0⟩))
  let (reab, s6) := s5.addEdge ⟨cab, some (va, vb)⟩
  let eab := exUnwrap reab
  let (_, s7) := s6.addCycle ⟨[eab]⟩
  s7

/-- A "bowtie": one face bounded by two triangular cycles that share their
apex vertex (the first vertex inserted).  Exercises side-edge caching across
cycles of the same face set. -/
def bowtieShape : Shape :=
  let s0 := Shape.new 0
  let (pv, s1) := s0.addPoint ⟨0, 0, 0⟩
  let (p1, s2) := s1.addPoint ⟨1, 0, 0⟩
  let (p2, s3) := s2.addPoint ⟨1, 1, 0⟩
  let (p3, s4) := s3.addPoint ⟨-1, 0, 0⟩
  let (p4, s5) := s4.addPoint ⟨-1, -1, 0⟩
  let (rv, s6) := s5.addVertex ⟨pv⟩
  let v := exUnwrap rv
  let (ra, s7) := s6.addVertex ⟨p1⟩
  let a := exUnwrap ra
  let (rb, s8) := s7.addVertex ⟨p2⟩
  let b := exUnwrap rb
  let (rc, s9) := s8.addVertex ⟨p3⟩
  let c := exUnwrap rc
  let (rd, s10) := s9.addVertex ⟨p4⟩
  let d := exUnwrap rd
  let (c0, s11) := s10.addCurve (.line (Line.from_points ⟨0, 0, 0⟩ ⟨1, 0, 0⟩))
  let (re0, s12) := s11.addEdge ⟨c0, some (v, a)⟩
  let e0 := exUnwrap re0
  let (c1, s13) := s12.addCurve (.line (Line.from_points ⟨1, 0, 0⟩ ⟨1, 1, 0⟩))
  let (re1, s14) := s13.addEdge ⟨c1, some (a, b)⟩
  let e1 := exUnwrap re1
  let (c2, s15) := s14.addCurve (.line (Line.from_points ⟨1, 1, 0⟩ ⟨0, 0, 0⟩))
  let (re2, s16) := s15.addEdge ⟨c2, some (b, v)⟩
  let e2 := exUnwrap re2
  let (c3, s17) := s16.addCurve (.line (Line.from_points ⟨0, 0, 0⟩ ⟨-1, 0, 0⟩))
  let (re3, s18) := s17.addEdge ⟨c3, some (v, c)⟩
  let e3 := exUnwrap re3
  let (c4, s19) := s18.addCurve
    (.line (Line.from_points ⟨-1, 0, 0⟩ ⟨-1, -1, 0⟩))
  let (re4, s20) := s19.addEdge ⟨c4, some (c, d)⟩
  let e4 := exUnwrap re4
  let (c5, s21) := s20.addCurve
    (.line (Line.from_points ⟨-1, -1, 0⟩ ⟨0, 0, 0⟩))
  let (re5, s22) := s21.addEdge ⟨c5, some (d, v)⟩
  let e5 := exUnwrap re5
  let (rcy1, s23) := s22.addCycle ⟨[e0, e1, e2]⟩
  let cy1 := exUnwrap rcy1
  let (rcy2, s24) := s23.addCycle ⟨[e3, e4, e5]⟩
  let cy2 := exUnwrap rcy2
  let (srf, s25) := s24.addSurface
    (.sweptCurve (SweptCurve.plane_from_points ⟨0, 0, 0⟩ ⟨1, 0, 0⟩ ⟨1, 1, 0⟩))
  let (_, s26) := s25.addFace (.face srf [cy1, cy2] (255, 0, 0, 255))
  s26

/-- A shape whose sole boundary cycle is one continuous edge over the given
line, with one face over that cycle: the general input family of the
continuous-edge fallback. -/
def continuousEdgeShape (sid : ℕ) (l : Line) (srf : Surface)
    (fcol : Color) : Shape :=
  let s0 := Shape.new sid
  let (ch, s1) := s0.addCurve (.line l)
  let (re, s2) := s1.addEdge ⟨ch, none⟩
  let e := exUnwrap re
  let (rc, s3) := s2.addCycle ⟨[e]⟩
  let c := exUnwrap rc
  let (sh, s4) := s3.addSurface srf
  let (_, s5) := s4.addFace (.face sh [c] fcol)
  s5

/-! ## Resolution helpers and deep handle validity -/

/-- Resolve the edge behind a handle. -/
def resolveEdgeAt (t : Shape) (eh : Handle Edge) : ResolvedEdge :=
  resolveEdge t (t.edgeAt eh)

/-- Resolve the cycle behind a handle. -/
def resolveCycleAt (t : Shape) (ch : Handle Cycle) : List ResolvedEdge :=
  resolveCycle t (t.cycleAt ch)

/-- The resolved edge that the sweep's top copy of an edge denotes: the curve
transformed by the translation, the boundary points shifted by the path. -/
def ResolvedEdge.mapTop (re : ResolvedEdge) (translation : Transform)
    (path : Vec3) : ResolvedEdge :=
  ⟨re.curve.transform translation,
   re.vertices.map fun ab => (ab.1 + path, ab.2 + path)⟩

/-- A vertex handle and the point handle behind it are both valid. -/
def vertexDeepOk (t : Shape) (v : Handle Vertex) : Prop :=
  t.okVertexH v = true ∧ t.okPointH (t.vertexAt v).point = true

/-- An edge handle, its curve handle and its vertex handles are all valid. -/
def edgeDeepOk (t : Shape) (e : Handle Edge) : Prop :=
  t.okEdgeH e = true ∧ t.okCurveH (t.edgeAt e).curve = true ∧
    ∀ ab, (t.edgeAt e).vertices = some ab →
      vertexDeepOk t ab.1 ∧ vertexDeepOk t ab.2

/-- A cycle handle and everything reachable from it are valid. -/
def cycleDeepOk (t : Shape) (c : Handle Cycle) : Prop :=
  t.okCycleH c = true ∧ ∀ eh ∈ (t.cycleAt c).edges, edgeDeepOk t eh

/-- The bottom relation maps a source vertex handle to a valid target vertex
that resolves to the same point. -/
def vertexMapsToB (source : Shape)
    (rel : List (Handle Vertex × Handle Vertex)) (t : Shape)
    (h : Handle Vertex) : Prop :=
  ∃ v, rlookup rel h = some v ∧ vertexDeepOk t v ∧
    t.pointAt (t.vertexAt v).point = source.pointAt (source.vertexAt h).point

/-- The top relation maps a source vertex handle to a valid target vertex
that resolves to the source point shifted by the path. -/
def vertexMapsToT (source : Shape)
    (rel : List (Handle Vertex × Handle Vertex)) (t : Shape)
    (h : Handle Vertex) (path : Vec3) : Prop :=
  ∃ v, rlookup rel h = some v ∧ vertexDeepOk t v ∧
    t.pointAt (t.vertexAt v).point =
      source.pointAt (source.vertexAt h).point + path

/-- The bottom relation maps a source edge handle to a valid target edge with
the same resolution. -/
def edgeMapsToB (source : Shape) (rel : List (Handle Edge × Handle Edge))
    (t : Shape) (h : Handle Edge) : Prop :=
  ∃ e, rlookup rel h = some e ∧ edgeDeepOk t e ∧
    resolveEdgeAt t e = resolveEdgeAt source h

/-- The top relation maps a source edge handle to a valid target edge whose
resolution is the source resolution mapped to the top. -/
def edgeMapsToT (source : Shape) (rel : List (Handle Edge × Handle Edge))
    (t : Shape) (h : Handle Edge) (translation : Transform)
    (path : Vec3) : Prop :=
  ∃ e, rlookup rel h = some e ∧ edgeDeepOk t e ∧
    resolveEdgeAt t e = (resolveEdgeAt source h).mapTop translation path

/-- The bottom relation maps a source cycle handle to a valid target cycle
with the same resolution. -/
def cycleMapsToB (source : Shape) (rel : List (Handle Cycle × Handle Cycle))
    (t : Shape) (h : Handle Cycle) : Prop :=
  ∃ c, rlookup rel h = some c ∧ cycleDeepOk t c ∧
    resolveCycleAt t c = resolveCycleAt source h

/-- The top relation maps a source cycle handle to a valid target cycle whose
resolution is the source resolution mapped to the top. -/
def cycleMapsToT (source : Shape) (rel : List (Handle Cycle × Handle Cycle))
    (t : Shape) (h : Handle Cycle) (translation : Transform)
    (path : Vec3) : Prop :=
  ∃ c, rlookup rel h = some c ∧ cycleDeepOk t c ∧
    resolveCycleAt t c =
      (resolveCycleAt source h).map fun re => re.mapTop translation path

/-! ## List-extension order (append-only growth of the store) -/

/-- `l'` extends `l` by appending elements at the end. -/
def ListExt {α : Type} (l l' : List α) : Prop := ∃ u, l' = l ++ u

/-- `s'` is the same store after zero or more append-only insertions. -/
def ShapeExt (s s' : Shape) : Prop :=
  s'.id = s.id ∧ ListExt s.points s'.points ∧ ListExt s.curves s'.curves ∧
    ListExt s.surfaces s'.surfaces ∧ ListExt s.vertices s'.vertices ∧
    ListExt s.edges s'.edges ∧ ListExt s.cycles s'.cycles ∧
    ListExt s.faces s'.faces

/-- The target shape contains a bottom cap face over the given source face
data: a boundary-representation face whose surface resolves to the source
face's surface and whose cycle handles resolve to the source face's resolved
cycles, with all handles valid in the target. -/
def capFaceB (source t : Shape) (sh : Handle Surface)
    (cys : List (Handle Cycle)) (color : Color) : Prop :=
  ∃ sb cyB, Face.face sb cyB color ∈ t.faces ∧
    t.okSurfaceH sb = true ∧ (∀ ch ∈ cyB, cycleDeepOk t ch) ∧
    t.surfaceAt sb = source.surfaceAt sh ∧
    cyB.map (fun ch => resolveCycleAt t ch) =
      cys.map fun ch => resolveCycleAt source ch

/-- The target shape contains a top cap face over the given source face data:
the surface is the source face's surface transformed by the translation, the
cycles resolve to the source face's resolved cycles mapped to the top. -/
def capFaceT (source t : Shape) (sh : Handle Surface)
    (cys : List (Handle Cycle)) (color : Color) (translation : Transform)
    (path : Vec3) : Prop :=
  ∃ st cyT, Face.face st cyT color ∈ t.faces ∧
    t.okSurfaceH st = true ∧ (∀ ch ∈ cyT, cycleDeepOk t ch) ∧
    t.surfaceAt st = (source.surfaceAt sh).transform translation ∧
    cyT.map (fun ch => resolveCycleAt t ch) =
      cys.map fun ch =>
        (resolveCycleAt source ch).map fun re => re.mapTop translation path

/-- A boundary-representation side face as built by the sweep's general case:
a face over a swept-curve surface along the sweep path, bounded by a single
cycle of four edges, with all handles valid. -/
def sideBrepFace (t : Shape) (path : Vec3) (f : Face) : Prop :=
  ∃ sh ch color, f = Face.face sh [ch] color ∧
    t.okSurfaceH sh = true ∧ t.okCycleH ch = true ∧
    (∃ c, t.surfaceAt sh = Surface.sweptCurve ⟨c, path⟩) ∧
    (t.cycleAt ch).edges.length = 4

/-! ## Surface coordinate mappings over ℝ (geometry/surfaces/swept.rs)

`point_model_to_surface` divides by `normalize`/`magnitude`, which involve a
square root, so this part of the geometry is embedded over the real numbers.
The `Curve` mapping functions live in a source file absent from the provided
sources and are modelled from the spec (§4.2). -/

/-- A 3D vector over ℝ for the surface coordinate mappings. -/
structure Vec3R where
  x : ℝ
  y : ℝ
  z : ℝ

instance : Zero Vec3R := ⟨⟨0, 0, 0⟩⟩

instance : Add Vec3R := ⟨fun a b => ⟨a.x + b.x, a.y + b.y, a.z + b.z⟩⟩

instance : Sub Vec3R := ⟨fun a b => ⟨a.x - b.x, a.y - b.y, a.z - b.z⟩⟩

instance : SMul ℝ Vec3R := ⟨fun r v => ⟨r * v.x, r * v.y, r * v.z⟩⟩

/-- `Vector::dot`. -/
def dotR (a b : Vec3R) : ℝ := a.x * b.x + a.y * b.y + a.z * b.z

/-- `Vector::magnitude`: the Euclidean norm. -/
noncomputable def magnitudeR (v : Vec3R) : ℝ := Real.sqrt (dotR v v)

/-- `Vector::normalize`: the vector divided by its magnitude. -/
noncomputable def normalizeR (v : Vec3R) : Vec3R := (1 / magnitudeR v) • v

/-- A line over ℝ. -/
structure LineR where
  origin : Vec3R
  direction : Vec3R

/-- Modelled from the spec: `Curve::point_model_to_curve` for a line — the
1D parameter is obtained by the scalar projection of `point - origin` onto
the direction, mirroring the documented `v` formula of §4.2:
`((point − origin) · normalize(direction)) / |direction|`. -/
noncomputable def LineR.point_model_to_curve (l : LineR) (p : Vec3R) : ℝ :=
  dotR (p - l.origin) (normalizeR l.direction) / magnitudeR l.direction

/-- Modelled from the spec: `Curve::point_curve_to_model` for a line —
`origin + t·direction`. -/
def LineR.point_curve_to_model (l : LineR) (t : ℝ) : Vec3R :=
  l.origin + t • l.direction

/-- The `Curve` enum over ℝ (single variant: line). -/
inductive CurveR where
  | line : LineR → CurveR

/-- `Curve::origin`. -/
def CurveR.origin : CurveR → Vec3R
  | .line l => l.origin

/-- The direction of a curve (the line's direction). -/
def CurveR.direction : CurveR → Vec3R
  | .line l => l.direction

/-- `Curve::point_model_to_curve`, dispatching to the line. -/
noncomputable def CurveR.point_model_to_curve (c : CurveR) (p : Vec3R) : ℝ :=
  match c with
  | .line l => l.point_model_to_curve p

/-- `Curve::point_curve_to_model`, dispatching to the line. -/
def CurveR.point_curve_to_model (c : CurveR) (t : ℝ) : Vec3R :=
  match c with
  | .line l => l.point_curve_to_model t

/-- `SweptCurve` over ℝ. -/
structure SweptCurveR where
  curve : CurveR
  path : Vec3R

/-- `SweptCurve::point_model_to_surface` (swept.rs lines 36–42):
`u` via the curve's model-to-curve projection, and
`v = ((point − curve.origin) · normalize(path)) / |path|`. -/
noncomputable def SweptCurveR.point_model_to_surface (s : SweptCurveR) (p : Vec3R) : ℝ × ℝ :=
  (s.curve.point_model_to_curve p,
   dotR (p - s.curve.origin) (normalizeR s.path) / magnitudeR s.path)

/-- `SweptCurve::point_surface_to_model` (swept.rs lines 45–47):
`curve(u) + v·path`. -/
def SweptCurveR.point_surface_to_model (s : SweptCurveR) (q : ℝ × ℝ) : Vec3R :=
  s.curve.point_curve_to_model q.1 + q.2 • s.path

/-! ## The pre-workspace vertex type (src/kernel/topology/vertices.rs) -/

/-- The dual-coordinate geometric point `geometry::Point<1>` of the older
crate layout: a native 1D curve parameter plus the canonical 3D location. -/
structure OldPoint1 where
  native : ℚ
  canonical : Vec3
deriving DecidableEq, Repr

/-- `Vertex<1>` of src/kernel/topology/vertices.rs: wraps a
`geometry::Point<1>`. -/
structure OldVertex1 where
  point : OldPoint1
deriving DecidableEq, Repr

/-- `Vertex::<1>::transform` (vertices.rs lines 94–101): rebuild the inner
point from the untouched native coordinate and the transformed canonical
coordinate. -/
def OldVertex1.transform (v : OldVertex1) (t : Transform) : OldVertex1 :=
  ⟨⟨v.point.native, t.transform_point v.point.canonical⟩⟩


/-! # Theorems

Basic arithmetic and store lemmas, followed by the claim theorems. -/

@[simp] theorem Vec3.add_def (a b : Vec3) :
    a + b = ⟨a.x + b.x, a.y + b.y, a.z + b.z⟩ := rfl

@[simp] theorem Vec3.sub_def (a b : Vec3) :
    a - b = ⟨a.x - b.x, a.y - b.y, a.z - b.z⟩ := rfl

@[simp] theorem Vec3.zero_def : (0 : Vec3) = ⟨0, 0, 0⟩ := rfl

theorem Vec3.add_zero (v : Vec3) : v + 0 = v := by
  cases v; simp

@[simp] theorem Mat3.mulVec_id (v : Vec3) : Mat3.id.mulVec v = v := by
  cases v; simp [Mat3.mulVec, Mat3.id]

@[simp] theorem Vec3R.addR_def (a b : Vec3R) :
    a + b = ⟨a.x + b.x, a.y + b.y, a.z + b.z⟩ := rfl

@[simp] theorem Vec3R.subR_def (a b : Vec3R) :
    a - b = ⟨a.x - b.x, a.y - b.y, a.z - b.z⟩ := rfl

@[simp] theorem Vec3R.smul_def (r : ℝ) (v : Vec3R) :
    r • v = ⟨r * v.x, r * v.y, r * v.z⟩ := rfl

@[simp] theorem Vec3R.zeroR_def : (0 : Vec3R) = ⟨0, 0, 0⟩ := rfl

/-! ## List-extension and lookup lemmas -/

theorem ListExt.listRefl {α : Type} (l : List α) : ListExt l l := ⟨[], by simp⟩


theorem ListExt.listTrans {α : Type} {l1 l2 l3 : List α}
    (h1 : ListExt l1 l2) (h2 : ListExt l2 l3) : ListExt l1 l3 := by
  obtain ⟨u, hu⟩ := h1
  obtain ⟨v, hv⟩ := h2
  exact ⟨u ++ v, by simp [hv, hu]⟩

theorem ListExt.push {α : Type} (l : List α) (a : α) :
    ListExt l (l ++ [a]) := ⟨[a], rfl⟩

theorem ListExt.length_le {α : Type} {l l' : List α} (h : ListExt l l') :
    l.length ≤ l'.length := by
  obtain ⟨u, hu⟩ := h
  simp [hu]

theorem ListExt.getD_eq {α : Type} {l l' : List α} (h : ListExt l l')
    (i : ℕ) (hi : i < l.length) (d : α) : l'.getD i d = l.getD i d := by
  obtain ⟨u, hu⟩ := h
  subst hu
  simp [List.getD, List.getElem?_append_left hi]

theorem rlookup_append {α β : Type} [DecidableEq α] (l1 l2 : List (α × β))
    (k : α) :
    rlookup (l1 ++ l2) k =
      match rlookup l1 k with
      | some v => some v
      | none => rlookup l2 k := by
  induction l1 with
  | nil => simp [rlookup]
  | cons p rest ih =>
      by_cases h : k = p.1
      · simp [rlookup, h]
      · simp [rlookup, h, ih]

theorem rlookup_mem {α β : Type} [DecidableEq α] {l : List (α × β)} {k : α}
    {v : β} (h : rlookup l k = some v) : (k, v) ∈ l := by
  induction l with
  | nil => simp [rlookup] at h
  | cons p rest ih =>
      by_cases hk : k = p.1
      · simp [rlookup, hk] at h
        subst h hk
        simp
      · simp [rlookup, hk] at h
        exact List.mem_cons_of_mem _ (ih h)

theorem rlookup_eq_none {α β : Type} [DecidableEq α] {l : List (α × β)}
    {k : α} : rlookup l k = none ↔ k ∉ l.map Prod.fst := by
  induction l with
  | nil => simp [rlookup]
  | cons p rest ih =>
      by_cases hk : k = p.1
      · simp [rlookup, hk]
      · simp [rlookup, hk, ih]

/-! ## Store insertion lemmas -/

theorem addPoint_eq (s : Shape) (p : Vec3) :
    s.addPoint p =
      (⟨s.id, s.points.length⟩, { s with points := s.points ++ [p] }) := rfl

theorem addCurve_eq (s : Shape) (c : Curve) :
    s.addCurve c =
      (⟨s.id, s.curves.length⟩, { s with curves := s.curves ++ [c] }) := rfl

theorem addSurface_eq (s : Shape) (sf : Surface) :
    s.addSurface sf =
      (⟨s.id, s.surfaces.length⟩,
        { s with surfaces := s.surfaces ++ [sf] }) := rfl

theorem addVertex_ok {s : Shape} {v : Vertex} (h : s.okPointH v.point = true) :
    s.addVertex v =
      (.ok ⟨s.id, s.vertices.length⟩,
        { s with vertices := s.vertices ++ [v] }) := by
  simp [Shape.addVertex, h]

theorem addEdge_ok {s : Shape} {e : Edge}
    (hc : s.okCurveH e.curve = true)
    (hv : (match e.vertices with
           | none => true
           | some (a, b) => s.okVertexH a && s.okVertexH b) = true) :
    s.addEdge e =
      (.ok ⟨s.id, s.edges.length⟩, { s with edges := s.edges ++ [e] }) := by
  simp [Shape.addEdge, hc, hv]

theorem addCycle_ok {s : Shape} {c : Cycle}
    (h : c.edges.all s.okEdgeH = true) :
    s.addCycle c =
      (.ok ⟨s.id, s.cycles.length⟩, { s with cycles := s.cycles ++ [c] }) := by
  simp only [Shape.addCycle, h, if_true]

theorem addFace_ok {s : Shape} {f : Face}
    (h : (match f with
          | .face sh cys _ => s.okSurfaceH sh && cys.all s.okCycleH
          | .triangles _ => true) = true) :
    s.addFace f =
      (.ok ⟨s.id, s.faces.length⟩, { s with faces := s.faces ++ [f] }) := by
  simp only [Shape.addFace, h, if_true]

theorem addVertex_ext (s : Shape) (v : Vertex) :
    ShapeExt s (s.addVertex v).2 ∧ (s.addVertex v).2.points = s.points ∧
      (s.addVertex v).2.curves = s.curves ∧
      (s.addVertex v).2.surfaces = s.surfaces ∧
      (s.addVertex v).2.edges = s.edges ∧
      (s.addVertex v).2.cycles = s.cycles ∧
      (s.addVertex v).2.faces = s.faces := by
  by_cases h : s.okPointH v.point = true
  · simp [Shape.addVertex, h, ShapeExt, ListExt.listRefl, ListExt.push]
  · simp [Shape.addVertex, h, ShapeExt, ListExt.listRefl]

theorem addEdge_ext (s : Shape) (e : Edge) :
    ShapeExt s (s.addEdge e).2 ∧ (s.addEdge e).2.points = s.points ∧
      (s.addEdge e).2.curves = s.curves ∧
      (s.addEdge e).2.surfaces = s.surfaces ∧
      (s.addEdge e).2.vertices = s.vertices ∧
      (s.addEdge e).2.cycles = s.cycles ∧
      (s.addEdge e).2.faces = s.faces := by
  unfold Shape.addEdge
  by_cases h : (s.okCurveH e.curve &&
      (match e.vertices with
       | none => true
       | some (a, b) => s.okVertexH a && s.okVertexH b)) = true
  · simp [h, ShapeExt, ListExt.listRefl, ListExt.push]
  · simp only [Bool.not_eq_true] at h
    simp [h, ShapeExt, ListExt.listRefl]

theorem addCycle_ext (s : Shape) (c : Cycle) :
    ShapeExt s (s.addCycle c).2 ∧ (s.addCycle c).2.points = s.points ∧
      (s.addCycle c).2.curves = s.curves ∧
      (s.addCycle c).2.surfaces = s.surfaces ∧
      (s.addCycle c).2.vertices = s.vertices ∧
      (s.addCycle c).2.edges = s.edges ∧
      (s.addCycle c).2.faces = s.faces := by
  unfold Shape.addCycle
  by_cases h : c.edges.all s.okEdgeH = true
  · simp [h, ShapeExt, ListExt.listRefl, ListExt.push]
  · simp only [Bool.not_eq_true] at h
    simp [h, ShapeExt, ListExt.listRefl]

theorem addFace_ext (s : Shape) (f : Face) :
    ShapeExt s (s.addFace f).2 ∧ (s.addFace f).2.points = s.points ∧
      (s.addFace f).2.curves = s.curves ∧
      (s.addFace f).2.surfaces = s.surfaces ∧
      (s.addFace f).2.vertices = s.vertices ∧
      (s.addFace f).2.edges = s.edges ∧
      (s.addFace f).2.cycles = s.cycles := by
  unfold Shape.addFace
  by_cases h : (match f with
      | .face sh cys _ => s.okSurfaceH sh && cys.all s.okCycleH
      | .triangles _ => true) = true
  · simp [h, ShapeExt, ListExt.listRefl, ListExt.push]
  · simp only [Bool.not_eq_true] at h
    simp [h, ShapeExt, ListExt.listRefl]

theorem addPoint_ext (s : Shape) (p : Vec3) :
    ShapeExt s (s.addPoint p).2 := by
  simp [Shape.addPoint, ShapeExt, ListExt.listRefl, ListExt.push]

theorem addCurve_ext (s : Shape) (c : Curve) :
    ShapeExt s (s.addCurve c).2 := by
  simp [Shape.addCurve, ShapeExt, ListExt.listRefl, ListExt.push]

theorem addSurface_ext (s : Shape) (sf : Surface) :
    ShapeExt s (s.addSurface sf).2 := by
  simp [Shape.addSurface, ShapeExt, ListExt.listRefl, ListExt.push]

theorem ShapeExt.refl (s : Shape) : ShapeExt s s := by
  exact ⟨rfl, ListExt.listRefl _, ListExt.listRefl _, ListExt.listRefl _, ListExt.listRefl _,
    ListExt.listRefl _, ListExt.listRefl _, ListExt.listRefl _⟩

theorem ShapeExt.trans {s1 s2 s3 : Shape} (h1 : ShapeExt s1 s2)
    (h2 : ShapeExt s2 s3) : ShapeExt s1 s3 := by
  obtain ⟨i1, a1, b1, c1, d1, e1, f1, g1⟩ := h1
  obtain ⟨i2, a2, b2, c2, d2, e2, f2, g2⟩ := h2
  exact ⟨i2.trans i1, a1.listTrans a2, b1.listTrans b2, c1.listTrans c2, d1.listTrans d2,
    e1.listTrans e2, f1.listTrans f2, g1.listTrans g2⟩

theorem ShapeExt.okVertexH {s s' : Shape} (h : ShapeExt s s')
    {hv : Handle Vertex} (hok : s.okVertexH hv = true) :
    s'.okVertexH hv = true := by
  obtain ⟨hid, _, _, _, hverts, _, _, _⟩ := h
  simp only [Shape.okVertexH, Bool.and_eq_true, beq_iff_eq,
    decide_eq_true_eq] at hok ⊢
  exact ⟨hid ▸ hok.1, lt_of_lt_of_le hok.2 hverts.length_le⟩

theorem ShapeExt.okEdgeH {s s' : Shape} (h : ShapeExt s s')
    {he : Handle Edge} (hok : s.okEdgeH he = true) :
    s'.okEdgeH he = true := by
  obtain ⟨hid, _, _, _, _, hedges, _, _⟩ := h
  simp only [Shape.okEdgeH, Bool.and_eq_true, beq_iff_eq,
    decide_eq_true_eq] at hok ⊢
  exact ⟨hid ▸ hok.1, lt_of_lt_of_le hok.2 hedges.length_le⟩

theorem ShapeExt.okCycleH {s s' : Shape} (h : ShapeExt s s')
    {hc : Handle Cycle} (hok : s.okCycleH hc = true) :
    s'.okCycleH hc = true := by
  obtain ⟨hid, _, _, _, _, _, hcycles, _⟩ := h
  simp only [Shape.okCycleH, Bool.and_eq_true, beq_iff_eq,
    decide_eq_true_eq] at hok ⊢
  exact ⟨hid ▸ hok.1, lt_of_lt_of_le hok.2 hcycles.length_le⟩

theorem ShapeExt.okCurveH {s s' : Shape} (h : ShapeExt s s')
    {hc : Handle Curve} (hok : s.okCurveH hc = true) :
    s'.okCurveH hc = true := by
  obtain ⟨hid, _, hcurves, _, _, _, _, _⟩ := h
  simp only [Shape.okCurveH, Bool.and_eq_true, beq_iff_eq,
    decide_eq_true_eq] at hok ⊢
  exact ⟨hid ▸ hok.1, lt_of_lt_of_le hok.2 hcurves.length_le⟩

theorem ShapeExt.cycleAt {s s' : Shape} (h : ShapeExt s s')
    {hc : Handle Cycle} (hok : s.okCycleH hc = true) :
    s'.cycleAt hc = s.cycleAt hc := by
  obtain ⟨_, _, _, _, _, _, hcycles, _⟩ := h
  simp only [Shape.okCycleH, Bool.and_eq_true, decide_eq_true_eq] at hok
  exact hcycles.getD_eq _ hok.2 _

theorem ShapeExt.edgeAt {s s' : Shape} (h : ShapeExt s s')
    {he : Handle Edge} (hok : s.okEdgeH he = true) :
    s'.edgeAt he = s.edgeAt he := by
  obtain ⟨_, _, _, _, _, hedges, _, _⟩ := h
  simp only [Shape.okEdgeH, Bool.and_eq_true, decide_eq_true_eq] at hok
  exact hedges.getD_eq _ hok.2 _

theorem ShapeExt.pointAt {s s' : Shape} (h : ShapeExt s s')
    {hp : Handle Vec3} (hok : s.okPointH hp = true) :
    s'.pointAt hp = s.pointAt hp := by
  obtain ⟨_, hpoints, _, _, _, _, _, _⟩ := h
  simp only [Shape.okPointH, Bool.and_eq_true, decide_eq_true_eq] at hok
  exact hpoints.getD_eq _ hok.2 _

theorem ShapeExt.vertexAt {s s' : Shape} (h : ShapeExt s s')
    {hv : Handle Vertex} (hok : s.okVertexH hv = true) :
    s'.vertexAt hv = s.vertexAt hv := by
  obtain ⟨_, _, _, _, hverts, _, _, _⟩ := h
  simp only [Shape.okVertexH, Bool.and_eq_true, decide_eq_true_eq] at hok
  exact hverts.getD_eq _ hok.2 _

theorem ShapeExt.curveAt {s s' : Shape} (h : ShapeExt s s')
    {hc : Handle Curve} (hok : s.okCurveH hc = true) :
    s'.curveAt hc = s.curveAt hc := by
  obtain ⟨_, _, hcurves, _, _, _, _, _⟩ := h
  simp only [Shape.okCurveH, Bool.and_eq_true, decide_eq_true_eq] at hok
  exact hcurves.getD_eq _ hok.2 _

theorem ShapeExt.surfaceAt {s s' : Shape} (h : ShapeExt s s')
    {hs : Handle Surface} (hok : s.okSurfaceH hs = true) :
    s'.surfaceAt hs = s.surfaceAt hs := by
  obtain ⟨_, _, _, hsurfs, _, _, _, _⟩ := h
  simp only [Shape.okSurfaceH, Bool.and_eq_true, decide_eq_true_eq] at hok
  exact hsurfs.getD_eq _ hok.2 _

theorem ShapeExt.okPointH {s s' : Shape} (h : ShapeExt s s')
    {hp : Handle Vec3} (hok : s.okPointH hp = true) :
    s'.okPointH hp = true := by
  obtain ⟨hid, hpoints, _, _, _, _, _, _⟩ := h
  simp only [Shape.okPointH, Bool.and_eq_true, beq_iff_eq,
    decide_eq_true_eq] at hok ⊢
  exact ⟨hid ▸ hok.1, lt_of_lt_of_le hok.2 hpoints.length_le⟩

theorem ShapeExt.okSurfaceH {s s' : Shape} (h : ShapeExt s s')
    {hs : Handle Surface} (hok : s.okSurfaceH hs = true) :
    s'.okSurfaceH hs = true := by
  obtain ⟨hid, _, _, hsurfs, _, _, _, _⟩ := h
  simp only [Shape.okSurfaceH, Bool.and_eq_true, beq_iff_eq,
    decide_eq_true_eq] at hok ⊢
  exact ⟨hid ▸ hok.1, lt_of_lt_of_le hok.2 hsurfs.length_le⟩

theorem vertexDeepOk_ext {s s' : Shape} (h : ShapeExt s s')
    {v : Handle Vertex} (hd : vertexDeepOk s v) : vertexDeepOk s' v := by
  obtain ⟨h1, h2⟩ := hd
  exact ⟨h.okVertexH h1, by rw [h.vertexAt h1]; exact h.okPointH h2⟩

theorem vertexResolve_ext {s s' : Shape} (h : ShapeExt s s')
    {v : Handle Vertex} (hd : vertexDeepOk s v) :
    s'.pointAt (s'.vertexAt v).point = s.pointAt (s.vertexAt v).point := by
  obtain ⟨h1, h2⟩ := hd
  rw [h.vertexAt h1, h.pointAt h2]

theorem edgeDeepOk_ext {s s' : Shape} (h : ShapeExt s s')
    {e : Handle Edge} (hd : edgeDeepOk s e) : edgeDeepOk s' e := by
  obtain ⟨h1, h2, h3⟩ := hd
  refine ⟨h.okEdgeH h1, ?_, ?_⟩
  · rw [h.edgeAt h1]
    exact h.okCurveH h2
  · intro ab hab
    rw [h.edgeAt h1] at hab
    obtain ⟨ha, hb⟩ := h3 ab hab
    exact ⟨vertexDeepOk_ext h ha, vertexDeepOk_ext h hb⟩

theorem resolveEdgeAt_ext {s s' : Shape} (h : ShapeExt s s')
    {e : Handle Edge} (hd : edgeDeepOk s e) :
    resolveEdgeAt s' e = resolveEdgeAt s e := by
  obtain ⟨h1, h2, h3⟩ := hd
  unfold resolveEdgeAt resolveEdge
  rw [h.edgeAt h1, h.curveAt h2]
  cases hv : (s.edgeAt e).vertices with
  | none => rfl
  | some ab =>
      obtain ⟨⟨ha1, ha2⟩, ⟨hb1, hb2⟩⟩ := h3 ab hv
      simp only [Option.map_some']
      rw [h.vertexAt ha1, h.pointAt ha2, h.vertexAt hb1, h.pointAt hb2]

theorem cycleDeepOk_ext {s s' : Shape} (h : ShapeExt s s')
    {c : Handle Cycle} (hd : cycleDeepOk s c) : cycleDeepOk s' c := by
  obtain ⟨h1, h2⟩ := hd
  refine ⟨h.okCycleH h1, ?_⟩
  intro eh hmem
  rw [h.cycleAt h1] at hmem
  exact edgeDeepOk_ext h (h2 eh hmem)

theorem resolveCycleAt_ext {s s' : Shape} (h : ShapeExt s s')
    {c : Handle Cycle} (hd : cycleDeepOk s c) :
    resolveCycleAt s' c = resolveCycleAt s c := by
  obtain ⟨h1, h2⟩ := hd
  unfold resolveCycleAt resolveCycle
  rw [h.cycleAt h1]
  apply List.map_congr_left
  intro eh hmem
  exact resolveEdgeAt_ext h (h2 eh hmem)

theorem vertexMapsToB_ext {source s s' : Shape} (h : ShapeExt s s')
    {rel : List (Handle Vertex × Handle Vertex)} {hv : Handle Vertex}
    (hm : vertexMapsToB source rel s hv) : vertexMapsToB source rel s' hv := by
  obtain ⟨v, h1, h2, h3⟩ := hm
  exact ⟨v, h1, vertexDeepOk_ext h h2, by rw [vertexResolve_ext h h2]; exact h3⟩

theorem vertexMapsToT_ext {source s s' : Shape} (h : ShapeExt s s')
    {rel : List (Handle Vertex × Handle Vertex)} {hv : Handle Vertex}
    {path : Vec3} (hm : vertexMapsToT source rel s hv path) :
    vertexMapsToT source rel s' hv path := by
  obtain ⟨v, h1, h2, h3⟩ := hm
  exact ⟨v, h1, vertexDeepOk_ext h h2, by rw [vertexResolve_ext h h2]; exact h3⟩

theorem edgeMapsToB_ext {source s s' : Shape} (h : ShapeExt s s')
    {rel : List (Handle Edge × Handle Edge)} {he : Handle Edge}
    (hm : edgeMapsToB source rel s he) : edgeMapsToB source rel s' he := by
  obtain ⟨e, h1, h2, h3⟩ := hm
  exact ⟨e, h1, edgeDeepOk_ext h h2, by rw [resolveEdgeAt_ext h h2]; exact h3⟩

theorem edgeMapsToT_ext {source s s' : Shape} (h : ShapeExt s s')
    {rel : List (Handle Edge × Handle Edge)} {he : Handle Edge}
    {translation : Transform} {path : Vec3}
    (hm : edgeMapsToT source rel s he translation path) :
    edgeMapsToT source rel s' he translation path := by
  obtain ⟨e, h1, h2, h3⟩ := hm
  exact ⟨e, h1, edgeDeepOk_ext h h2, by rw [resolveEdgeAt_ext h h2]; exact h3⟩

theorem cycleMapsToB_ext {source s s' : Shape} (h : ShapeExt s s')
    {rel : List (Handle Cycle × Handle Cycle)} {hc : Handle Cycle}
    (hm : cycleMapsToB source rel s hc) : cycleMapsToB source rel s' hc := by
  obtain ⟨c, h1, h2, h3⟩ := hm
  exact ⟨c, h1, cycleDeepOk_ext h h2, by rw [resolveCycleAt_ext h h2]; exact h3⟩

theorem cycleMapsToT_ext {source s s' : Shape} (h : ShapeExt s s')
    {rel : List (Handle Cycle × Handle Cycle)} {hc : Handle Cycle}
    {translation : Transform} {path : Vec3}
    (hm : cycleMapsToT source rel s hc translation path) :
    cycleMapsToT source rel s' hc translation path := by
  obtain ⟨c, h1, h2, h3⟩ := hm
  exact ⟨c, h1, cycleDeepOk_ext h h2, by rw [resolveCycleAt_ext h h2]; exact h3⟩

theorem getD_append_len {α : Type} (l : List α) (a : α) (u : List α)
    (d : α) : (l ++ a :: u).getD l.length d = a := by
  induction l with
  | nil => rfl
  | cons x xs ih => simpa using ih

/-! ## Step lemmas for the sweep phases -/

theorem addVertex_fresh (s : Shape) (i : ℕ) (hi : i < s.points.length) :
    s.addVertex ⟨⟨s.id, i⟩⟩ =
      (.ok ⟨s.id, s.vertices.length⟩,
        { s with vertices := s.vertices ++ [⟨⟨s.id, i⟩⟩] }) :=
  addVertex_ok (by simp [Shape.okPointH, hi])

theorem sweepVertexStep_spec (source : Shape) (path : Vec3)
    (h : Handle Vertex) (t : Shape) (rb rt : Rel) :
    ∃ vb vt,
      (sweepVertexStep source path h t rb rt).2.1 =
        { rb with verts := rb.verts ++ [(h, vb)] } ∧
      (sweepVertexStep source path h t rb rt).2.2 =
        { rt with verts := rt.verts ++ [(h, vt)] } ∧
      ShapeExt t (sweepVertexStep source path h t rb rt).1 ∧
      (sweepVertexStep source path h t rb rt).1.curves = t.curves ∧
      (sweepVertexStep source path h t rb rt).1.surfaces = t.surfaces ∧
      (sweepVertexStep source path h t rb rt).1.edges = t.edges ∧
      (sweepVertexStep source path h t rb rt).1.cycles = t.cycles ∧
      (sweepVertexStep source path h t rb rt).1.faces = t.faces ∧
      vertexDeepOk (sweepVertexStep source path h t rb rt).1 vb ∧
      vertexDeepOk (sweepVertexStep source path h t rb rt).1 vt ∧
      (sweepVertexStep source path h t rb rt).1.pointAt
          ((sweepVertexStep source path h t rb rt).1.vertexAt vb).point =
        source.pointAt (source.vertexAt h).point ∧
      (sweepVertexStep source path h t rb rt).1.pointAt
          ((sweepVertexStep source path h t rb rt).1.vertexAt vt).point =
        source.pointAt (source.vertexAt h).point + path := by
  have hstep : sweepVertexStep source path h t rb rt =
      ({ t with
          points := t.points ++
            [source.pointAt (source.vertexAt h).point,
             ({ t with points := t.points ++
                 [source.pointAt (source.vertexAt h).point] } : Shape).pointAt
                 ⟨t.id, t.points.length⟩ + path],
          vertices := t.vertices ++
            [⟨⟨t.id, t.points.length⟩⟩, ⟨⟨t.id, t.points.length + 1⟩⟩] },
       { rb with verts := rb.verts ++ [(h, ⟨t.id, t.vertices.length⟩)] },
       { rt with verts := rt.verts ++ [(h, ⟨t.id, t.vertices.length + 1⟩)] }) := by
    unfold sweepVertexStep
    simp only [Shape.addPoint]
    rw [addVertex_fresh, addVertex_fresh]
    · simp only [exUnwrap, List.append_assoc, List.cons_append,
        List.nil_append, List.length_append, List.length_cons, List.length_nil]
    · simp only [List.length_append, List.length_cons, List.length_nil]
      omega
    · simp only [List.length_append, List.length_cons, List.length_nil]
      omega
  refine ⟨⟨t.id, t.vertices.length⟩, ⟨t.id, t.vertices.length + 1⟩, ?_, ?_,
    ?_, ?_, ?_, ?_, ?_, ?_, ?_, ?_, ?_, ?_⟩
  · rw [hstep]
  · rw [hstep]
  · rw [hstep]
    exact ⟨rfl, ⟨_, rfl⟩, ListExt.listRefl _, ListExt.listRefl _, ⟨_, rfl⟩,
      ListExt.listRefl _, ListExt.listRefl _, ListExt.listRefl _⟩
  · rw [hstep]
  · rw [hstep]
  · rw [hstep]
  · rw [hstep]
  · rw [hstep]
  · rw [hstep]
    constructor
    · simp only [Shape.okVertexH, beq_self_eq_true, Bool.true_and,
        List.length_append, List.length_cons, List.length_nil,
        decide_eq_true_eq]
      omega
    · show Shape.okPointH _ ((t.vertices ++ _).getD t.vertices.length _).point = true
      rw [getD_append_len]
      simp only [Shape.okPointH, beq_self_eq_true, Bool.true_and,
        List.length_append, List.length_cons, List.length_nil,
        decide_eq_true_eq]
      omega
  · rw [hstep]
    constructor
    · simp only [Shape.okVertexH, beq_self_eq_true, Bool.true_and,
        List.length_append, List.length_cons, List.length_nil,
        decide_eq_true_eq]
      omega
    · show Shape.okPointH _ ((t.vertices ++ _).getD (t.vertices.length + 1) _).point = true
      rw [show t.vertices.length + 1 = t.vertices.length + 1 + 0 from rfl]
      rw [show (t.vertices ++
          [(⟨⟨t.id, t.points.length⟩⟩ : Vertex), ⟨⟨t.id, t.points.length + 1⟩⟩]) =
          (t.vertices ++ [(⟨⟨t.id, t.points.length⟩⟩ : Vertex)]) ++
            [(⟨⟨t.id, t.points.length + 1⟩⟩ : Vertex)] by simp]
      rw [show t.vertices.length + 1 + 0 =
        (t.vertices ++ [(⟨⟨t.id, t.points.length⟩⟩ : Vertex)]).length by simp]
      rw [getD_append_len]
      simp only [Shape.okPointH, beq_self_eq_true, Bool.true_and,
        List.length_append, List.length_cons, List.length_nil,
        decide_eq_true_eq]
      omega
  · rw [hstep]
    show Shape.pointAt _ ((t.vertices ++ _).getD t.vertices.length _).point = _
    rw [getD_append_len]
    show (t.points ++ _).getD t.points.length _ = _
    rw [getD_append_len]
  · rw [hstep]
    show Shape.pointAt _ ((t.vertices ++ _).getD (t.vertices.length + 1) _).point = _
    rw [show (t.vertices ++
        [(⟨⟨t.id, t.points.length⟩⟩ : Vertex), ⟨⟨t.id, t.points.length + 1⟩⟩]) =
        (t.vertices ++ [(⟨⟨t.id, t.points.length⟩⟩ : Vertex)]) ++
          [(⟨⟨t.id, t.points.length + 1⟩⟩ : Vertex)] by simp]
    rw [show t.vertices.length + 1 =
      (t.vertices ++ [(⟨⟨t.id, t.points.length⟩⟩ : Vertex)]).length by simp]
    rw [getD_append_len]
    show (t.points ++ [_, _]).getD (t.points.length + 1) _ = _
    rw [show (t.points ++
        [source.pointAt (source.vertexAt h).point,
         ({ t with points := t.points ++
             [source.pointAt (source.vertexAt h).point] } : Shape).pointAt
             ⟨t.id, t.points.length⟩ + path]) =
        (t.points ++ [source.pointAt (source.vertexAt h).point]) ++
          [({ t with points := t.points ++
              [source.pointAt (source.vertexAt h).point] } : Shape).pointAt
              ⟨t.id, t.points.length⟩ + path] by simp]
    rw [show t.points.length + 1 =
      (t.points ++ [source.pointAt (source.vertexAt h).point]).length by simp]
    rw [getD_append_len]
    show (({ t with points := t.points ++ [_] } : Shape).points).getD
        t.points.length _ + path = _
    rw [show ({ t with points := t.points ++
        [source.pointAt (source.vertexAt h).point] } : Shape).points =
      t.points ++ [source.pointAt (source.vertexAt h).point] from rfl]
    rw [getD_append_len]

theorem getD_append_len1 {α : Type} (l : List α) (a b : α) (u : List α)
    (d : α) : (l ++ a :: b :: u).getD (l.length + 1) d = b := by
  have h := getD_append_len (l ++ [a]) b u d
  simpa [List.append_assoc] using h

theorem Shape.pointAt_eq (s : Shape) (h : Handle Vec3) :
    s.pointAt h = s.points.getD h.idx 0 := rfl

theorem Shape.curveAt_eq (s : Shape) (h : Handle Curve) :
    s.curveAt h = s.curves.getD h.idx default := rfl

theorem Shape.surfaceAt_eq (s : Shape) (h : Handle Surface) :
    s.surfaceAt h = s.surfaces.getD h.idx default := rfl

theorem Shape.vertexAt_eq (s : Shape) (h : Handle Vertex) :
    s.vertexAt h = s.vertices.getD h.idx default := rfl

theorem Shape.edgeAt_eq (s : Shape) (h : Handle Edge) :
    s.edgeAt h = s.edges.getD h.idx default := rfl

theorem Shape.cycleAt_eq (s : Shape) (h : Handle Cycle) :
    s.cycleAt h = s.cycles.getD h.idx default := rfl

theorem addEdge_fresh (s : Shape) (i : ℕ)
    (vs : Option (Handle Vertex × Handle Vertex))
    (hi : i < s.curves.length)
    (hvs : (match vs with
            | none => true
            | some (a, b) => s.okVertexH a && s.okVertexH b) = true) :
    s.addEdge ⟨⟨s.id, i⟩, vs⟩ =
      (.ok ⟨s.id, s.edges.length⟩,
        { s with edges := s.edges ++ [⟨⟨s.id, i⟩, vs⟩] }) :=
  addEdge_ok (by simp [Shape.okCurveH, hi]) hvs

theorem ListExt.push2 {α : Type} (l : List α) (a b : α) :
    ListExt l ((l ++ [a]) ++ [b]) := ⟨[a, b], by simp⟩

theorem ShapeExt.pushCurves (t : Shape) (X : List Curve) :
    ShapeExt t { t with curves := t.curves ++ X } :=
  ⟨rfl, ListExt.listRefl _, ⟨X, rfl⟩, ListExt.listRefl _, ListExt.listRefl _,
    ListExt.listRefl _, ListExt.listRefl _, ListExt.listRefl _⟩

theorem ShapeExt.pushCurvesEdges (t : Shape) (X : List Curve)
    (Y : List Edge) :
    ShapeExt t { t with curves := t.curves ++ X, edges := t.edges ++ Y } :=
  ⟨rfl, ListExt.listRefl _, ⟨X, rfl⟩, ListExt.listRefl _, ListExt.listRefl _,
    ⟨Y, rfl⟩, ListExt.listRefl _, ListExt.listRefl _⟩

theorem sweepEdgeStep_spec (source : Shape) (translation : Transform)
    (path : Vec3) (h : Handle Edge) (t : Shape) (rb rt : Rel)
    (hv : ∀ ab, (source.edgeAt h).vertices = some ab →
      (vertexMapsToB source rb.verts t ab.1 ∧
       vertexMapsToB source rb.verts t ab.2) ∧
      (vertexMapsToT source rt.verts t ab.1 path ∧
       vertexMapsToT source rt.verts t ab.2 path)) :
    ∃ eb et,
      (sweepEdgeStep source translation h t rb rt).2.1 =
        { rb with edges := rb.edges ++ [(h, eb)] } ∧
      (sweepEdgeStep source translation h t rb rt).2.2 =
        { rt with edges := rt.edges ++ [(h, et)] } ∧
      ShapeExt t (sweepEdgeStep source translation h t rb rt).1 ∧
      (sweepEdgeStep source translation h t rb rt).1.points = t.points ∧
      (sweepEdgeStep source translation h t rb rt).1.surfaces = t.surfaces ∧
      (sweepEdgeStep source translation h t rb rt).1.vertices = t.vertices ∧
      (sweepEdgeStep source translation h t rb rt).1.cycles = t.cycles ∧
      (sweepEdgeStep source translation h t rb rt).1.faces = t.faces ∧
      edgeDeepOk (sweepEdgeStep source translation h t rb rt).1 eb ∧
      edgeDeepOk (sweepEdgeStep source translation h t rb rt).1 et ∧
      resolveEdgeAt (sweepEdgeStep source translation h t rb rt).1 eb =
        resolveEdgeAt source h ∧
      resolveEdgeAt (sweepEdgeStep source translation h t rb rt).1 et =
        (resolveEdgeAt source h).mapTop translation path ∧
      (sweepEdgeStep source translation h t rb rt).1.edges.length =
        t.edges.length + 2 := by
  have hc1 : ({ t with curves := t.curves ++
      [source.curveAt (source.edgeAt h).curve] } : Shape).curveAt
      ⟨t.id, t.curves.length⟩ = source.curveAt (source.edgeAt h).curve := by
    rw [Shape.curveAt_eq]
    exact getD_append_len _ _ _ _
  have hstep : sweepEdgeStep source translation h t rb rt =
      ({ t with
          curves := t.curves ++
            [source.curveAt (source.edgeAt h).curve,
             (source.curveAt (source.edgeAt h).curve).transform translation],
          edges := t.edges ++
            [⟨⟨t.id, t.curves.length⟩, rb.verticesForEdge source h⟩,
             ⟨⟨t.id, t.curves.length + 1⟩, rt.verticesForEdge source h⟩] },
       { rb with edges := rb.edges ++ [(h, ⟨t.id, t.edges.length⟩)] },
       { rt with edges :=
          rt.edges ++ [(h, ⟨t.id, t.edges.length + 1⟩)] }) := by
    unfold sweepEdgeStep
    simp only [Shape.addCurve]
    rw [hc1]
    rw [addEdge_fresh]
    · rw [addEdge_fresh]
      · simp only [exUnwrap, List.append_assoc, List.cons_append,
          List.nil_append, List.length_append, List.length_cons,
          List.length_nil]
      · simp only [List.length_append, List.length_cons, List.length_nil]
        omega
      · cases hvv : (source.edgeAt h).vertices with
        | none => simp [Rel.verticesForEdge, hvv]
        | some ab =>
            obtain ⟨a, b⟩ := ab
            have hv2 := hv (a, b) hvv
            simp only at hv2
            obtain ⟨_, ⟨wa, hlwa, hdwa, _⟩, ⟨wb, hlwb, hdwb, _⟩⟩ := hv2
            simp only [Rel.verticesForEdge, hvv, Option.map_some', rlookupD,
              hlwa, hlwb, Option.getD_some, Bool.and_eq_true]
            constructor
            · refine ShapeExt.okVertexH ?_ hdwa.1
              exact ⟨rfl, ListExt.listRefl _, ListExt.push2 _ _ _, ListExt.listRefl _,
                ListExt.listRefl _, ListExt.push _ _, ListExt.listRefl _,
                ListExt.listRefl _⟩
            · refine ShapeExt.okVertexH ?_ hdwb.1
              exact ⟨rfl, ListExt.listRefl _, ListExt.push2 _ _ _, ListExt.listRefl _,
                ListExt.listRefl _, ListExt.push _ _, ListExt.listRefl _,
                ListExt.listRefl _⟩
    · simp only [List.length_append, List.length_cons, List.length_nil]
      omega
    · cases hvv : (source.edgeAt h).vertices with
      | none => simp [Rel.verticesForEdge, hvv]
      | some ab =>
          obtain ⟨a, b⟩ := ab
          have hv2 := hv (a, b) hvv
          simp only at hv2
          obtain ⟨⟨⟨va, hla, hdva, _⟩, ⟨vb, hlb, hdvb, _⟩⟩, _⟩ := hv2
          simp only [Rel.verticesForEdge, hvv, Option.map_some', rlookupD,
            hla, hlb, Option.getD_some, Bool.and_eq_true]
          constructor
          · refine ShapeExt.okVertexH ?_ hdva.1
            exact ⟨rfl, ListExt.listRefl _, ListExt.push2 _ _ _, ListExt.listRefl _,
              ListExt.listRefl _, ListExt.listRefl _, ListExt.listRefl _, ListExt.listRefl _⟩
          · refine ShapeExt.okVertexH ?_ hdvb.1
            exact ⟨rfl, ListExt.listRefl _, ListExt.push2 _ _ _, ListExt.listRefl _,
              ListExt.listRefl _, ListExt.listRefl _, ListExt.listRefl _, ListExt.listRefl _⟩
  have hText : ShapeExt t (sweepEdgeStep source translation h t rb rt).1 := by
    rw [hstep]
    exact ⟨rfl, ListExt.listRefl _, ⟨_, rfl⟩, ListExt.listRefl _, ListExt.listRefl _,
      ⟨_, rfl⟩, ListExt.listRefl _, ListExt.listRefl _⟩
  have heAtB : (sweepEdgeStep source translation h t rb rt).1.edgeAt
      ⟨t.id, t.edges.length⟩ =
      ⟨⟨t.id, t.curves.length⟩, rb.verticesForEdge source h⟩ := by
    rw [hstep, Shape.edgeAt_eq]
    exact getD_append_len _ _ _ _
  have heAtT : (sweepEdgeStep source translation h t rb rt).1.edgeAt
      ⟨t.id, t.edges.length + 1⟩ =
      ⟨⟨t.id, t.curves.length + 1⟩, rt.verticesForEdge source h⟩ := by
    rw [hstep, Shape.edgeAt_eq]
    exact getD_append_len1 _ _ _ _ _
  have hcAtB : (sweepEdgeStep source translation h t rb rt).1.curveAt
      ⟨t.id, t.curves.length⟩ = source.curveAt (source.edgeAt h).curve := by
    rw [hstep, Shape.curveAt_eq]
    exact getD_append_len _ _ _ _
  have hcAtT : (sweepEdgeStep source translation h t rb rt).1.curveAt
      ⟨t.id, t.curves.length + 1⟩ =
      (source.curveAt (source.edgeAt h).curve).transform translation := by
    rw [hstep, Shape.curveAt_eq]
    exact getD_append_len1 _ _ _ _ _
  refine ⟨⟨t.id, t.edges.length⟩, ⟨t.id, t.edges.length + 1⟩, ?_, ?_, hText,
    ?_, ?_, ?_, ?_, ?_, ?_, ?_, ?_, ?_, ?_⟩
  · rw [hstep]
  · rw [hstep]
  · rw [hstep]
  · rw [hstep]
  · rw [hstep]
  · rw [hstep]
  · rw [hstep]
  · refine ⟨?_, ?_, ?_⟩
    · rw [hstep]
      simp only [Shape.okEdgeH, beq_self_eq_true, Bool.true_and,
        List.length_append, List.length_cons, List.length_nil,
        decide_eq_true_eq]
      omega
    · rw [heAtB]
      rw [hstep]
      simp only [Shape.okCurveH, beq_self_eq_true, Bool.true_and,
        List.length_append, List.length_cons, List.length_nil,
        decide_eq_true_eq]
      omega
    · intro ab hab
      rw [heAtB] at hab
      simp only at hab
      cases hvv : (source.edgeAt h).vertices with
      | none => simp [Rel.verticesForEdge, hvv] at hab
      | some ab0 =>
          obtain ⟨a, b⟩ := ab0
          have hv2 := hv (a, b) hvv
          simp only at hv2
          obtain ⟨⟨⟨va, hla, hdva, _⟩, ⟨vb, hlb, hdvb, _⟩⟩, _⟩ := hv2
          simp only [Rel.verticesForEdge, hvv, Option.map_some', rlookupD,
            hla, hlb, Option.getD_some, Option.some.injEq] at hab
          have hab2 : ab = (va, vb) := hab.symm
          subst hab2
          exact ⟨vertexDeepOk_ext hText hdva, vertexDeepOk_ext hText hdvb⟩
  · refine ⟨?_, ?_, ?_⟩
    · rw [hstep]
      simp only [Shape.okEdgeH, beq_self_eq_true, Bool.true_and,
        List.length_append, List.length_cons, List.length_nil,
        decide_eq_true_eq]
      omega
    · rw [heAtT]
      rw [hstep]
      simp only [Shape.okCurveH, beq_self_eq_true, Bool.true_and,
        List.length_append, List.length_cons, List.length_nil,
        decide_eq_true_eq]
      omega
    · intro ab hab
      rw [heAtT] at hab
      simp only at hab
      cases hvv : (source.edgeAt h).vertices with
      | none => simp [Rel.verticesForEdge, hvv] at hab
      | some ab0 =>
          obtain ⟨a, b⟩ := ab0
          have hv2 := hv (a, b) hvv
          simp only at hv2
          obtain ⟨_, ⟨wa, hlwa, hdwa, _⟩, ⟨wb, hlwb, hdwb, _⟩⟩ := hv2
          simp only [Rel.verticesForEdge, hvv, Option.map_some', rlookupD,
            hlwa, hlwb, Option.getD_some, Option.some.injEq] at hab
          have hab2 : ab = (wa, wb) := hab.symm
          subst hab2
          exact ⟨vertexDeepOk_ext hText hdwa, vertexDeepOk_ext hText hdwb⟩
  · unfold resolveEdgeAt resolveEdge
    rw [heAtB]
    simp only
    rw [hcAtB]
    cases hvv : (source.edgeAt h).vertices with
    | none => simp [Rel.verticesForEdge, hvv]
    | some ab0 =>
        obtain ⟨a, b⟩ := ab0
        have hv2 := hv (a, b) hvv
        simp only at hv2
        obtain ⟨⟨⟨va, hla, hdva, hpva⟩, ⟨vb, hlb, hdvb, hpvb⟩⟩, _⟩ := hv2
        simp only [Rel.verticesForEdge, hvv, Option.map_some', rlookupD,
          hla, hlb, Option.getD_some, ResolvedEdge.mk.injEq, true_and]
        rw [vertexResolve_ext hText hdva, vertexResolve_ext hText hdvb,
          hpva, hpvb]
  · unfold resolveEdgeAt resolveEdge
    rw [heAtT]
    simp only
    rw [hcAtT]
    cases hvv : (source.edgeAt h).vertices with
    | none => simp [Rel.verticesForEdge, hvv, ResolvedEdge.mapTop]
    | some ab0 =>
        obtain ⟨a, b⟩ := ab0
        have hv2 := hv (a, b) hvv
        simp only at hv2
        obtain ⟨_, ⟨wa, hlwa, hdwa, hpwa⟩, ⟨wb, hlwb, hdwb, hpwb⟩⟩ := hv2
        simp only [Rel.verticesForEdge, hvv, Option.map_some', rlookupD,
          hlwa, hlwb, Option.getD_some, ResolvedEdge.mapTop,
          ResolvedEdge.mk.injEq, true_and]
        rw [vertexResolve_ext hText hdwa, vertexResolve_ext hText hdwb,
          hpwa, hpwb]
  · rw [hstep]
    simp only [List.length_append, List.length_cons, List.length_nil]

/-! ## Phase lemmas for the sweep -/

theorem sweepVertices_spec (source : Shape) (path : Vec3) :
    ∀ (hs : List (Handle Vertex)) (t : Shape) (rb rt : Rel),
      hs.Nodup →
      (∀ h ∈ hs, rlookup rb.verts h = none) →
      (∀ h ∈ hs, rlookup rt.verts h = none) →
      ShapeExt t (sweepVertices source path hs t rb rt).1 ∧
      (sweepVertices source path hs t rb rt).1.curves = t.curves ∧
      (sweepVertices source path hs t rb rt).1.surfaces = t.surfaces ∧
      (sweepVertices source path hs t rb rt).1.edges = t.edges ∧
      (sweepVertices source path hs t rb rt).1.cycles = t.cycles ∧
      (sweepVertices source path hs t rb rt).1.faces = t.faces ∧
      (sweepVertices source path hs t rb rt).2.1.edges = rb.edges ∧
      (sweepVertices source path hs t rb rt).2.1.cycles = rb.cycles ∧
      (sweepVertices source path hs t rb rt).2.2.edges = rt.edges ∧
      (sweepVertices source path hs t rb rt).2.2.cycles = rt.cycles ∧
      (∀ h' v, rlookup rb.verts h' = some v →
        rlookup (sweepVertices source path hs t rb rt).2.1.verts h' = some v) ∧
      (∀ h' v, rlookup rt.verts h' = some v →
        rlookup (sweepVertices source path hs t rb rt).2.2.verts h' = some v) ∧
      (∀ h ∈ hs,
        vertexMapsToB source (sweepVertices source path hs t rb rt).2.1.verts
          (sweepVertices source path hs t rb rt).1 h ∧
        vertexMapsToT source (sweepVertices source path hs t rb rt).2.2.verts
          (sweepVertices source path hs t rb rt).1 h path) := by
  intro hs
  induction hs with
  | nil =>
      intro t rb rt _ _ _
      refine ⟨ShapeExt.refl t, rfl, rfl, rfl, rfl, rfl, rfl, rfl, rfl, rfl,
        fun _ _ hx => hx, fun _ _ hx => hx, by simp⟩
  | cons h hs ih =>
      intro t rb rt hnd hfb hft
      obtain ⟨hh, hnd'⟩ := List.nodup_cons.mp hnd
      obtain ⟨vb, vt, hrb, hrt, hext, hcur, hsur, hedg, hcyc, hfac,
        hdb, hdt, hpb, hpt⟩ := sweepVertexStep_spec source path h t rb rt
      have hunf : sweepVertices source path (h :: hs) t rb rt =
          sweepVertices source path hs (sweepVertexStep source path h t rb rt).1
            (sweepVertexStep source path h t rb rt).2.1
            (sweepVertexStep source path h t rb rt).2.2 := rfl
      have hlb : rlookup (sweepVertexStep source path h t rb rt).2.1.verts h =
          some vb := by
        rw [hrb]
        show rlookup (rb.verts ++ [(h, vb)]) h = some vb
        rw [rlookup_append, hfb h (List.mem_cons_self h hs)]
        simp [rlookup]
      have hlt : rlookup (sweepVertexStep source path h t rb rt).2.2.verts h =
          some vt := by
        rw [hrt]
        show rlookup (rt.verts ++ [(h, vt)]) h = some vt
        rw [rlookup_append, hft h (List.mem_cons_self h hs)]
        simp [rlookup]
      have hfb' : ∀ h' ∈ hs,
          rlookup (sweepVertexStep source path h t rb rt).2.1.verts h' =
            none := by
        intro h' hmem
        rw [hrb]
        show rlookup (rb.verts ++ [(h, vb)]) h' = none
        rw [rlookup_append, hfb h' (List.mem_cons_of_mem h hmem)]
        have : h' ≠ h := fun he => hh (he ▸ hmem)
        simp [rlookup, this]
      have hft' : ∀ h' ∈ hs,
          rlookup (sweepVertexStep source path h t rb rt).2.2.verts h' =
            none := by
        intro h' hmem
        rw [hrt]
        show rlookup (rt.verts ++ [(h, vt)]) h' = none
        rw [rlookup_append, hft h' (List.mem_cons_of_mem h hmem)]
        have : h' ≠ h := fun he => hh (he ▸ hmem)
        simp [rlookup, this]
      obtain ⟨iext, icur, isur, iedg, icyc, ifac, irbe, irbc, irte, irtc,
        ipresb, iprest, imaps⟩ :=
        ih (sweepVertexStep source path h t rb rt).1
          (sweepVertexStep source path h t rb rt).2.1
          (sweepVertexStep source path h t rb rt).2.2 hnd' hfb' hft'
      rw [hunf]
      refine ⟨hext.trans iext, icur.trans hcur, isur.trans hsur,
        iedg.trans hedg, icyc.trans hcyc, ifac.trans hfac,
        irbe.trans (by rw [hrb]), irbc.trans (by rw [hrb]),
        irte.trans (by rw [hrt]), irtc.trans (by rw [hrt]), ?_, ?_, ?_⟩
      · intro h' v hv
        apply ipresb
        rw [hrb]
        show rlookup (rb.verts ++ [(h, vb)]) h' = some v
        rw [rlookup_append, hv]
      · intro h' v hv
        apply iprest
        rw [hrt]
        show rlookup (rt.verts ++ [(h, vt)]) h' = some v
        rw [rlookup_append, hv]
      · intro h' hmem
        rcases List.mem_cons.mp hmem with heq | hmem'
        · subst heq
          constructor
          · exact ⟨vb, ipresb _ _ hlb, vertexDeepOk_ext iext hdb,
              by rw [vertexResolve_ext iext hdb]; exact hpb⟩
          · exact ⟨vt, iprest _ _ hlt, vertexDeepOk_ext iext hdt,
              by rw [vertexResolve_ext iext hdt]; exact hpt⟩
        · exact imaps h' hmem'

theorem sweepEdges_spec (source : Shape) (translation : Transform)
    (path : Vec3) :
    ∀ (hs : List (Handle Edge)) (t : Shape) (rb rt : Rel),
      hs.Nodup →
      (∀ h ∈ hs, rlookup rb.edges h = none) →
      (∀ h ∈ hs, rlookup rt.edges h = none) →
      (∀ h ∈ hs, ∀ ab, (source.edgeAt h).vertices = some ab →
        (vertexMapsToB source rb.verts t ab.1 ∧
         vertexMapsToB source rb.verts t ab.2) ∧
        (vertexMapsToT source rt.verts t ab.1 path ∧
         vertexMapsToT source rt.verts t ab.2 path)) →
      ShapeExt t (sweepEdges source translation hs t rb rt).1 ∧
      (sweepEdges source translation hs t rb rt).1.points = t.points ∧
      (sweepEdges source translation hs t rb rt).1.surfaces = t.surfaces ∧
      (sweepEdges source translation hs t rb rt).1.vertices = t.vertices ∧
      (sweepEdges source translation hs t rb rt).1.cycles = t.cycles ∧
      (sweepEdges source translation hs t rb rt).1.faces = t.faces ∧
      (sweepEdges source translation hs t rb rt).1.edges.length =
        t.edges.length + 2 * hs.length ∧
      (sweepEdges source translation hs t rb rt).2.1.verts = rb.verts ∧
      (sweepEdges source translation hs t rb rt).2.1.cycles = rb.cycles ∧
      (sweepEdges source translation hs t rb rt).2.2.verts = rt.verts ∧
      (sweepEdges source translation hs t rb rt).2.2.cycles = rt.cycles ∧
      (∀ h' v, rlookup rb.edges h' = some v →
        rlookup (sweepEdges source translation hs t rb rt).2.1.edges h' =
          some v) ∧
      (∀ h' v, rlookup rt.edges h' = some v →
        rlookup (sweepEdges source translation hs t rb rt).2.2.edges h' =
          some v) ∧
      (∀ h ∈ hs,
        edgeMapsToB source (sweepEdges source translation hs t rb rt).2.1.edges
          (sweepEdges source translation hs t rb rt).1 h ∧
        edgeMapsToT source (sweepEdges source translation hs t rb rt).2.2.edges
          (sweepEdges source translation hs t rb rt).1 h translation path) := by
  intro hs
  induction hs with
  | nil =>
      intro t rb rt _ _ _ _
      refine ⟨ShapeExt.refl t, rfl, rfl, rfl, rfl, rfl, by simp [sweepEdges],
        rfl, rfl, rfl, rfl, fun _ _ hx => hx, fun _ _ hx => hx, by simp⟩
  | cons h hs ih =>
      intro t rb rt hnd hfb hft hmv
      obtain ⟨hh, hnd'⟩ := List.nodup_cons.mp hnd
      obtain ⟨eb, et, hrb, hrt, hext, hpts, hsur, hver, hcyc, hfac,
        hdb, hdt, hresb, hrest, hlen⟩ :=
        sweepEdgeStep_spec source translation path h t rb rt (hmv h
          (List.mem_cons_self h hs))
      have hunf : sweepEdges source translation (h :: hs) t rb rt =
          sweepEdges source translation hs
            (sweepEdgeStep source translation h t rb rt).1
            (sweepEdgeStep source translation h t rb rt).2.1
            (sweepEdgeStep source translation h t rb rt).2.2 := rfl
      have hlb : rlookup
          (sweepEdgeStep source translation h t rb rt).2.1.edges h =
          some eb := by
        rw [hrb]
        show rlookup (rb.edges ++ [(h, eb)]) h = some eb
        rw [rlookup_append, hfb h (List.mem_cons_self h hs)]
        simp [rlookup]
      have hlt : rlookup
          (sweepEdgeStep source translation h t rb rt).2.2.edges h =
          some et := by
        rw [hrt]
        show rlookup (rt.edges ++ [(h, et)]) h = some et
        rw [rlookup_append, hft h (List.mem_cons_self h hs)]
        simp [rlookup]
      have hfb' : ∀ h' ∈ hs, rlookup
          (sweepEdgeStep source translation h t rb rt).2.1.edges h' =
          none := by
        intro h' hmem
        rw [hrb]
        show rlookup (rb.edges ++ [(h, eb)]) h' = none
        rw [rlookup_append, hfb h' (List.mem_cons_of_mem h hmem)]
        have : h' ≠ h := fun he => hh (he ▸ hmem)
        simp [rlookup, this]
      have hft' : ∀ h' ∈ hs, rlookup
          (sweepEdgeStep source translation h t rb rt).2.2.edges h' =
          none := by
        intro h' hmem
        rw [hrt]
        show rlookup (rt.edges ++ [(h, et)]) h' = none
        rw [rlookup_append, hft h' (List.mem_cons_of_mem h hmem)]
        have : h' ≠ h := fun he => hh (he ▸ hmem)
        simp [rlookup, this]
      have hmv' : ∀ h' ∈ hs, ∀ ab,
          (source.edgeAt h').vertices = some ab →
          (vertexMapsToB source
            (sweepEdgeStep source translation h t rb rt).2.1.verts
            (sweepEdgeStep source translation h t rb rt).1 ab.1 ∧
           vertexMapsToB source
            (sweepEdgeStep source translation h t rb rt).2.1.verts
            (sweepEdgeStep source translation h t rb rt).1 ab.2) ∧
          (vertexMapsToT source
            (sweepEdgeStep source translation h t rb rt).2.2.verts
            (sweepEdgeStep source translation h t rb rt).1 ab.1 path ∧
           vertexMapsToT source
            (sweepEdgeStep source translation h t rb rt).2.2.verts
            (sweepEdgeStep source translation h t rb rt).1 ab.2 path) := by
        intro h' hmem ab hab
        obtain ⟨⟨h1, h2⟩, h3, h4⟩ :=
          hmv h' (List.mem_cons_of_mem h hmem) ab hab
        rw [hrb, hrt]
        exact ⟨⟨vertexMapsToB_ext hext h1, vertexMapsToB_ext hext h2⟩,
          vertexMapsToT_ext hext h3, vertexMapsToT_ext hext h4⟩
      obtain ⟨iext, ipts, isur, iver, icyc, ifac, ilen, irbv, irbc, irtv, irtc,
        ipresb, iprest, imaps⟩ :=
        ih (sweepEdgeStep source translation h t rb rt).1
          (sweepEdgeStep source translation h t rb rt).2.1
          (sweepEdgeStep source translation h t rb rt).2.2 hnd' hfb' hft' hmv'
      rw [hunf]
      refine ⟨hext.trans iext, ipts.trans hpts, isur.trans hsur,
        iver.trans hver, icyc.trans hcyc, ifac.trans hfac,
        by rw [ilen, hlen]; simp [Nat.mul_add]; omega,
        irbv.trans (by rw [hrb]), irbc.trans (by rw [hrb]),
        irtv.trans (by rw [hrt]), irtc.trans (by rw [hrt]), ?_, ?_, ?_⟩
      · intro h' v hv
        apply ipresb
        rw [hrb]
        show rlookup (rb.edges ++ [(h, eb)]) h' = some v
        rw [rlookup_append, hv]
      · intro h' v hv
        apply iprest
        rw [hrt]
        show rlookup (rt.edges ++ [(h, et)]) h' = some v
        rw [rlookup_append, hv]
      · intro h' hmem
        rcases List.mem_cons.mp hmem with heq | hmem'
        · subst heq
          constructor
          · exact ⟨eb, ipresb _ _ hlb, edgeDeepOk_ext iext hdb,
              by rw [resolveEdgeAt_ext iext hdb]; exact hresb⟩
          · exact ⟨et, iprest _ _ hlt, edgeDeepOk_ext iext hdt,
              by rw [resolveEdgeAt_ext iext hdt]; exact hrest⟩
        · exact imaps h' hmem'

theorem addCycle_fresh (s : Shape) (c : Cycle)
    (hc : c.edges.all s.okEdgeH = true) :
    s.addCycle c =
      (.ok ⟨s.id, s.cycles.length⟩,
        { s with cycles := s.cycles ++ [c] }) := addCycle_ok hc

theorem sweepCycleStep_spec (source : Shape) (translation : Transform)
    (path : Vec3) (h : Handle Cycle) (t : Shape) (rb rt : Rel)
    (he : ∀ eh ∈ (source.cycleAt h).edges,
      edgeMapsToB source rb.edges t eh ∧
      edgeMapsToT source rt.edges t eh translation path) :
    ∃ cb ct,
      (sweepCycleStep source h t rb rt).2.1 =
        { rb with cycles := rb.cycles ++ [(h, cb)] } ∧
      (sweepCycleStep source h t rb rt).2.2 =
        { rt with cycles := rt.cycles ++ [(h, ct)] } ∧
      ShapeExt t (sweepCycleStep source h t rb rt).1 ∧
      (sweepCycleStep source h t rb rt).1.points = t.points ∧
      (sweepCycleStep source h t rb rt).1.curves = t.curves ∧
      (sweepCycleStep source h t rb rt).1.surfaces = t.surfaces ∧
      (sweepCycleStep source h t rb rt).1.vertices = t.vertices ∧
      (sweepCycleStep source h t rb rt).1.edges = t.edges ∧
      (sweepCycleStep source h t rb rt).1.faces = t.faces ∧
      cycleDeepOk (sweepCycleStep source h t rb rt).1 cb ∧
      cycleDeepOk (sweepCycleStep source h t rb rt).1 ct ∧
      resolveCycleAt (sweepCycleStep source h t rb rt).1 cb =
        resolveCycleAt source h ∧
      resolveCycleAt (sweepCycleStep source h t rb rt).1 ct =
        (resolveCycleAt source h).map
          (fun re => re.mapTop translation path) := by
  have hokB : (rb.edgesForCycle source h).all t.okEdgeH = true := by
    show ((source.cycleAt h).edges.map fun eh =>
      rlookupD rb.edges eh).all t.okEdgeH = true
    rw [List.all_eq_true]
    intro x hx
    obtain ⟨eh, hmem, rfl⟩ := List.mem_map.mp hx
    obtain ⟨⟨e, hl, hd, _⟩, _⟩ := he eh hmem
    rw [show rlookupD rb.edges eh = e by rw [rlookupD, hl]; rfl]
    exact hd.1
  have hokT : (rt.edgesForCycle source h).all t.okEdgeH = true := by
    show ((source.cycleAt h).edges.map fun eh =>
      rlookupD rt.edges eh).all t.okEdgeH = true
    rw [List.all_eq_true]
    intro x hx
    obtain ⟨eh, hmem, rfl⟩ := List.mem_map.mp hx
    obtain ⟨_, ⟨e, hl, hd, _⟩⟩ := he eh hmem
    rw [show rlookupD rt.edges eh = e by rw [rlookupD, hl]; rfl]
    exact hd.1
  have hstep : sweepCycleStep source h t rb rt =
      ({ t with cycles := t.cycles ++
          [⟨rb.edgesForCycle source h⟩, ⟨rt.edgesForCycle source h⟩] },
       { rb with cycles := rb.cycles ++ [(h, ⟨t.id, t.cycles.length⟩)] },
       { rt with cycles :=
          rt.cycles ++ [(h, ⟨t.id, t.cycles.length + 1⟩)] }) := by
    unfold sweepCycleStep
    simp only []
    rw [addCycle_fresh t ⟨rb.edgesForCycle source h⟩ (by exact hokB)]
    rw [addCycle_fresh _ _ (by
      show (rt.edgesForCycle source h).all
        (Shape.okEdgeH { t with cycles := t.cycles ++
          [⟨rb.edgesForCycle source h⟩] }) = true
      rw [List.all_eq_true] at hokT ⊢
      intro x hx
      have hx2 := hokT x hx
      simp only [Shape.okEdgeH] at hx2 ⊢
      exact hx2)]
    simp only [exUnwrap, List.append_assoc, List.cons_append,
      List.nil_append, List.length_append, List.length_cons, List.length_nil]
  have hText : ShapeExt t (sweepCycleStep source h t rb rt).1 := by
    rw [hstep]
    exact ⟨rfl, ListExt.listRefl _, ListExt.listRefl _, ListExt.listRefl _, ListExt.listRefl _,
      ListExt.listRefl _, ⟨_, rfl⟩, ListExt.listRefl _⟩
  have hcAtB : (sweepCycleStep source h t rb rt).1.cycleAt
      ⟨t.id, t.cycles.length⟩ = ⟨rb.edgesForCycle source h⟩ := by
    rw [hstep, Shape.cycleAt_eq]
    exact getD_append_len _ _ _ _
  have hcAtT : (sweepCycleStep source h t rb rt).1.cycleAt
      ⟨t.id, t.cycles.length + 1⟩ = ⟨rt.edgesForCycle source h⟩ := by
    rw [hstep, Shape.cycleAt_eq]
    exact getD_append_len1 _ _ _ _ _
  refine ⟨⟨t.id, t.cycles.length⟩, ⟨t.id, t.cycles.length + 1⟩, ?_, ?_, hText,
    ?_, ?_, ?_, ?_, ?_, ?_, ?_, ?_, ?_, ?_⟩
  · rw [hstep]
  · rw [hstep]
  · rw [hstep]
  · rw [hstep]
  · rw [hstep]
  · rw [hstep]
  · rw [hstep]
  · rw [hstep]
  · refine ⟨?_, ?_⟩
    · rw [hstep]
      simp only [Shape.okCycleH, beq_self_eq_true, Bool.true_and,
        List.length_append, List.length_cons, List.length_nil,
        decide_eq_true_eq]
      omega
    · rw [hcAtB]
      intro eh hmem
      obtain ⟨eh0, hmem0, rfl⟩ := List.mem_map.mp hmem
      obtain ⟨⟨e, hl, hd, _⟩, _⟩ := he eh0 hmem0
      rw [show rlookupD rb.edges eh0 = e by rw [rlookupD, hl]; rfl]
      exact edgeDeepOk_ext hText hd
  · refine ⟨?_, ?_⟩
    · rw [hstep]
      simp only [Shape.okCycleH, beq_self_eq_true, Bool.true_and,
        List.length_append, List.length_cons, List.length_nil,
        decide_eq_true_eq]
      omega
    · rw [hcAtT]
      intro eh hmem
      obtain ⟨eh0, hmem0, rfl⟩ := List.mem_map.mp hmem
      obtain ⟨_, ⟨e, hl, hd, _⟩⟩ := he eh0 hmem0
      rw [show rlookupD rt.edges eh0 = e by rw [rlookupD, hl]; rfl]
      exact edgeDeepOk_ext hText hd
  · show resolveCycle _ ((sweepCycleStep source h t rb rt).1.cycleAt _) = _
    rw [hcAtB]
    show (rb.edgesForCycle source h).map _ = _
    unfold Rel.edgesForCycle
    simp only [List.map_map]
    apply List.map_congr_left
    intro eh hmem
    obtain ⟨⟨e, hl, hd, hres⟩, _⟩ := he eh hmem
    show resolveEdgeAt (sweepCycleStep source h t rb rt).1
      (rlookupD rb.edges eh) = resolveEdgeAt source eh
    rw [show rlookupD rb.edges eh = e by rw [rlookupD, hl]; rfl]
    rw [resolveEdgeAt_ext hText hd]
    exact hres
  · show resolveCycle _ ((sweepCycleStep source h t rb rt).1.cycleAt _) = _
    rw [hcAtT]
    show (rt.edgesForCycle source h).map _ = _
    unfold Rel.edgesForCycle resolveCycleAt resolveCycle
    simp only [List.map_map]
    apply List.map_congr_left
    intro eh hmem
    obtain ⟨_, ⟨e, hl, hd, hres⟩⟩ := he eh hmem
    show resolveEdgeAt (sweepCycleStep source h t rb rt).1
      (rlookupD rt.edges eh) = (resolveEdgeAt source eh).mapTop translation path
    rw [show rlookupD rt.edges eh = e by rw [rlookupD, hl]; rfl]
    rw [resolveEdgeAt_ext hText hd]
    exact hres

theorem sweepCycles_spec (source : Shape) (translation : Transform)
    (path : Vec3) :
    ∀ (hs : List (Handle Cycle)) (t : Shape) (rb rt : Rel),
      hs.Nodup →
      (∀ h ∈ hs, rlookup rb.cycles h = none) →
      (∀ h ∈ hs, rlookup rt.cycles h = none) →
      (∀ h ∈ hs, ∀ eh ∈ (source.cycleAt h).edges,
        edgeMapsToB source rb.edges t eh ∧
        edgeMapsToT source rt.edges t eh translation path) →
      ShapeExt t (sweepCycles source hs t rb rt).1 ∧
      (sweepCycles source hs t rb rt).1.points = t.points ∧
      (sweepCycles source hs t rb rt).1.curves = t.curves ∧
      (sweepCycles source hs t rb rt).1.surfaces = t.surfaces ∧
      (sweepCycles source hs t rb rt).1.vertices = t.vertices ∧
      (sweepCycles source hs t rb rt).1.edges = t.edges ∧
      (sweepCycles source hs t rb rt).1.faces = t.faces ∧
      (sweepCycles source hs t rb rt).2.1.verts = rb.verts ∧
      (sweepCycles source hs t rb rt).2.1.edges = rb.edges ∧
      (sweepCycles source hs t rb rt).2.2.verts = rt.verts ∧
      (sweepCycles source hs t rb rt).2.2.edges = rt.edges ∧
      (∀ h' v, rlookup rb.cycles h' = some v →
        rlookup (sweepCycles source hs t rb rt).2.1.cycles h' = some v) ∧
      (∀ h' v, rlookup rt.cycles h' = some v →
        rlookup (sweepCycles source hs t rb rt).2.2.cycles h' = some v) ∧
      (∀ h ∈ hs,
        cycleMapsToB source (sweepCycles source hs t rb rt).2.1.cycles
          (sweepCycles source hs t rb rt).1 h ∧
        cycleMapsToT source (sweepCycles source hs t rb rt).2.2.cycles
          (sweepCycles source hs t rb rt).1 h translation path) := by
  intro hs
  induction hs with
  | nil =>
      intro t rb rt _ _ _ _
      refine ⟨ShapeExt.refl t, rfl, rfl, rfl, rfl, rfl, rfl, rfl, rfl, rfl,
        rfl, fun _ _ hx => hx, fun _ _ hx => hx, by simp⟩
  | cons h hs ih =>
      intro t rb rt hnd hfb hft hme
      obtain ⟨hh, hnd'⟩ := List.nodup_cons.mp hnd
      obtain ⟨cb, ct, hrb, hrt, hext, hpts, hcur, hsur, hver, hedg, hfac,
        hdb, hdt, hresb, hrest⟩ :=
        sweepCycleStep_spec source translation path h t rb rt
          (hme h (List.mem_cons_self h hs))
      have hunf : sweepCycles source (h :: hs) t rb rt =
          sweepCycles source hs (sweepCycleStep source h t rb rt).1
            (sweepCycleStep source h t rb rt).2.1
            (sweepCycleStep source h t rb rt).2.2 := rfl
      have hlb : rlookup (sweepCycleStep source h t rb rt).2.1.cycles h =
          some cb := by
        rw [hrb]
        show rlookup (rb.cycles ++ [(h, cb)]) h = some cb
        rw [rlookup_append, hfb h (List.mem_cons_self h hs)]
        simp [rlookup]
      have hlt : rlookup (sweepCycleStep source h t rb rt).2.2.cycles h =
          some ct := by
        rw [hrt]
        show rlookup (rt.cycles ++ [(h, ct)]) h = some ct
        rw [rlookup_append, hft h (List.mem_cons_self h hs)]
        simp [rlookup]
      have hfb' : ∀ h' ∈ hs,
          rlookup (sweepCycleStep source h t rb rt).2.1.cycles h' = none := by
        intro h' hmem
        rw [hrb]
        show rlookup (rb.cycles ++ [(h, cb)]) h' = none
        rw [rlookup_append, hfb h' (List.mem_cons_of_mem h hmem)]
        have : h' ≠ h := fun heq => hh (heq ▸ hmem)
        simp [rlookup, this]
      have hft' : ∀ h' ∈ hs,
          rlookup (sweepCycleStep source h t rb rt).2.2.cycles h' = none := by
        intro h' hmem
        rw [hrt]
        show rlookup (rt.cycles ++ [(h, ct)]) h' = none
        rw [rlookup_append, hft h' (List.mem_cons_of_mem h hmem)]
        have : h' ≠ h := fun heq => hh (heq ▸ hmem)
        simp [rlookup, this]
      have hme' : ∀ h' ∈ hs, ∀ eh ∈ (source.cycleAt h').edges,
          edgeMapsToB source (sweepCycleStep source h t rb rt).2.1.edges
            (sweepCycleStep source h t rb rt).1 eh ∧
          edgeMapsToT source (sweepCycleStep source h t rb rt).2.2.edges
            (sweepCycleStep source h t rb rt).1 eh translation path := by
        intro h' hmem eh hmeme
        obtain ⟨h1, h2⟩ := hme h' (List.mem_cons_of_mem h hmem) eh hmeme
        rw [hrb, hrt]
        exact ⟨edgeMapsToB_ext hext h1, edgeMapsToT_ext hext h2⟩
      obtain ⟨iext, ipts, icur, isur, iver, iedg, ifac, irbv, irbe, irtv,
        irte, ipresb, iprest, imaps⟩ :=
        ih (sweepCycleStep source h t rb rt).1
          (sweepCycleStep source h t rb rt).2.1
          (sweepCycleStep source h t rb rt).2.2 hnd' hfb' hft' hme'
      rw [hunf]
      refine ⟨hext.trans iext, ipts.trans hpts, icur.trans hcur,
        isur.trans hsur, iver.trans hver, iedg.trans hedg, ifac.trans hfac,
        irbv.trans (by rw [hrb]), irbe.trans (by rw [hrb]),
        irtv.trans (by rw [hrt]), irte.trans (by rw [hrt]), ?_, ?_, ?_⟩
      · intro h' v hv
        apply ipresb
        rw [hrb]
        show rlookup (rb.cycles ++ [(h, cb)]) h' = some v
        rw [rlookup_append, hv]
      · intro h' v hv
        apply iprest
        rw [hrt]
        show rlookup (rt.cycles ++ [(h, ct)]) h' = some v
        rw [rlookup_append, hv]
      · intro h' hmem
        rcases List.mem_cons.mp hmem with heq | hmem'
        · subst heq
          constructor
          · exact ⟨cb, ipresb _ _ hlb, cycleDeepOk_ext iext hdb,
              by rw [resolveCycleAt_ext iext hdb]; exact hresb⟩
          · exact ⟨ct, iprest _ _ hlt, cycleDeepOk_ext iext hdt,
              by rw [resolveCycleAt_ext iext hdt]; exact hrest⟩
        · exact imaps h' hmem'

theorem ShapeExt.pushSurfacesFaces (t : Shape) (X : List Surface)
    (Y : List Face) :
    ShapeExt t { t with surfaces := t.surfaces ++ X, faces := t.faces ++ Y } :=
  ⟨rfl, ListExt.listRefl _, ListExt.listRefl _, ⟨X, rfl⟩, ListExt.listRefl _,
    ListExt.listRefl _, ListExt.listRefl _, ⟨Y, rfl⟩⟩

theorem capFaceB_ext {source t t' : Shape} (h : ShapeExt t t')
    {sh : Handle Surface} {cys : List (Handle Cycle)} {color : Color}
    (hc : capFaceB source t sh cys color) : capFaceB source t' sh cys color := by
  obtain ⟨sb, cyB, hmem, hok, hdeep, hsurf, hres⟩ := hc
  refine ⟨sb, cyB, ?_, h.okSurfaceH hok,
    fun ch hch => cycleDeepOk_ext h (hdeep ch hch),
    by rw [h.surfaceAt hok]; exact hsurf, ?_⟩
  · obtain ⟨_, _, _, _, _, _, _, u, hu⟩ := h
    rw [hu]
    exact List.mem_append_left _ hmem
  · rw [List.map_congr_left
      fun ch hch => resolveCycleAt_ext h (hdeep ch hch)]
    exact hres

theorem capFaceT_ext {source t t' : Shape} (h : ShapeExt t t')
    {sh : Handle Surface} {cys : List (Handle Cycle)} {color : Color}
    {translation : Transform} {path : Vec3}
    (hc : capFaceT source t sh cys color translation path) :
    capFaceT source t' sh cys color translation path := by
  obtain ⟨st, cyT, hmem, hok, hdeep, hsurf, hres⟩ := hc
  refine ⟨st, cyT, ?_, h.okSurfaceH hok,
    fun ch hch => cycleDeepOk_ext h (hdeep ch hch),
    by rw [h.surfaceAt hok]; exact hsurf, ?_⟩
  · obtain ⟨_, _, _, _, _, _, _, u, hu⟩ := h
    rw [hu]
    exact List.mem_append_left _ hmem
  · rw [List.map_congr_left
      fun ch hch => resolveCycleAt_ext h (hdeep ch hch)]
    exact hres

theorem sideBrepFace_ext {t t' : Shape} (h : ShapeExt t t') {path : Vec3}
    {f : Face} (hs : sideBrepFace t path f) : sideBrepFace t' path f := by
  obtain ⟨sh, ch, color, hf, hoks, hokc, ⟨c, hsurf⟩, hlen⟩ := hs
  exact ⟨sh, ch, color, hf, h.okSurfaceH hoks, h.okCycleH hokc,
    ⟨c, by rw [h.surfaceAt hoks]; exact hsurf⟩,
    by rw [h.cycleAt hokc]; exact hlen⟩

theorem countTriL_append (l1 l2 : List Face) :
    countTriL (l1 ++ l2) = countTriL l1 + countTriL l2 := by
  simp [countTriL, List.filter_append]

theorem countBrepL_append (l1 l2 : List Face) :
    countBrepL (l1 ++ l2) = countBrepL l1 + countBrepL l2 := by
  simp [countBrepL, List.filter_append]

theorem sweepCapStep_spec (source : Shape) (translation : Transform)
    (path : Vec3) (color : Color) (rb rt : Rel) (sh : Handle Surface)
    (cys : List (Handle Cycle)) (col : Color) (t : Shape)
    (hcy : ∀ ch ∈ cys,
      cycleMapsToB source rb.cycles t ch ∧
      cycleMapsToT source rt.cycles t ch translation path) :
    ∃ fB fT,
      sweepCapStep source translation color rb rt (Face.face sh cys col) t =
        { t with
            surfaces := t.surfaces ++
              [source.surfaceAt sh,
               (source.surfaceAt sh).transform translation],
            faces := t.faces ++ [fB, fT] } ∧
      isBrepFace fB = true ∧ isBrepFace fT = true ∧
      capFaceB source
        (sweepCapStep source translation color rb rt (Face.face sh cys col) t)
        sh cys color ∧
      capFaceT source
        (sweepCapStep source translation color rb rt (Face.face sh cys col) t)
        sh cys color translation path := by
  have hhostB : ∀ ch ∈ cys, ∃ c, rlookupD rb.cycles ch = c ∧
      rlookup rb.cycles ch = some c ∧ cycleDeepOk t c ∧
      resolveCycleAt t c = resolveCycleAt source ch := by
    intro ch hch
    obtain ⟨⟨c, hl, hd, hr⟩, _⟩ := hcy ch hch
    exact ⟨c, by rw [rlookupD, hl]; rfl, hl, hd, hr⟩
  have hhostT : ∀ ch ∈ cys, ∃ c, rlookupD rt.cycles ch = c ∧
      rlookup rt.cycles ch = some c ∧ cycleDeepOk t c ∧
      resolveCycleAt t c =
        (resolveCycleAt source ch).map fun re =>
          re.mapTop translation path := by
    intro ch hch
    obtain ⟨_, ⟨c, hl, hd, hr⟩⟩ := hcy ch hch
    exact ⟨c, by rw [rlookupD, hl]; rfl, hl, hd, hr⟩
  have hcyBdef : Rel.cyclesForFace rb (Face.face sh cys col) =
      cys.map fun ch => rlookupD rb.cycles ch := rfl
  have hcyTdef : Rel.cyclesForFace rt (Face.face sh cys col) =
      cys.map fun ch => rlookupD rt.cycles ch := rfl
  have hallB : ∀ (s2 : Shape), s2.id = t.id → s2.cycles = t.cycles →
      (Rel.cyclesForFace rb (Face.face sh cys col)).all
        s2.okCycleH = true := by
    intro s2 hid hcycs
    rw [hcyBdef, List.all_eq_true]
    intro x hx
    obtain ⟨ch, hch, rfl⟩ := List.mem_map.mp hx
    obtain ⟨c, hle, _, hd, _⟩ := hhostB ch hch
    rw [hle]
    have := hd.1
    simp only [Shape.okCycleH, hid, hcycs] at this ⊢
    exact this
  have hallT : ∀ (s2 : Shape), s2.id = t.id → s2.cycles = t.cycles →
      (Rel.cyclesForFace rt (Face.face sh cys col)).all
        s2.okCycleH = true := by
    intro s2 hid hcycs
    rw [hcyTdef, List.all_eq_true]
    intro x hx
    obtain ⟨ch, hch, rfl⟩ := List.mem_map.mp hx
    obtain ⟨c, hle, _, hd, _⟩ := hhostT ch hch
    rw [hle]
    have := hd.1
    simp only [Shape.okCycleH, hid, hcycs] at this ⊢
    exact this
  have hstep :
      sweepCapStep source translation color rb rt (Face.face sh cys col) t =
        { t with
            surfaces := t.surfaces ++
              [source.surfaceAt sh,
               (source.surfaceAt sh).transform translation],
            faces := t.faces ++
              [Face.face ⟨t.id, t.surfaces.length⟩
                 (Rel.cyclesForFace rb (Face.face sh cys col)) color,
               Face.face ⟨t.id, t.surfaces.length + 1⟩
                 (Rel.cyclesForFace rt (Face.face sh cys col)) color] } := by
    unfold sweepCapStep
    simp only [Shape.addSurface]
    rw [show ({ t with surfaces := t.surfaces ++ [source.surfaceAt sh] } :
        Shape).surfaceAt ⟨t.id, t.surfaces.length⟩ = source.surfaceAt sh by
      rw [Shape.surfaceAt_eq]; exact getD_append_len _ _ _ _]
    simp only [List.append_assoc, List.cons_append, List.nil_append]
    rw [addFace_ok (s := { t with surfaces := t.surfaces ++
        [source.surfaceAt sh,
         (source.surfaceAt sh).transform translation] }) (by
      simp only [Bool.and_eq_true]
      refine ⟨?_, hallB _ rfl rfl⟩
      simp only [Shape.okSurfaceH, beq_self_eq_true, Bool.true_and,
        List.length_append, List.length_cons, List.length_nil,
        decide_eq_true_eq]
      omega)]
    rw [addFace_ok (s := { t with
        surfaces := t.surfaces ++
          [source.surfaceAt sh,
           (source.surfaceAt sh).transform translation],
        faces := t.faces ++
          [Face.face ⟨t.id, t.surfaces.length⟩
             (Rel.cyclesForFace rb (Face.face sh cys col)) color] }) (by
      simp only [Bool.and_eq_true]
      refine ⟨?_, hallT _ rfl rfl⟩
      simp only [Shape.okSurfaceH, beq_self_eq_true, Bool.true_and,
        List.length_append, List.length_cons, List.length_nil,
        decide_eq_true_eq]
      omega)]
    simp only [List.append_assoc, List.cons_append, List.nil_append,
      List.length_append, List.length_cons, List.length_nil]
  have hText : ShapeExt t
      (sweepCapStep source translation color rb rt (Face.face sh cys col) t) := by
    rw [hstep]
    exact ShapeExt.pushSurfacesFaces t _ _
  refine ⟨Face.face ⟨t.id, t.surfaces.length⟩
      (Rel.cyclesForFace rb (Face.face sh cys col)) color,
    Face.face ⟨t.id, t.surfaces.length + 1⟩
      (Rel.cyclesForFace rt (Face.face sh cys col)) color,
    hstep, rfl, rfl, ?_, ?_⟩
  · refine ⟨⟨t.id, t.surfaces.length⟩,
      Rel.cyclesForFace rb (Face.face sh cys col), ?_, ?_, ?_, ?_, ?_⟩
    · rw [hstep]
      simp
    · rw [hstep]
      simp only [Shape.okSurfaceH, beq_self_eq_true, Bool.true_and,
        List.length_append, List.length_cons, List.length_nil,
        decide_eq_true_eq]
      omega
    · intro ch hch
      rw [hcyBdef] at hch
      obtain ⟨ch0, hch0, rfl⟩ := List.mem_map.mp hch
      obtain ⟨c, hle, _, hd, _⟩ := hhostB ch0 hch0
      rw [hle]
      exact cycleDeepOk_ext hText hd
    · rw [hstep, Shape.surfaceAt_eq]
      exact getD_append_len _ _ _ _
    · rw [hcyBdef, List.map_map]
      apply List.map_congr_left
      intro ch hch
      obtain ⟨c, hle, _, hd, hr⟩ := hhostB ch hch
      show resolveCycleAt _ (rlookupD rb.cycles ch) = _
      rw [hle, resolveCycleAt_ext hText hd]
      exact hr
  · refine ⟨⟨t.id, t.surfaces.length + 1⟩,
      Rel.cyclesForFace rt (Face.face sh cys col), ?_, ?_, ?_, ?_, ?_⟩
    · rw [hstep]
      simp
    · rw [hstep]
      simp only [Shape.okSurfaceH, beq_self_eq_true, Bool.true_and,
        List.length_append, List.length_cons, List.length_nil,
        decide_eq_true_eq]
      omega
    · intro ch hch
      rw [hcyTdef] at hch
      obtain ⟨ch0, hch0, rfl⟩ := List.mem_map.mp hch
      obtain ⟨c, hle, _, hd, _⟩ := hhostT ch0 hch0
      rw [hle]
      exact cycleDeepOk_ext hText hd
    · rw [hstep, Shape.surfaceAt_eq]
      exact getD_append_len1 _ _ _ _ _
    · rw [hcyTdef, List.map_map]
      apply List.map_congr_left
      intro ch hch
      obtain ⟨c, hle, _, hd, hr⟩ := hhostT ch hch
      show resolveCycleAt _ (rlookupD rt.cycles ch) = _
      rw [hle, resolveCycleAt_ext hText hd]
      exact hr

theorem sweepCapFaces_spec (source : Shape) (translation : Transform)
    (path : Vec3) (color : Color) (rb rt : Rel) :
    ∀ (fs : List Face) (t : Shape),
      (∀ f ∈ fs, ∃ sh cys col, f = Face.face sh cys col ∧
        ∀ ch ∈ cys, cycleMapsToB source rb.cycles t ch ∧
          cycleMapsToT source rt.cycles t ch translation path) →
      ShapeExt t (sweepCapFaces source translation color rb rt fs t) ∧
      (sweepCapFaces source translation color rb rt fs t).points = t.points ∧
      (sweepCapFaces source translation color rb rt fs t).curves = t.curves ∧
      (sweepCapFaces source translation color rb rt fs t).vertices =
        t.vertices ∧
      (sweepCapFaces source translation color rb rt fs t).edges = t.edges ∧
      (sweepCapFaces source translation color rb rt fs t).cycles = t.cycles ∧
      (∃ added,
        (sweepCapFaces source translation color rb rt fs t).faces =
          t.faces ++ added ∧
        added.length = 2 * fs.length ∧ countTriL added = 0) ∧
      (∀ f ∈ fs, ∀ sh cys col, f = Face.face sh cys col →
        capFaceB source (sweepCapFaces source translation color rb rt fs t)
          sh cys color ∧
        capFaceT source (sweepCapFaces source translation color rb rt fs t)
          sh cys color translation path) := by
  intro fs
  induction fs with
  | nil =>
      intro t _
      exact ⟨ShapeExt.refl t, rfl, rfl, rfl, rfl, rfl,
        ⟨[], by simp [sweepCapFaces], rfl, rfl⟩, by simp⟩
  | cons f fs ih =>
      intro t hface
      obtain ⟨sh, cys, col, rfl, hcy⟩ := hface f (List.mem_cons_self f fs)
      obtain ⟨fB, fT, hstep, hbB, hbT, hcapB, hcapT⟩ :=
        sweepCapStep_spec source translation path color rb rt sh cys col t hcy
      have hunf : sweepCapFaces source translation color rb rt
          (Face.face sh cys col :: fs) t =
          sweepCapFaces source translation color rb rt fs
            (sweepCapStep source translation color rb rt
              (Face.face sh cys col) t) := rfl
      have hext : ShapeExt t
          (sweepCapStep source translation color rb rt
            (Face.face sh cys col) t) := by
        rw [hstep]
        exact ShapeExt.pushSurfacesFaces t _ _
      have hface' : ∀ f' ∈ fs, ∃ sh' cys' col', f' = Face.face sh' cys' col' ∧
          ∀ ch ∈ cys', cycleMapsToB source rb.cycles
            (sweepCapStep source translation color rb rt
              (Face.face sh cys col) t) ch ∧
          cycleMapsToT source rt.cycles
            (sweepCapStep source translation color rb rt
              (Face.face sh cys col) t) ch translation path := by
        intro f' hmem
        obtain ⟨sh', cys', col', rfl, hcy'⟩ :=
          hface f' (List.mem_cons_of_mem _ hmem)
        exact ⟨sh', cys', col', rfl, fun ch hch =>
          ⟨cycleMapsToB_ext hext (hcy' ch hch).1,
           cycleMapsToT_ext hext (hcy' ch hch).2⟩⟩
      obtain ⟨iext, ipts, icur, iver, iedg, icyc, ⟨added, ifac, ilen, itri⟩,
        imaps⟩ := ih (sweepCapStep source translation color rb rt
          (Face.face sh cys col) t) hface'
      rw [hunf]
      refine ⟨hext.trans iext, ?_, ?_, ?_, ?_, ?_, ?_, ?_⟩
      · rw [ipts, hstep]
      · rw [icur, hstep]
      · rw [iver, hstep]
      · rw [iedg, hstep]
      · rw [icyc, hstep]
      · refine ⟨[fB, fT] ++ added, ?_, ?_, ?_⟩
        · rw [ifac, hstep]
          simp
        · simp only [List.length_append, List.length_cons, List.length_nil]
          omega
        · rw [countTriL_append, itri]
          simp only [countTriL, List.filter_cons, List.filter_nil]
          rw [show isTriFace fB = false by
            cases fB <;> simp [isBrepFace, isTriFace] at hbB ⊢]
          rw [show isTriFace fT = false by
            cases fT <;> simp [isBrepFace, isTriFace] at hbT ⊢]
          simp
      · intro f' hmem sh' cys' col' hf'
        rcases List.mem_cons.mp hmem with heq | hmem'
        · subst hf'
          injection heq with h1 h2 h3
          subst h1; subst h2
          exact ⟨capFaceB_ext iext hcapB, capFaceT_ext iext hcapT⟩
        · exact imaps f' hmem' sh' cys' col' hf'

theorem sideEdgeFor_spec (source : Shape) (rb rt : Rel) (eh : Handle Edge)
    (vs : Handle Vertex) (t : Shape) (cache : Cache)
    (hb : t.okVertexH (rlookupD rb.verts vs) = true)
    (ht : t.okVertexH (rlookupD rt.verts vs) = true)
    (hcache : ∀ kv ∈ cache, t.okEdgeH kv.2 = true) :
    ShapeExt t (sideEdgeFor source rb rt eh vs t cache).2.1 ∧
    (sideEdgeFor source rb rt eh vs t cache).2.1.points = t.points ∧
    (sideEdgeFor source rb rt eh vs t cache).2.1.surfaces = t.surfaces ∧
    (sideEdgeFor source rb rt eh vs t cache).2.1.vertices = t.vertices ∧
    (sideEdgeFor source rb rt eh vs t cache).2.1.cycles = t.cycles ∧
    (sideEdgeFor source rb rt eh vs t cache).2.1.faces = t.faces ∧
    (sideEdgeFor source rb rt eh vs t cache).2.1.okEdgeH
      (sideEdgeFor source rb rt eh vs t cache).1 = true ∧
    (∀ kv ∈ (sideEdgeFor source rb rt eh vs t cache).2.2,
      (sideEdgeFor source rb rt eh vs t cache).2.1.okEdgeH kv.2 = true) ∧
    (sideEdgeFor source rb rt eh vs t cache).2.1.edges.length + cache.length =
      t.edges.length + (sideEdgeFor source rb rt eh vs t cache).2.2.length ∧
    (∃ newKeys,
      (sideEdgeFor source rb rt eh vs t cache).2.2.map Prod.fst =
        cache.map Prod.fst ++ newKeys ∧
      ∀ k ∈ newKeys, k = rlookupD rb.verts vs) ∧
    ((cache.map Prod.fst).Nodup →
      ((sideEdgeFor source rb rt eh vs t cache).2.2.map Prod.fst).Nodup) := by
  cases hl : rlookup cache (rlookupD rb.verts vs) with
  | some e =>
      have hr : sideEdgeFor source rb rt eh vs t cache = (e, t, cache) := by
        unfold sideEdgeFor
        simp only []
        rw [hl]
      rw [hr]
      refine ⟨ShapeExt.refl t, rfl, rfl, rfl, rfl, rfl,
        hcache _ (rlookup_mem hl), hcache, by simp,
        ⟨[], by simp, by simp⟩, fun hx => hx⟩
  | none =>
      have hr : sideEdgeFor source rb rt eh vs t cache =
          (⟨t.id, t.edges.length⟩,
           { t with
               curves := t.curves ++
                 [source.curveAt (source.edgeAt eh).curve],
               edges := t.edges ++
                 [⟨⟨t.id, t.curves.length⟩,
                   some (rlookupD rb.verts vs, rlookupD rt.verts vs)⟩] },
           cache ++ [(rlookupD rb.verts vs, ⟨t.id, t.edges.length⟩)]) := by
        unfold sideEdgeFor
        simp only []
        rw [hl]
        simp only [Shape.addCurve]
        rw [addEdge_fresh ({ t with curves := t.curves ++
            [source.curveAt (source.edgeAt eh).curve] }) t.curves.length
          (some (rlookupD rb.verts vs, rlookupD rt.verts vs))
          (by simp)
          (by
            simp only [Bool.and_eq_true]
            constructor
            · simp only [Shape.okVertexH] at hb ⊢
              exact hb
            · simp only [Shape.okVertexH] at ht ⊢
              exact ht)]
        simp only [exUnwrap]
      rw [hr]
      refine ⟨ShapeExt.pushCurvesEdges t _ _, rfl, rfl, rfl, rfl, rfl,
        ?_, ?_, ?_, ?_, ?_⟩
      · simp only [Shape.okEdgeH, beq_self_eq_true, Bool.true_and,
          List.length_append, List.length_cons, List.length_nil,
          decide_eq_true_eq]
        omega
      · intro kv hkv
        rcases List.mem_append.mp hkv with hold | hnew
        · have := hcache kv hold
          simp only [Shape.okEdgeH, Bool.and_eq_true, beq_iff_eq,
            decide_eq_true_eq, List.length_append, List.length_cons,
            List.length_nil] at this ⊢
          exact ⟨this.1, by omega⟩
        · simp only [List.mem_singleton] at hnew
          subst hnew
          simp only [Shape.okEdgeH, beq_self_eq_true, Bool.true_and,
            List.length_append, List.length_cons, List.length_nil,
            decide_eq_true_eq]
          omega
      · simp only [List.length_append, List.length_cons, List.length_nil]
        omega
      · exact ⟨[rlookupD rb.verts vs], by simp, by simp⟩
      · intro hnd
        have hnotin : rlookupD rb.verts vs ∉ cache.map Prod.fst :=
          rlookup_eq_none.mp hl
        simp only [List.map_append, List.map_cons, List.map_nil]
        simp [List.nodup_append, hnd, hnotin]

theorem ShapeExt.pushSurfCyclesFaces (t : Shape) (X : List Surface)
    (Y : List Cycle) (Z : List Face) :
    ShapeExt t { t with surfaces := t.surfaces ++ X,
                        cycles := t.cycles ++ Y, faces := t.faces ++ Z } :=
  ⟨rfl, ListExt.listRefl _, ListExt.listRefl _, ⟨X, rfl⟩, ListExt.listRefl _,
    ListExt.listRefl _, ⟨Y, rfl⟩, ⟨Z, rfl⟩⟩

theorem sideFaceStep_spec (source : Shape) (rb rt : Rel) (path : Vec3)
    (color : Color) (eh : Handle Edge) (t : Shape) (cache : Cache)
    (a b : Handle Vertex)
    (hvv : (source.edgeAt eh).vertices = some (a, b))
    (hba : t.okVertexH (rlookupD rb.verts a) = true)
    (hbb : t.okVertexH (rlookupD rb.verts b) = true)
    (hta : t.okVertexH (rlookupD rt.verts a) = true)
    (htb : t.okVertexH (rlookupD rt.verts b) = true)
    (hbe : t.okEdgeH (rlookupD rb.edges eh) = true)
    (hte : t.okEdgeH (rlookupD rt.edges eh) = true)
    (hcache : ∀ kv ∈ cache, t.okEdgeH kv.2 = true) :
    ShapeExt t (sideFaceStep source rb rt path color eh (t, cache)).1 ∧
    (∃ f, (sideFaceStep source rb rt path color eh (t, cache)).1.faces =
        t.faces ++ [f] ∧
      sideBrepFace (sideFaceStep source rb rt path color eh (t, cache)).1
        path f) ∧
    (sideFaceStep source rb rt path color eh (t, cache)).1.edges.length +
        cache.length =
      t.edges.length +
        (sideFaceStep source rb rt path color eh (t, cache)).2.length ∧
    (∀ kv ∈ (sideFaceStep source rb rt path color eh (t, cache)).2,
      (sideFaceStep source rb rt path color eh (t, cache)).1.okEdgeH kv.2 =
        true) ∧
    (∃ newKeys,
      (sideFaceStep source rb rt path color eh (t, cache)).2.map Prod.fst =
        cache.map Prod.fst ++ newKeys ∧
      ∀ k ∈ newKeys,
        k = rlookupD rb.verts a ∨ k = rlookupD rb.verts b) ∧
    ((cache.map Prod.fst).Nodup →
      ((sideFaceStep source rb rt path color eh (t, cache)).2.map
        Prod.fst).Nodup) := by
  obtain ⟨hext1, hpts1, hsur1, hver1, hcyc1, hfac1, hokE1, hcache1, hlen1,
    ⟨nk1, hk1, hk1mem⟩, hnd1⟩ :=
    sideEdgeFor_spec source rb rt eh a t cache hba hta hcache
  obtain ⟨hext2, hpts2, hsur2, hver2, hcyc2, hfac2, hokE2, hcache2, hlen2,
    ⟨nk2, hk2, hk2mem⟩, hnd2⟩ :=
    sideEdgeFor_spec source rb rt eh b
      (sideEdgeFor source rb rt eh a t cache).2.1
      (sideEdgeFor source rb rt eh a t cache).2.2
      (hext1.okVertexH hbb) (hext1.okVertexH htb) hcache1
  have hext12 := hext1.trans hext2
  have hbe2 := hext12.okEdgeH hbe
  have hte2 := hext12.okEdgeH hte
  have hokE1' := hext2.okEdgeH hokE1
  have hstep : sideFaceStep source rb rt path color eh (t, cache) =
      ({ (sideEdgeFor source rb rt eh b
            (sideEdgeFor source rb rt eh a t cache).2.1
            (sideEdgeFor source rb rt eh a t cache).2.2).2.1 with
          surfaces := (sideEdgeFor source rb rt eh b
              (sideEdgeFor source rb rt eh a t cache).2.1
              (sideEdgeFor source rb rt eh a t cache).2.2).2.1.surfaces ++
            [Surface.sweptCurve
              ⟨(sideEdgeFor source rb rt eh b
                  (sideEdgeFor source rb rt eh a t cache).2.1
                  (sideEdgeFor source rb rt eh a t cache).2.2).2.1.curveAt
                ((sideEdgeFor source rb rt eh b
                    (sideEdgeFor source rb rt eh a t cache).2.1
                    (sideEdgeFor source rb rt eh a t cache).2.2).2.1.edgeAt
                  (rlookupD rb.edges eh)).curve, path⟩],
          cycles := (sideEdgeFor source rb rt eh b
              (sideEdgeFor source rb rt eh a t cache).2.1
              (sideEdgeFor source rb rt eh a t cache).2.2).2.1.cycles ++
            [⟨[rlookupD rb.edges eh, rlookupD rt.edges eh,
               (sideEdgeFor source rb rt eh a t cache).1,
               (sideEdgeFor source rb rt eh b
                 (sideEdgeFor source rb rt eh a t cache).2.1
                 (sideEdgeFor source rb rt eh a t cache).2.2).1]⟩],
          faces := (sideEdgeFor source rb rt eh b
              (sideEdgeFor source rb rt eh a t cache).2.1
              (sideEdgeFor source rb rt eh a t cache).2.2).2.1.faces ++
            [Face.face
              ⟨(sideEdgeFor source rb rt eh b
                  (sideEdgeFor source rb rt eh a t cache).2.1
                  (sideEdgeFor source rb rt eh a t cache).2.2).2.1.id,
               (sideEdgeFor source rb rt eh b
                  (sideEdgeFor source rb rt eh a t cache).2.1
                  (sideEdgeFor source rb rt eh a t cache).2.2).2.1.surfaces.length⟩
              [⟨(sideEdgeFor source rb rt eh b
                   (sideEdgeFor source rb rt eh a t cache).2.1
                   (sideEdgeFor source rb rt eh a t cache).2.2).2.1.id,
                (sideEdgeFor source rb rt eh b
                   (sideEdgeFor source rb rt eh a t cache).2.1
                   (sideEdgeFor source rb rt eh a t cache).2.2).2.1.cycles.length⟩]
              color] },
       (sideEdgeFor source rb rt eh b
         (sideEdgeFor source rb rt eh a t cache).2.1
         (sideEdgeFor source rb rt eh a t cache).2.2).2.2) := by
    unfold sideFaceStep
    rw [hvv]
    simp only [Shape.addSurface]
    rw [addCycle_ok (s := { (sideEdgeFor source rb rt eh b
        (sideEdgeFor source rb rt eh a t cache).2.1
        (sideEdgeFor source rb rt eh a t cache).2.2).2.1 with
        surfaces := (sideEdgeFor source rb rt eh b
            (sideEdgeFor source rb rt eh a t cache).2.1
            (sideEdgeFor source rb rt eh a t cache).2.2).2.1.surfaces ++
          [Surface.sweptCurve
            ⟨(sideEdgeFor source rb rt eh b
                (sideEdgeFor source rb rt eh a t cache).2.1
                (sideEdgeFor source rb rt eh a t cache).2.2).2.1.curveAt
              ((sideEdgeFor source rb rt eh b
                  (sideEdgeFor source rb rt eh a t cache).2.1
                  (sideEdgeFor source rb rt eh a t cache).2.2).2.1.edgeAt
                (rlookupD rb.edges eh)).curve, path⟩] }) (by
      simp only [List.all_cons, List.all_nil, Bool.and_eq_true,
        Bool.and_true]
      refine ⟨?_, ?_, ?_, ?_⟩ <;>
        simp only [Shape.okEdgeH] at hbe2 hte2 hokE1' hokE2 ⊢
      · exact hbe2
      · exact hte2
      · exact hokE1'
      · exact hokE2)]
    simp only [exUnwrap]
    rw [addFace_ok (by
      simp only [List.all_cons, List.all_nil, Bool.and_eq_true,
        Bool.and_true]
      constructor
      · simp only [Shape.okSurfaceH, beq_self_eq_true, Bool.true_and,
          List.length_append, List.length_cons, List.length_nil,
          decide_eq_true_eq]
        exact Nat.lt_succ_self _
      · simp only [Shape.okCycleH, beq_self_eq_true, Bool.true_and,
          List.length_append, List.length_cons, List.length_nil,
          decide_eq_true_eq]
        exact Nat.lt_succ_self _)]
  have hext3 : ShapeExt
      (sideEdgeFor source rb rt eh b
        (sideEdgeFor source rb rt eh a t cache).2.1
        (sideEdgeFor source rb rt eh a t cache).2.2).2.1
      (sideFaceStep source rb rt path color eh (t, cache)).1 := by
    rw [hstep]
    exact ShapeExt.pushSurfCyclesFaces _ _ _ _
  have hextAll : ShapeExt t
      (sideFaceStep source rb rt path color eh (t, cache)).1 :=
    hext12.trans hext3
  refine ⟨hextAll, ?_, ?_, ?_, ?_, ?_⟩
  · refine ⟨Face.face
      ⟨(sideEdgeFor source rb rt eh b
          (sideEdgeFor source rb rt eh a t cache).2.1
          (sideEdgeFor source rb rt eh a t cache).2.2).2.1.id,
       (sideEdgeFor source rb rt eh b
          (sideEdgeFor source rb rt eh a t cache).2.1
          (sideEdgeFor source rb rt eh a t cache).2.2).2.1.surfaces.length⟩
      [⟨(sideEdgeFor source rb rt eh b
           (sideEdgeFor source rb rt eh a t cache).2.1
           (sideEdgeFor source rb rt eh a t cache).2.2).2.1.id,
        (sideEdgeFor source rb rt eh b
           (sideEdgeFor source rb rt eh a t cache).2.1
           (sideEdgeFor source rb rt eh a t cache).2.2).2.1.cycles.length⟩]
      color, ?_, ?_⟩
    · rw [hstep]
      show _ ++ _ = t.faces ++ _
      rw [hfac2, hfac1]
    · refine ⟨_, _, color, rfl, ?_, ?_,
        ⟨(sideEdgeFor source rb rt eh b
            (sideEdgeFor source rb rt eh a t cache).2.1
            (sideEdgeFor source rb rt eh a t cache).2.2).2.1.curveAt
          ((sideEdgeFor source rb rt eh b
              (sideEdgeFor source rb rt eh a t cache).2.1
              (sideEdgeFor source rb rt eh a t cache).2.2).2.1.edgeAt
            (rlookupD rb.edges eh)).curve, ?_⟩, ?_⟩
      · rw [hstep]
        simp only [Shape.okSurfaceH, beq_self_eq_true, Bool.true_and,
          List.length_append, List.length_cons, List.length_nil,
          decide_eq_true_eq]
        omega
      · rw [hstep]
        simp only [Shape.okCycleH, beq_self_eq_true, Bool.true_and,
          List.length_append, List.length_cons, List.length_nil,
          decide_eq_true_eq]
        omega
      · rw [hstep, Shape.surfaceAt_eq]
        exact getD_append_len _ _ _ _
      · rw [hstep, Shape.cycleAt_eq]
        rw [show (⟨(sideEdgeFor source rb rt eh b
            (sideEdgeFor source rb rt eh a t cache).2.1
            (sideEdgeFor source rb rt eh a t cache).2.2).2.1.id,
            (sideEdgeFor source rb rt eh b
              (sideEdgeFor source rb rt eh a t cache).2.1
              (sideEdgeFor source rb rt eh a t cache).2.2).2.1.cycles.length⟩ :
            Handle Cycle).idx = (sideEdgeFor source rb rt eh b
              (sideEdgeFor source rb rt eh a t cache).2.1
              (sideEdgeFor source rb rt eh a t cache).2.2).2.1.cycles.length
          from rfl]
        rw [getD_append_len]
        rfl
  · have he5 : (sideFaceStep source rb rt path color eh (t, cache)).1.edges =
        (sideEdgeFor source rb rt eh b
          (sideEdgeFor source rb rt eh a t cache).2.1
          (sideEdgeFor source rb rt eh a t cache).2.2).2.1.edges := by
      rw [hstep]
    have hc5 : (sideFaceStep source rb rt path color eh (t, cache)).2 =
        (sideEdgeFor source rb rt eh b
          (sideEdgeFor source rb rt eh a t cache).2.1
          (sideEdgeFor source rb rt eh a t cache).2.2).2.2 := by
      rw [hstep]
    rw [he5, hc5]
    omega
  · intro kv hkv
    rw [show (sideFaceStep source rb rt path color eh (t, cache)).2 =
        (sideEdgeFor source rb rt eh b
          (sideEdgeFor source rb rt eh a t cache).2.1
          (sideEdgeFor source rb rt eh a t cache).2.2).2.2 by rw [hstep]]
      at hkv
    exact hext3.okEdgeH (hcache2 kv hkv)
  · refine ⟨nk1 ++ nk2, ?_, ?_⟩
    · rw [show (sideFaceStep source rb rt path color eh (t, cache)).2 =
        (sideEdgeFor source rb rt eh b
          (sideEdgeFor source rb rt eh a t cache).2.1
          (sideEdgeFor source rb rt eh a t cache).2.2).2.2 by rw [hstep]]
      rw [hk2, hk1, List.append_assoc]
    · intro k hk
      rcases List.mem_append.mp hk with h1 | h2
      · exact Or.inl (hk1mem k h1)
      · exact Or.inr (hk2mem k h2)
  · intro hnd
    rw [show (sideFaceStep source rb rt path color eh (t, cache)).2 =
        (sideEdgeFor source rb rt eh b
          (sideEdgeFor source rb rt eh a t cache).2.1
          (sideEdgeFor source rb rt eh a t cache).2.2).2.2 by rw [hstep]]
    exact hnd2 (hnd1 hnd)

theorem sideFacesForCycle_spec (source : Shape) (rb rt : Rel) (path : Vec3)
    (color : Color) :
    ∀ (es : List (Handle Edge)) (t : Shape) (cache : Cache),
      (∀ eh ∈ es, ∃ a b, (source.edgeAt eh).vertices = some (a, b) ∧
        t.okVertexH (rlookupD rb.verts a) = true ∧
        t.okVertexH (rlookupD rb.verts b) = true ∧
        t.okVertexH (rlookupD rt.verts a) = true ∧
        t.okVertexH (rlookupD rt.verts b) = true ∧
        t.okEdgeH (rlookupD rb.edges eh) = true ∧
        t.okEdgeH (rlookupD rt.edges eh) = true) →
      (∀ kv ∈ cache, t.okEdgeH kv.2 = true) →
      ShapeExt t (sideFacesForCycle source rb rt path color es (t, cache)).1 ∧
      (∃ added,
        (sideFacesForCycle source rb rt path color es (t, cache)).1.faces =
          t.faces ++ added ∧
        added.length = es.length ∧ countTriL added = 0 ∧
        ∀ f ∈ added,
          sideBrepFace
            (sideFacesForCycle source rb rt path color es (t, cache)).1
            path f) ∧
      (sideFacesForCycle source rb rt path color es (t, cache)).1.edges.length
          + cache.length =
        t.edges.length +
          (sideFacesForCycle source rb rt path color es (t, cache)).2.length ∧
      (∀ kv ∈ (sideFacesForCycle source rb rt path color es (t, cache)).2,
        (sideFacesForCycle source rb rt path color es
          (t, cache)).1.okEdgeH kv.2 = true) ∧
      (∃ newKeys,
        (sideFacesForCycle source rb rt path color es (t, cache)).2.map
            Prod.fst =
          cache.map Prod.fst ++ newKeys ∧
        ∀ k ∈ newKeys, ∃ eh ∈ es, ∃ a b,
          (source.edgeAt eh).vertices = some (a, b) ∧
          (k = rlookupD rb.verts a ∨ k = rlookupD rb.verts b)) ∧
      ((cache.map Prod.fst).Nodup →
        ((sideFacesForCycle source rb rt path color es
          (t, cache)).2.map Prod.fst).Nodup) := by
  intro es
  induction es with
  | nil =>
      intro t cache _ hcache
      exact ⟨ShapeExt.refl t, ⟨[], by simp [sideFacesForCycle], rfl, rfl,
        by simp⟩, by simp [sideFacesForCycle], hcache,
        ⟨[], by simp [sideFacesForCycle], by simp⟩, fun hx => hx⟩
  | cons eh es ih =>
      intro t cache hes hcache
      obtain ⟨a, b, hvv, hba, hbb, hta, htb, hbe, hte⟩ :=
        hes eh (List.mem_cons_self eh es)
      obtain ⟨hextS, ⟨f, hfacS, hsideS⟩, hlenS, hcacheS, ⟨nk1, hk1, hk1mem⟩,
        hndS⟩ := sideFaceStep_spec source rb rt path color eh t cache a b
          hvv hba hbb hta htb hbe hte hcache
      have hunf : sideFacesForCycle source rb rt path color (eh :: es)
          (t, cache) =
          sideFacesForCycle source rb rt path color es
            ((sideFaceStep source rb rt path color eh (t, cache)).1,
             (sideFaceStep source rb rt path color eh (t, cache)).2) := rfl
      have hes' : ∀ eh' ∈ es, ∃ a' b',
          (source.edgeAt eh').vertices = some (a', b') ∧
          (sideFaceStep source rb rt path color eh (t, cache)).1.okVertexH
            (rlookupD rb.verts a') = true ∧
          (sideFaceStep source rb rt path color eh (t, cache)).1.okVertexH
            (rlookupD rb.verts b') = true ∧
          (sideFaceStep source rb rt path color eh (t, cache)).1.okVertexH
            (rlookupD rt.verts a') = true ∧
          (sideFaceStep source rb rt path color eh (t, cache)).1.okVertexH
            (rlookupD rt.verts b') = true ∧
          (sideFaceStep source rb rt path color eh (t, cache)).1.okEdgeH
            (rlookupD rb.edges eh') = true ∧
          (sideFaceStep source rb rt path color eh (t, cache)).1.okEdgeH
            (rlookupD rt.edges eh') = true := by
        intro eh' hmem
        obtain ⟨a', b', h1, h2, h3, h4, h5, h6, h7⟩ :=
          hes eh' (List.mem_cons_of_mem _ hmem)
        exact ⟨a', b', h1, hextS.okVertexH h2, hextS.okVertexH h3,
          hextS.okVertexH h4, hextS.okVertexH h5, hextS.okEdgeH h6,
          hextS.okEdgeH h7⟩
      obtain ⟨iext, ⟨added, ifac, ilen, itri, iside⟩, ilens, icache,
        ⟨nk2, hk2, hk2mem⟩, indp⟩ :=
        ih (sideFaceStep source rb rt path color eh (t, cache)).1
          (sideFaceStep source rb rt path color eh (t, cache)).2 hes' hcacheS
      rw [hunf]
      refine ⟨hextS.trans iext, ?_, ?_, icache, ?_, ?_⟩
      · refine ⟨[f] ++ added, ?_, ?_, ?_, ?_⟩
        · rw [ifac, hfacS, List.append_assoc]
        · simp only [List.length_append, List.length_cons, List.length_nil,
            List.singleton_append]
          omega
        · rw [countTriL_append, itri]
          obtain ⟨sh', ch', col', hf, _⟩ := hsideS
          subst hf
          rfl
        · intro f' hmem
          rcases List.mem_append.mp hmem with h1 | h2
          · simp only [List.mem_singleton] at h1
            subst h1
            exact sideBrepFace_ext iext hsideS
          · exact iside f' h2
      · omega
      · refine ⟨nk1 ++ nk2, ?_, ?_⟩
        · rw [hk2, hk1, List.append_assoc]
        · intro k hk
          rcases List.mem_append.mp hk with h1 | h2
          · exact ⟨eh, List.mem_cons_self eh es, a, b, hvv, hk1mem k h1⟩
          · obtain ⟨eh', hmem', hrest⟩ := hk2mem k h2
            exact ⟨eh', List.mem_cons_of_mem _ hmem', hrest⟩
      · intro hnd
        exact indp (hndS hnd)

theorem nodup_subset_length {α : Type} [DecidableEq α] {l m : List α}
    (hnd : l.Nodup) (hsub : ∀ x ∈ l, x ∈ m) : l.length ≤ m.length := by
  calc l.length = l.toFinset.card := (List.toFinset_card_of_nodup hnd).symm
    _ ≤ m.toFinset.card := Finset.card_le_card fun x hx =>
        List.mem_toFinset.mpr (hsub x (List.mem_toFinset.mp hx))
    _ ≤ m.length := List.toFinset_card_le m

theorem countSplit (l : List Face) :
    countTriL l + countBrepL l = l.length := by
  induction l with
  | nil => rfl
  | cons f fs ih =>
      simp only [countTriL, countBrepL] at ih
      cases f <;>
        simp [countTriL, countBrepL, List.filter_cons, isTriFace,
          isBrepFace] <;>
        omega

theorem closedChain_snd_mem (s : Shape) (c : Cycle)
    (hc : closedChainB s c = true) {eh : Handle Edge} (hmem : eh ∈ c.edges) :
    ∃ eh' ∈ c.edges, edgeSnd s eh = edgeFst s eh' := by
  obtain ⟨i, hi, hget⟩ := List.mem_iff_getElem.mp hmem
  simp only [closedChainB, Bool.and_eq_true] at hc
  obtain ⟨-, hchain⟩ := hc
  rw [List.all_eq_true] at hchain
  have hmemi : i ∈ List.range c.edges.length := List.mem_range.mpr hi
  have hth := hchain i hmemi
  rw [beq_iff_eq] at hth
  have hgd : c.edges.getD i default = eh := by
    rw [List.getD_eq_getElem c.edges default hi, hget]
  have hlt : (i + 1) % c.edges.length < c.edges.length :=
    Nat.mod_lt _ (Nat.lt_of_le_of_lt (Nat.zero_le i) hi)
  refine ⟨c.edges.getD ((i + 1) % c.edges.length) default, ?_, ?_⟩
  · rw [List.getD_eq_getElem c.edges default hlt]
    exact List.getElem_mem _
  · rw [← hgd]
    exact hth

theorem sweepSideStep_spec (source : Shape) (rb rt : Rel) (path : Vec3)
    (tolerance : ℚ) (color : Color) (ch : Handle Cycle) (t : Shape)
    (hgen : ((source.cycleAt ch).edges.length == 1) = false →
      closedChainB source (source.cycleAt ch) = true ∧
      ∀ eh ∈ (source.cycleAt ch).edges, ∃ a b,
        (source.edgeAt eh).vertices = some (a, b) ∧
        t.okVertexH (rlookupD rb.verts a) = true ∧
        t.okVertexH (rlookupD rb.verts b) = true ∧
        t.okVertexH (rlookupD rt.verts a) = true ∧
        t.okVertexH (rlookupD rt.verts b) = true ∧
        t.okEdgeH (rlookupD rb.edges eh) = true ∧
        t.okEdgeH (rlookupD rt.edges eh) = true) :
    ShapeExt t (sweepSideStep source rb rt path tolerance color ch t) ∧
    (∃ added,
      (sweepSideStep source rb rt path tolerance color ch t).faces =
        t.faces ++ added ∧
      countTriL added =
        (if (source.cycleAt ch).edges.length == 1 then 1 else 0) ∧
      countBrepL added =
        (if (source.cycleAt ch).edges.length == 1 then 0
         else (source.cycleAt ch).edges.length) ∧
      (∀ f ∈ added, isTriFace f = true ∨
        sideBrepFace (sweepSideStep source rb rt path tolerance color ch t)
          path f)) ∧
    (sweepSideStep source rb rt path tolerance color ch t).edges.length ≤
      t.edges.length +
        (if (source.cycleAt ch).edges.length == 1 then 0
         else (source.cycleAt ch).edges.length) := by
  cases hb : ((source.cycleAt ch).edges.length == 1) with
  | true =>
      have hstep : sweepSideStep source rb rt path tolerance color ch t =
          { t with faces := t.faces ++
              [Face.triangles (contTriangles
                (approximate_cycle source (source.cycleAt ch) tolerance)
                path color)] } := by
        unfold sweepSideStep
        rw [if_pos hb]
        rw [addFace_ok rfl]
      rw [hstep]
      refine ⟨⟨rfl, ListExt.listRefl _, ListExt.listRefl _, ListExt.listRefl _,
        ListExt.listRefl _, ListExt.listRefl _, ListExt.listRefl _, ⟨_, rfl⟩⟩,
        ⟨[Face.triangles (contTriangles
            (approximate_cycle source (source.cycleAt ch) tolerance)
            path color)], rfl, ?_, ?_, ?_⟩, ?_⟩
      · simp [hb, countTriL, isTriFace]
      · simp [hb, countBrepL, isBrepFace]
      · intro f hf
        simp only [List.mem_singleton] at hf
        subst hf
        exact Or.inl rfl
      · simp [hb]
  | false =>
      obtain ⟨hchain, hes⟩ := hgen hb
      have hstep : sweepSideStep source rb rt path tolerance color ch t =
          (sideFacesForCycle source rb rt path color
            (source.cycleAt ch).edges (t, [])).1 := by
        unfold sweepSideStep
        rw [if_neg (by simp [hb])]
      obtain ⟨hext, ⟨added, hfac, hlen, htri, hside⟩, hacc, _,
        ⟨newKeys, hkeys, hkmem⟩, hnd⟩ :=
        sideFacesForCycle_spec source rb rt path color
          (source.cycleAt ch).edges t [] hes (by simp)
      have hkeyBound :
          (sideFacesForCycle source rb rt path color
            (source.cycleAt ch).edges (t, [])).2.length ≤
          (source.cycleAt ch).edges.length := by
        have hkeysNd : ((sideFacesForCycle source rb rt path color
            (source.cycleAt ch).edges (t, [])).2.map Prod.fst).Nodup :=
          hnd (by simp)
        have hsub : ∀ k ∈ (sideFacesForCycle source rb rt path color
            (source.cycleAt ch).edges (t, [])).2.map Prod.fst,
            k ∈ (source.cycleAt ch).edges.map
              fun e => rlookupD rb.verts (edgeFst source e) := by
          intro k hk
          rw [hkeys] at hk
          simp only [List.map_nil, List.nil_append] at hk
          obtain ⟨eh, hmem, a, b, hvv, hor⟩ := hkmem k hk
          have hfst : edgeFst source eh = a := by
            unfold edgeFst
            rw [hvv]
          have hsnd : edgeSnd source eh = b := by
            unfold edgeSnd
            rw [hvv]
          rcases hor with hka | hkb
          · exact List.mem_map.mpr ⟨eh, hmem, by rw [hfst, hka]⟩
          · obtain ⟨eh', hmem', heq⟩ :=
              closedChain_snd_mem source (source.cycleAt ch) hchain hmem
            rw [hsnd] at heq
            exact List.mem_map.mpr ⟨eh', hmem', by rw [← heq, hkb]⟩
        have := nodup_subset_length hkeysNd hsub
        simpa using this
      rw [hstep]
      refine ⟨hext, ⟨added, hfac, ?_, ?_, ?_⟩, ?_⟩
      · rw [if_neg (by simp [hb]), htri]
      · rw [if_neg (by simp [hb])]
        have := countSplit added
        omega
      · intro f hf
        exact Or.inr (hside f hf)
      · rw [if_neg (by simp [hb])]
        simp only [List.length_nil] at hacc
        omega

theorem sweepSideFaces_spec (source : Shape) (rb rt : Rel) (path : Vec3)
    (tolerance : ℚ) (color : Color) :
    ∀ (hs : List (Handle Cycle)) (t : Shape),
      (∀ ch ∈ hs, ((source.cycleAt ch).edges.length == 1) = false →
        closedChainB source (source.cycleAt ch) = true ∧
        ∀ eh ∈ (source.cycleAt ch).edges, ∃ a b,
          (source.edgeAt eh).vertices = some (a, b) ∧
          t.okVertexH (rlookupD rb.verts a) = true ∧
          t.okVertexH (rlookupD rb.verts b) = true ∧
          t.okVertexH (rlookupD rt.verts a) = true ∧
          t.okVertexH (rlookupD rt.verts b) = true ∧
          t.okEdgeH (rlookupD rb.edges eh) = true ∧
          t.okEdgeH (rlookupD rt.edges eh) = true) →
      ShapeExt t (sweepSideFaces source rb rt path tolerance color hs t) ∧
      (∃ added,
        (sweepSideFaces source rb rt path tolerance color hs t).faces =
          t.faces ++ added ∧
        countTriL added = (hs.filter fun ch =>
          (source.cycleAt ch).edges.length == 1).length ∧
        countBrepL added = ((hs.filter fun ch =>
            !((source.cycleAt ch).edges.length == 1)).map fun ch =>
          (source.cycleAt ch).edges.length).sum ∧
        (∀ f ∈ added, isTriFace f = true ∨
          sideBrepFace (sweepSideFaces source rb rt path tolerance color hs t)
            path f)) ∧
      (sweepSideFaces source rb rt path tolerance color hs t).edges.length ≤
        t.edges.length + ((hs.filter fun ch =>
            !((source.cycleAt ch).edges.length == 1)).map fun ch =>
          (source.cycleAt ch).edges.length).sum := by
  intro hs
  induction hs with
  | nil =>
      intro t _
      exact ⟨ShapeExt.refl t, ⟨[], by simp [sweepSideFaces], rfl, rfl,
        by simp⟩, by simp [sweepSideFaces]⟩
  | cons ch hs ih =>
      intro t hcy
      obtain ⟨hextS, ⟨addS, hfacS, htriS, hbrepS, hsideS⟩, hlenS⟩ :=
        sweepSideStep_spec source rb rt path tolerance color ch t
          (hcy ch (List.mem_cons_self ch hs))
      have hunf : sweepSideFaces source rb rt path tolerance color
          (ch :: hs) t =
          sweepSideFaces source rb rt path tolerance color hs
            (sweepSideStep source rb rt path tolerance color ch t) := rfl
      have hcy' : ∀ ch' ∈ hs,
          ((source.cycleAt ch').edges.length == 1) = false →
          closedChainB source (source.cycleAt ch') = true ∧
          ∀ eh ∈ (source.cycleAt ch').edges, ∃ a b,
            (source.edgeAt eh).vertices = some (a, b) ∧
            (sweepSideStep source rb rt path tolerance color ch t).okVertexH
              (rlookupD rb.verts a) = true ∧
            (sweepSideStep source rb rt path tolerance color ch t).okVertexH
              (rlookupD rb.verts b) = true ∧
            (sweepSideStep source rb rt path tolerance color ch t).okVertexH
              (rlookupD rt.verts a) = true ∧
            (sweepSideStep source rb rt path tolerance color ch t).okVertexH
              (rlookupD rt.verts b) = true ∧
            (sweepSideStep source rb rt path tolerance color ch t).okEdgeH
              (rlookupD rb.edges eh) = true ∧
            (sweepSideStep source rb rt path tolerance color ch t).okEdgeH
              (rlookupD rt.edges eh) = true := by
        intro ch' hmem hb
        obtain ⟨h1, h2⟩ := hcy ch' (List.mem_cons_of_mem _ hmem) hb
        refine ⟨h1, ?_⟩
        intro eh hmeme
        obtain ⟨a, b, g1, g2, g3, g4, g5, g6, g7⟩ := h2 eh hmeme
        exact ⟨a, b, g1, hextS.okVertexH g2, hextS.okVertexH g3,
          hextS.okVertexH g4, hextS.okVertexH g5, hextS.okEdgeH g6,
          hextS.okEdgeH g7⟩
      obtain ⟨iext, ⟨added, ifac, itri, ibrep, iside⟩, ilen⟩ :=
        ih (sweepSideStep source rb rt path tolerance color ch t) hcy'
      rw [hunf]
      refine ⟨hextS.trans iext, ?_, ?_⟩
      · refine ⟨addS ++ added, ?_, ?_, ?_, ?_⟩
        · rw [ifac, hfacS, List.append_assoc]
        · rw [countTriL_append, htriS, itri, List.filter_cons]
          cases hb : ((source.cycleAt ch).edges.length == 1) <;>
            simp [hb] <;> omega
        · rw [countBrepL_append, hbrepS, ibrep, List.filter_cons]
          cases hb : ((source.cycleAt ch).edges.length == 1) <;>
            simp [hb] <;> omega
        · intro f hf
          rcases List.mem_append.mp hf with h1 | h2
          · rcases hsideS f h1 with htf | hsf
            · exact Or.inl htf
            · exact Or.inr (sideBrepFace_ext iext hsf)
          · exact iside f h2
      · rw [List.filter_cons]
        cases hb : ((source.cycleAt ch).edges.length == 1) with
        | true =>
            simp [hb] at hlenS
            simp [hb]
            omega
        | false =>
            simp [hb] at hlenS
            simp [hb]
            omega

theorem range_map_getD {α : Type} (l : List α) (d : α) :
    (List.range l.length).map (fun i => l.getD i d) = l := by
  induction l with
  | nil => rfl
  | cons x xs ih =>
      rw [List.length_cons, List.range_succ_eq_map, List.map_cons,
        List.map_map]
      simp only [List.getD_cons_zero, Function.comp_def, List.getD_cons_succ]
      rw [ih]

theorem handleList_nodup {α : Type} (sid n : ℕ) :
    (((List.range n).map fun i => (⟨sid, i⟩ : Handle α))).Nodup := by
  refine List.Nodup.map ?_ (List.nodup_range n)
  intro i j hij
  injection hij

theorem mem_handleList {α : Type} {h : Handle α} {sid n : ℕ}
    (h1 : h.shapeId = sid) (h2 : h.idx < n) :
    h ∈ (List.range n).map fun i => (⟨sid, i⟩ : Handle α) := by
  refine List.mem_map.mpr ⟨h.idx, List.mem_range.mpr h2, ?_⟩
  cases h
  subst h1
  rfl

theorem all_getD {α : Type} {l : List α} {p : α → Bool}
    (hall : l.all p = true) {i : ℕ} (hi : i < l.length) (d : α) :
    p (l.getD i d) = true := by
  rw [List.getD_eq_getElem l d hi]
  exact List.all_eq_true.mp hall _ (List.getElem_mem _)

theorem cycleAt_handles_map (s : Shape) :
    (cycleHandles s).map (fun ch => s.cycleAt ch) = s.cycles := by
  show ((List.range s.cycles.length).map
    fun i => (⟨s.id, i⟩ : Handle Cycle)).map (fun ch => s.cycleAt ch) =
    s.cycles
  rw [List.map_map]
  exact range_map_getD s.cycles default

theorem handles_filter_length (s : Shape) (p : Cycle → Bool) :
    ((cycleHandles s).filter fun ch => p (s.cycleAt ch)).length =
      (s.cycles.filter p).length := by
  have h1 : ((cycleHandles s).map (fun ch => s.cycleAt ch)).filter p =
      ((cycleHandles s).filter fun ch => p (s.cycleAt ch)).map
        (fun ch => s.cycleAt ch) := by
    rw [List.filter_map]
    simp only [Function.comp_def]
  have h2 := congrArg List.length h1
  rw [cycleAt_handles_map, List.length_map] at h2
  exact h2.symm

theorem handles_filter_sum (s : Shape) (p : Cycle → Bool) (g : Cycle → ℕ) :
    (((cycleHandles s).filter fun ch => p (s.cycleAt ch)).map
      fun ch => g (s.cycleAt ch)).sum = ((s.cycles.filter p).map g).sum := by
  have h1 : ((cycleHandles s).map (fun ch => s.cycleAt ch)).filter p =
      ((cycleHandles s).filter fun ch => p (s.cycleAt ch)).map
        (fun ch => s.cycleAt ch) := by
    rw [List.filter_map]
    simp only [Function.comp_def]
  have h2 : (((cycleHandles s).filter fun ch => p (s.cycleAt ch)).map
      fun ch => g (s.cycleAt ch)) =
      ((((cycleHandles s).filter fun ch => p (s.cycleAt ch)).map
        (fun ch => s.cycleAt ch)).map g) := by
    rw [List.map_map]
    simp only [Function.comp_def]
  rw [h2, ← h1, cycleAt_handles_map]

theorem sweep_shape_spec (source : Shape) (path : Vec3) (tolerance : ℚ)
    (color : Color)
    (hwf : sourceWF source = true)
    (hcyc : ∀ c ∈ source.cycles, (c.edges.length == 1) = false →
      closedChainB source c = true) :
    (∀ f ∈ source.faces, ∀ sh cys col, f = Face.face sh cys col →
      capFaceB source (sweep_shape source path tolerance color) sh cys color ∧
      capFaceT source (sweep_shape source path tolerance color) sh cys color
        (Transform.translation path) path) ∧
    countTriFaces (sweep_shape source path tolerance color) =
      (source.cycles.filter fun c => c.edges.length == 1).length ∧
    countBrepFaces (sweep_shape source path tolerance color) =
      2 * source.faces.length +
        ((source.cycles.filter fun c => !(c.edges.length == 1)).map
          fun c => c.edges.length).sum ∧
    (∃ caps side,
      (sweep_shape source path tolerance color).faces = caps ++ side ∧
      caps.length = 2 * source.faces.length ∧ countTriL caps = 0 ∧
      (∀ f ∈ side, isTriFace f = true ∨
        sideBrepFace (sweep_shape source path tolerance color) path f)) ∧
    (sweep_shape source path tolerance color).edges.length ≤
      2 * source.edges.length +
        ((source.cycles.filter fun c => !(c.edges.length == 1)).map
          fun c => c.edges.length).sum := by
  simp only [sourceWF, Bool.and_eq_true] at hwf
  obtain ⟨hwfE, hwfC, hwfF⟩ := hwf
  -- Phase 1: the vertex loop.
  have spec1 := sweepVertices_spec source path (vertexHandles source)
    (Shape.new (source.id + 1)) Rel.new Rel.new
    (handleList_nodup source.id source.vertices.length)
    (fun _ _ => rfl) (fun _ _ => rfl)
  obtain ⟨t1, rb1, rt1, heq1⟩ : ∃ a b c,
      sweepVertices source path (vertexHandles source)
        (Shape.new (source.id + 1)) Rel.new Rel.new = (a, b, c) :=
    ⟨_, _, _, rfl⟩
  rw [heq1] at spec1
  simp only at spec1
  obtain ⟨ext1, cur1, sur1, edg1, cyc1, fac1, rbe1, rbc1, rte1, rtc1,
    presb1, prest1, maps1⟩ := spec1
  -- Facts about source edges: their vertex handles are valid.
  have hedgeverts : ∀ h : Handle Edge, h ∈ edgeHandles source →
      ∀ ab, (source.edgeAt h).vertices = some ab →
        source.okVertexH ab.1 = true ∧ source.okVertexH ab.2 = true := by
    intro h hmem ab hab
    obtain ⟨i, hi, rfl⟩ := List.mem_map.mp hmem
    rw [List.mem_range] at hi
    have hok := all_getD hwfE hi (default : Edge)
    obtain ⟨a, b⟩ := ab
    simp only [Shape.okEdgeVerts] at hok
    have hab2 : (source.edges.getD i default).vertices = some (a, b) := hab
    rw [hab2] at hok
    simp only [Bool.and_eq_true] at hok
    exact hok
  -- Phase 2: the edge loop.
  have hmv2 : ∀ h ∈ edgeHandles source,
      ∀ ab, (source.edgeAt h).vertices = some ab →
        (vertexMapsToB source rb1.verts t1 ab.1 ∧
         vertexMapsToB source rb1.verts t1 ab.2) ∧
        (vertexMapsToT source rt1.verts t1 ab.1 path ∧
         vertexMapsToT source rt1.verts t1 ab.2 path) := by
    intro h hmem ab hab
    obtain ⟨hoka, hokb⟩ := hedgeverts h hmem ab hab
    simp only [Shape.okVertexH, Bool.and_eq_true, beq_iff_eq,
      decide_eq_true_eq] at hoka hokb
    have hma := maps1 ab.1 (mem_handleList hoka.1 hoka.2)
    have hmb := maps1 ab.2 (mem_handleList hokb.1 hokb.2)
    exact ⟨⟨hma.1, hmb.1⟩, ⟨hma.2, hmb.2⟩⟩
  have spec2 := sweepEdges_spec source (Transform.translation path) path
    (edgeHandles source) t1 rb1 rt1
    (handleList_nodup source.id source.edges.length)
    (fun h _ => by rw [rbe1]; rfl) (fun h _ => by rw [rte1]; rfl) hmv2
  obtain ⟨t2, rb2, rt2, heq2⟩ : ∃ a b c,
      sweepEdges source (Transform.translation path) (edgeHandles source)
        t1 rb1 rt1 = (a, b, c) := ⟨_, _, _, rfl⟩
  rw [heq2] at spec2
  simp only at spec2
  obtain ⟨ext2, pts2, sur2, ver2, cyc2, fac2, len2, rbv2, rbc2, rtv2, rtc2,
    presb2, prest2, maps2⟩ := spec2
  -- Facts about source cycles: their edge handles are valid.
  have hcycedges : ∀ h : Handle Cycle, h ∈ cycleHandles source →
      ∀ eh ∈ (source.cycleAt h).edges, eh ∈ edgeHandles source := by
    intro h hmem eh hmeme
    obtain ⟨i, hi, rfl⟩ := List.mem_map.mp hmem
    rw [List.mem_range] at hi
    have hok := all_getD hwfC hi (default : Cycle)
    have hok2 := List.all_eq_true.mp hok eh hmeme
    simp only [Shape.okEdgeH, Bool.and_eq_true, beq_iff_eq,
      decide_eq_true_eq] at hok2
    exact mem_handleList hok2.1 hok2.2
  -- Phase 3: the cycle loop.
  have hme3 : ∀ h ∈ cycleHandles source,
      ∀ eh ∈ (source.cycleAt h).edges,
        edgeMapsToB source rb2.edges t2 eh ∧
        edgeMapsToT source rt2.edges t2 eh (Transform.translation path)
          path := by
    intro h hmem eh hmeme
    exact maps2 eh (hcycedges h hmem eh hmeme)
  have spec3 := sweepCycles_spec source (Transform.translation path) path
    (cycleHandles source) t2 rb2 rt2
    (handleList_nodup source.id source.cycles.length)
    (fun h _ => by rw [rbc2, rbc1]; rfl)
    (fun h _ => by rw [rtc2, rtc1]; rfl) hme3
  obtain ⟨t3, rb3, rt3, heq3⟩ : ∃ a b c,
      sweepCycles source (cycleHandles source) t2 rb2 rt2 = (a, b, c) :=
    ⟨_, _, _, rfl⟩
  rw [heq3] at spec3
  simp only at spec3
  obtain ⟨ext3, pts3, cur3, sur3, ver3, edg3, fac3, rbv3, rbe3, rtv3, rte3,
    presb3, prest3, maps3⟩ := spec3
  -- Phase 4: the cap-face loop.
  have hface4 : ∀ f ∈ source.faces, ∃ sh cys col,
      f = Face.face sh cys col ∧
      ∀ ch ∈ cys, cycleMapsToB source rb3.cycles t3 ch ∧
        cycleMapsToT source rt3.cycles t3 ch (Transform.translation path)
          path := by
    intro f hf
    have hok := List.all_eq_true.mp hwfF f hf
    cases f with
    | triangles _ => simp at hok
    | face sh cys col =>
        refine ⟨sh, cys, col, rfl, ?_⟩
        intro ch hch
        have hok2 := List.all_eq_true.mp hok ch hch
        simp only [Shape.okCycleH, Bool.and_eq_true, beq_iff_eq,
          decide_eq_true_eq] at hok2
        exact maps3 ch (mem_handleList hok2.1 hok2.2)
  have spec4 := sweepCapFaces_spec source (Transform.translation path) path
    color rb3 rt3 source.faces t3 hface4
  obtain ⟨t4, heq4⟩ : ∃ a,
      sweepCapFaces source (Transform.translation path) color rb3 rt3
        source.faces t3 = a := ⟨_, rfl⟩
  rw [heq4] at spec4
  obtain ⟨ext4, pts4, cur4, ver4, edg4, cyc4, ⟨caps, fac4, len4, tri4⟩,
    maps4⟩ := spec4
  -- Phase 5: the side-face loop.
  have ext14 : ShapeExt t1 t4 := ext2.trans (ext3.trans ext4)
  have ext24 : ShapeExt t2 t4 := ext3.trans ext4
  have hgen5 : ∀ ch ∈ cycleHandles source,
      ((source.cycleAt ch).edges.length == 1) = false →
      closedChainB source (source.cycleAt ch) = true ∧
      ∀ eh ∈ (source.cycleAt ch).edges, ∃ a b,
        (source.edgeAt eh).vertices = some (a, b) ∧
        t4.okVertexH (rlookupD rb3.verts a) = true ∧
        t4.okVertexH (rlookupD rb3.verts b) = true ∧
        t4.okVertexH (rlookupD rt3.verts a) = true ∧
        t4.okVertexH (rlookupD rt3.verts b) = true ∧
        t4.okEdgeH (rlookupD rb3.edges eh) = true ∧
        t4.okEdgeH (rlookupD rt3.edges eh) = true := by
    intro ch hmem hb
    have hcycmem : source.cycleAt ch ∈ source.cycles := by
      obtain ⟨i, hi, rfl⟩ := List.mem_map.mp hmem
      rw [List.mem_range] at hi
      show source.cycles.getD i default ∈ source.cycles
      rw [List.getD_eq_getElem source.cycles default hi]
      exact List.getElem_mem _
    have hchain := hcyc (source.cycleAt ch) hcycmem hb
    refine ⟨hchain, ?_⟩
    intro eh hmeme
    have hehmem := hcycedges ch hmem eh hmeme
    have hdisc : ((source.edgeAt eh).vertices).isSome = true := by
      simp only [closedChainB, Bool.and_eq_true] at hchain
      exact List.all_eq_true.mp hchain.1 eh hmeme
    obtain ⟨⟨a, b⟩, hab⟩ := Option.isSome_iff_exists.mp hdisc
    obtain ⟨hoka, hokb⟩ := hedgeverts eh hehmem (a, b) hab
    simp only [Shape.okVertexH, Bool.and_eq_true, beq_iff_eq,
      decide_eq_true_eq] at hoka hokb
    have hma := maps1 a (mem_handleList hoka.1 hoka.2)
    have hmb := maps1 b (mem_handleList hokb.1 hokb.2)
    have hmeB := maps2 eh hehmem
    refine ⟨a, b, hab, ?_, ?_, ?_, ?_, ?_, ?_⟩
    · rw [rbv3, rbv2]
      obtain ⟨v, hl, hd, _⟩ := hma.1
      rw [show rlookupD rb1.verts a = v by rw [rlookupD, hl]; rfl]
      exact ext14.okVertexH hd.1
    · rw [rbv3, rbv2]
      obtain ⟨v, hl, hd, _⟩ := hmb.1
      rw [show rlookupD rb1.verts b = v by rw [rlookupD, hl]; rfl]
      exact ext14.okVertexH hd.1
    · rw [rtv3, rtv2]
      obtain ⟨v, hl, hd, _⟩ := hma.2
      rw [show rlookupD rt1.verts a = v by rw [rlookupD, hl]; rfl]
      exact ext14.okVertexH hd.1
    · rw [rtv3, rtv2]
      obtain ⟨v, hl, hd, _⟩ := hmb.2
      rw [show rlookupD rt1.verts b = v by rw [rlookupD, hl]; rfl]
      exact ext14.okVertexH hd.1
    · rw [rbe3]
      obtain ⟨e, hl, hd, _⟩ := hmeB.1
      rw [show rlookupD rb2.edges eh = e by rw [rlookupD, hl]; rfl]
      exact ext24.okEdgeH hd.1
    · rw [rte3]
      obtain ⟨e, hl, hd, _⟩ := hmeB.2
      rw [show rlookupD rt2.edges eh = e by rw [rlookupD, hl]; rfl]
      exact ext24.okEdgeH hd.1
  have spec5 := sweepSideFaces_spec source rb3 rt3 path tolerance color
    (cycleHandles source) t4 hgen5
  obtain ⟨ext5, ⟨side, fac5, tri5, brep5, side5⟩, len5⟩ := spec5
  -- Assemble.
  have hmain : sweep_shape source path tolerance color =
      sweepSideFaces source rb3 rt3 path tolerance color
        (cycleHandles source) t4 := by
    unfold sweep_shape
    simp only []
    rw [heq1]
    simp only []
    rw [heq2]
    simp only []
    rw [heq3]
    simp only []
    rw [heq4]
  have hfaces4 : t4.faces = caps := by
    rw [fac4, fac3, fac2, fac1]
    rfl
  have hlenE : t4.edges.length = 2 * source.edges.length := by
    rw [edg4, edg3]
    rw [edg1] at len2
    have : (edgeHandles source).length = source.edges.length := by
      simp [edgeHandles]
    rw [this] at len2
    rw [show (Shape.new (source.id + 1)).edges.length = 0 from rfl] at len2
    omega
  have hfacesTgt : (sweep_shape source path tolerance color).faces =
      caps ++ side := by
    rw [hmain, fac5, hfaces4]
  have hlen4 : caps.length = 2 * source.faces.length := len4
  refine ⟨?_, ?_, ?_, ?_, ?_⟩
  · intro f hf sh cys col hfeq
    obtain ⟨hcb, hct⟩ := maps4 f hf sh cys col hfeq
    rw [hmain]
    exact ⟨capFaceB_ext ext5 hcb, capFaceT_ext ext5 hct⟩
  · show countTriL (sweep_shape source path tolerance color).faces = _
    rw [hfacesTgt, countTriL_append, tri4, tri5,
      handles_filter_length source (fun c => c.edges.length == 1)]
    omega
  · show countBrepL (sweep_shape source path tolerance color).faces = _
    rw [hfacesTgt, countBrepL_append, brep5,
      handles_filter_sum source (fun c => !(c.edges.length == 1))
        (fun c => c.edges.length)]
    have hsplit := countSplit caps
    omega
  · refine ⟨caps, side, hfacesTgt, hlen4, tri4, ?_⟩
    intro f hf
    rcases side5 f hf with h1 | h2
    · exact Or.inl h1
    · rw [hmain]
      exact Or.inr h2
  · rw [hmain]
    calc (sweepSideFaces source rb3 rt3 path tolerance color
        (cycleHandles source) t4).edges.length
        ≤ t4.edges.length + (((cycleHandles source).filter fun ch =>
            !((source.cycleAt ch).edges.length == 1)).map fun ch =>
          (source.cycleAt ch).edges.length).sum := len5
      _ = 2 * source.edges.length +
          ((source.cycles.filter fun c => !(c.edges.length == 1)).map
            fun c => c.edges.length).sum := by
          rw [hlenE, handles_filter_sum source
            (fun c => !(c.edges.length == 1)) (fun c => c.edges.length)]

/-! ## Claim theorems: the easier claims -/

/-- C10: `Vertex::<1>::transform` replaces only the canonical 3D coordinate
with the transformed canonical coordinate and returns the native 1D
coordinate unchanged. -/
theorem vertex1_transform_canonical_only (v : OldVertex1) (t : Transform) :
    (v.transform t).point.native = v.point.native ∧
      (v.transform t).point.canonical = t.transform_point v.point.canonical :=
  ⟨rfl, rfl⟩

/-- C7: inserting into shape `A` an object embedding a handle issued by a
different shape `B` fails with the typed referential-integrity error and
returns `A` unmodified (in particular with its object count unchanged), for
each of `add_vertex`, `add_edge`, `add_cycle` and `add_face`. -/
theorem handle_isolation (A B : Shape) (hne : B.id ≠ A.id) :
    (∀ v : Vertex, v.point.shapeId = B.id →
      A.addVertex v = (.error .structural, A) ∧
        (A.addVertex v).2.objectCount = A.objectCount) ∧
    (∀ e : Edge, (e.curve.shapeId = B.id ∨
        (∃ a b, e.vertices = some (a, b) ∧
          (a.shapeId = B.id ∨ b.shapeId = B.id))) →
      A.addEdge e = (.error .structural, A) ∧
        (A.addEdge e).2.objectCount = A.objectCount) ∧
    (∀ c : Cycle, (∃ eh ∈ c.edges, eh.shapeId = B.id) →
      A.addCycle c = (.error .structural, A) ∧
        (A.addCycle c).2.objectCount = A.objectCount) ∧
    (∀ sh cys col, (sh.shapeId = B.id ∨ ∃ ch ∈ cys, ch.shapeId = B.id) →
      A.addFace (.face sh cys col) = (.error .structural, A) ∧
        (A.addFace (.face sh cys col)).2.objectCount = A.objectCount) := by
  refine ⟨?_, ?_, ?_, ?_⟩
  · intro v hv
    have hbad : A.okPointH v.point = false := by
      simp [Shape.okPointH, hv, hne]
    constructor
    · simp [Shape.addVertex, hbad]
    · simp [Shape.addVertex, hbad]
  · intro e he
    have hbad : (A.okCurveH e.curve &&
        (match e.vertices with
         | none => true
         | some (a, b) => A.okVertexH a && A.okVertexH b)) = false := by
      rcases he with hc | ⟨a, b, hab, hfst | hsnd⟩
      · have : A.okCurveH e.curve = false := by
          simp [Shape.okCurveH, hc, hne]
        simp [this]
      · have : A.okVertexH a = false := by
          simp [Shape.okVertexH, hfst, hne]
        simp [hab, this]
      · have : A.okVertexH b = false := by
          simp [Shape.okVertexH, hsnd, hne]
        simp [hab, this]
    constructor
    · simp [Shape.addEdge, hbad]
    · simp [Shape.addEdge, hbad]
  · intro c hc
    obtain ⟨eh, hmem, hid⟩ := hc
    have hbad : c.edges.all A.okEdgeH = false := by
      cases hall : c.edges.all A.okEdgeH
      · rfl
      · exfalso
        rw [List.all_eq_true] at hall
        have := hall eh hmem
        simp [Shape.okEdgeH, hid, hne] at this
    constructor
    · simp [Shape.addCycle, hbad]
    · simp [Shape.addCycle, hbad]
  · intro sh cys col hor
    have hbad : (A.okSurfaceH sh && cys.all A.okCycleH) = false := by
      rcases hor with hs | ⟨ch, hmem, hid⟩
      · have : A.okSurfaceH sh = false := by
          simp [Shape.okSurfaceH, hs, hne]
        simp [this]
      · have : cys.all A.okCycleH = false := by
          cases hall : cys.all A.okCycleH
          · rfl
          · exfalso
            rw [List.all_eq_true] at hall
            have := hall ch hmem
            simp [Shape.okCycleH, hid, hne] at this
        simp [this]
    constructor
    · simp [Shape.addFace, hbad]
    · simp [Shape.addFace, hbad]

/-- C7 witness: concretely, adding to the empty shape 0 a vertex whose point
handle was issued by shape 1 fails and leaves shape 0 unchanged. -/
theorem handle_isolation_witness :
    (Shape.new 0).addVertex ⟨⟨1, 0⟩⟩ = (.error .structural, Shape.new 0) ∧
      ((Shape.new 0).addVertex ⟨⟨1, 0⟩⟩).2.objectCount =
        (Shape.new 0).objectCount :=
  (handle_isolation (Shape.new 0) (Shape.new 1) (by decide)).1 ⟨⟨1, 0⟩⟩ rfl

/-- C6: `Face` equality is structural on the dereferenced surface and cycles
only — two boundary-representation faces with equal surfaces and equal
resolved cycle sequences compare equal regardless of their colors — and
evaluating equality on a `Triangles` operand hits the `unreachable!`
accessors (modelled as `none`). -/
theorem face_equality_structural :
    (∀ (sa sb : Shape) (h1 h2 : Handle Surface)
        (cs1 cs2 : List (Handle Cycle)) (col1 col2 : Color),
      sa.surfaceAt h1 = sb.surfaceAt h2 →
      cs1.map (fun ch => resolveCycle sa (sa.cycleAt ch)) =
        cs2.map (fun ch => resolveCycle sb (sb.cycleAt ch)) →
      faceEq sa (.face h1 cs1 col1) sb (.face h2 cs2 col2) = some true) ∧
    (∀ (sa sb : Shape) (f : Face) (ts : List Triangle3),
      faceEq sa (.triangles ts) sb f = none ∧
        faceEq sa f sb (.triangles ts) = none) := by
  constructor
  · intro sa sb h1 h2 cs1 cs2 col1 col2 hsurf hcyc
    simp [faceEq, Face.surfaceAcc, Face.cyclesAcc, hsurf, hcyc]
  · intro sa sb f ts
    constructor
    · simp [faceEq, Face.surfaceAcc]
    · cases f <;> simp [faceEq, Face.surfaceAcc, Face.cyclesAcc]

/-- C6 witness: two empty-cycle faces over the same stored surface with
different colors compare equal, concretely. -/
theorem face_equality_structural_witness :
    faceEq (Shape.new 0) (.face ⟨0, 0⟩ [] (1, 2, 3, 4))
      (Shape.new 0) (.face ⟨0, 0⟩ [] (5, 6, 7, 8)) = some true :=
  face_equality_structural.1 (Shape.new 0) (Shape.new 0) ⟨0, 0⟩ ⟨0, 0⟩
    [] [] (1, 2, 3, 4) (5, 6, 7, 8) rfl rfl

/-- C9: the cycle approximation is deterministic (equal inputs yield the
identical point sequence) and its point count never decreases when the
tolerance shrinks.  In this embedding the only curve variant is a line,
which a polyline follows exactly at every tolerance, so the count is
tolerance-independent. -/
theorem approximation_monotone_deterministic (s s' : Shape) (c c' : Cycle)
    (t1 t2 : ℚ) (h : t2 < t1) (hs : s' = s) (hc : c' = c) :
    (approximate_cycle s c t1).length ≤ (approximate_cycle s c t2).length ∧
      approximate_cycle s' c' t2 = approximate_cycle s c t2 := by
  subst hs hc
  exact ⟨le_of_eq rfl, rfl⟩

/-- C9 witness: at the empty cycle with tolerances 1 and 0. -/
theorem approximation_monotone_deterministic_witness :
    (approximate_cycle (Shape.new 0) ⟨[]⟩ 1).length ≤
        (approximate_cycle (Shape.new 0) ⟨[]⟩ 0).length ∧
      approximate_cycle (Shape.new 0) ⟨[]⟩ 0 =
        approximate_cycle (Shape.new 0) ⟨[]⟩ 0 :=
  approximation_monotone_deterministic (Shape.new 0) (Shape.new 0) ⟨[]⟩ ⟨[]⟩
    1 0 (by simp) rfl rfl

/-- C8: `Surface::transform` is a pure value-level function and commutes with
the surface-to-model point mapping: mapping `q` on the transformed surface
equals transforming the point mapped on the original surface, for every
rigid transform. -/
theorem surface_transform_commutes (s : Surface) (t : Transform)
    (ht : t.Rigid) (q : ℚ × ℚ) :
    (s.transform t).point_surface_to_model q =
      t.transform_point (s.point_surface_to_model q) := by
  obtain ⟨⟨c, path⟩⟩ := s
  obtain ⟨l⟩ := c
  simp only [Surface.transform, Surface.point_surface_to_model,
    SweptCurve.transform, Curve.transform, Line.transform,
    SweptCurve.point_surface_to_model, Transform.transform_point,
    Transform.transform_vector, Mat3.mulVec, Vec3.add_def]
  obtain ⟨⟨m00, m01, m02, m10, m11, m12, m20, m21, m22⟩, ⟨sx, sy, sz⟩⟩ := t
  obtain ⟨⟨ox, oy, oz⟩, ⟨dx, dy, dz⟩⟩ := l
  obtain ⟨px, py, pz⟩ := path
  obtain ⟨u, v⟩ := q
  simp only [Vec3.mk.injEq]
  refine ⟨by ring, by ring, by ring⟩

/-! ## C5: the surface round trip -/

theorem dotR_self_nonneg (v : Vec3R) : 0 ≤ dotR v v := by
  obtain ⟨x, y, z⟩ := v
  unfold dotR
  nlinarith [mul_self_nonneg x, mul_self_nonneg y, mul_self_nonneg z]

theorem dotR_self_pos {v : Vec3R} (h : v ≠ 0) : 0 < dotR v v := by
  obtain ⟨x, y, z⟩ := v
  rcases lt_or_eq_of_le (dotR_self_nonneg ⟨x, y, z⟩) with hlt | heq
  · exact hlt
  · exfalso
    apply h
    unfold dotR at heq
    have hx : x = 0 := by nlinarith [sq_nonneg x, sq_nonneg y, sq_nonneg z]
    have hy : y = 0 := by nlinarith [sq_nonneg x, sq_nonneg y, sq_nonneg z]
    have hz : z = 0 := by nlinarith [sq_nonneg x, sq_nonneg y, sq_nonneg z]
    simp [hx, hy, hz]

/-- C5 (amended): for a swept-curve surface whose sweep path is orthogonal to
the (nonzero) curve direction and itself nonzero, the model-to-surface
mapping is a left inverse of the surface-to-model mapping at every surface
point, exactly. -/
theorem swept_surface_round_trip (s : SweptCurveR) (q : ℝ × ℝ)
    (horth : dotR s.curve.direction s.path = 0)
    (hd : s.curve.direction ≠ 0) (hp : s.path ≠ 0) :
    s.point_model_to_surface (s.point_surface_to_model q) = q := by
  obtain ⟨c, path⟩ := s
  obtain ⟨l⟩ := c
  obtain ⟨⟨ox, oy, oz⟩, ⟨dx, dy, dz⟩⟩ := l
  obtain ⟨px, py, pz⟩ := path
  obtain ⟨u, v⟩ := q
  simp only [CurveR.direction, dotR] at horth
  have hsd : (0 : ℝ) < dx * dx + dy * dy + dz * dz := dotR_self_pos hd
  have hsp : (0 : ℝ) < px * px + py * py + pz * pz := dotR_self_pos hp
  have hrd : Real.sqrt (dx * dx + dy * dy + dz * dz) *
      Real.sqrt (dx * dx + dy * dy + dz * dz) = dx * dx + dy * dy + dz * dz :=
    Real.mul_self_sqrt (le_of_lt hsd)
  have hrp : Real.sqrt (px * px + py * py + pz * pz) *
      Real.sqrt (px * px + py * py + pz * pz) = px * px + py * py + pz * pz :=
    Real.mul_self_sqrt (le_of_lt hsp)
  have hrdne : Real.sqrt (dx * dx + dy * dy + dz * dz) ≠ 0 :=
    ne_of_gt (Real.sqrt_pos.mpr hsd)
  have hrpne : Real.sqrt (px * px + py * py + pz * pz) ≠ 0 :=
    ne_of_gt (Real.sqrt_pos.mpr hsp)
  simp only [SweptCurveR.point_model_to_surface,
    SweptCurveR.point_surface_to_model, CurveR.point_model_to_curve,
    CurveR.point_curve_to_model, CurveR.origin, LineR.point_model_to_curve,
    LineR.point_curve_to_model, normalizeR, magnitudeR, dotR, Vec3R.smul_def,
    Vec3R.addR_def, Vec3R.subR_def, Prod.mk.injEq]
  constructor
  · field_simp
    linear_combination v * horth
  · field_simp
    linear_combination u * horth

/-- C5 witness for the amended claim: the surface over the line through the
origin in direction `(1,0,0)` with orthogonal path `(0,1,0)`, at surface
point `(2,3)`. -/
theorem swept_surface_round_trip_witness :
    (SweptCurveR.mk (.line ⟨⟨0, 0, 0⟩, ⟨1, 0, 0⟩⟩)
        ⟨0, 1, 0⟩).point_model_to_surface
      ((SweptCurveR.mk (.line ⟨⟨0, 0, 0⟩, ⟨1, 0, 0⟩⟩)
        ⟨0, 1, 0⟩).point_surface_to_model (2, 3)) = (2, 3) :=
  swept_surface_round_trip _ (2, 3)
    (by simp [CurveR.direction, dotR])
    (by simp [CurveR.direction, Vec3R.zeroR_def])
    (by simp [Vec3R.zeroR_def])

/-- C5 counterexample: for the surface over the line through the origin in
direction `(1,0,0)` with the non-orthogonal path `(1,1,0)`, the round trip
fails at surface point `(0,1)` — the claim's universal statement over every
swept-curve surface is false. -/
theorem swept_surface_round_trip_counterexample :
    (SweptCurveR.mk (.line ⟨⟨0, 0, 0⟩, ⟨1, 0, 0⟩⟩)
        ⟨1, 1, 0⟩).point_model_to_surface
      ((SweptCurveR.mk (.line ⟨⟨0, 0, 0⟩, ⟨1, 0, 0⟩⟩)
        ⟨1, 1, 0⟩).point_surface_to_model (0, 1)) ≠ (0, 1) := by
  intro h
  have h1 := congrArg Prod.fst h
  simp only [SweptCurveR.point_model_to_surface,
    SweptCurveR.point_surface_to_model, CurveR.point_model_to_curve,
    CurveR.point_curve_to_model, CurveR.origin, LineR.point_model_to_curve,
    LineR.point_curve_to_model, normalizeR, magnitudeR, dotR, Vec3R.smul_def,
    Vec3R.addR_def, Vec3R.subR_def] at h1
  norm_num [Real.sqrt_one] at h1

/-- C8 witness: at the x-y plane surface and the rigid translation by
`(3, 4, 5)`. -/
theorem surface_transform_commutes_witness :
    Transform.Rigid (Transform.translation ⟨3, 4, 5⟩) ∧
      ((Surface.sweptCurve ⟨.line ⟨⟨0, 0, 0⟩, ⟨1, 0, 0⟩⟩, ⟨0, 1, 0⟩⟩).transform
            (Transform.translation ⟨3, 4, 5⟩)).point_surface_to_model (1, 2) =
        (Transform.translation ⟨3, 4, 5⟩).transform_point
          ((Surface.sweptCurve
              ⟨.line ⟨⟨0, 0, 0⟩, ⟨1, 0, 0⟩⟩,
                ⟨0, 1, 0⟩⟩).point_surface_to_model (1, 2)) := by
  constructor
  · simp [Transform.Rigid, Transform.translation, Mat3.transpose, Mat3.mul,
      Mat3.id]
  · exact surface_transform_commutes _ _
      (by simp [Transform.Rigid, Transform.translation, Mat3.transpose,
        Mat3.mul, Mat3.id]) (1, 2)

/-! ## C4: the continuous-edge fallback -/

theorem windows2_length {α : Type} (l : List α) :
    (windows2 l).length = l.length - 1 := by
  induction l with
  | nil => rfl
  | cons a rest ih =>
      cases rest with
      | nil => rfl
      | cons b rest2 =>
          simp only [windows2, List.length_cons] at *
          omega

theorem pairs_flatten_length {α β : Type} (f g : α → β) (qs : List α) :
    ((qs.map fun q => [f q, g q]).flatten).length = 2 * qs.length := by
  induction qs with
  | nil => rfl
  | cons q rest ih => simp [ih]; omega

theorem contTriangles_length (ap : List Vec3) (path : Vec3) (col : Color) :
    (contTriangles ap path col).length = 2 * (ap.length - 1) := by
  simp only [contTriangles, List.length_map, pairs_flatten_length,
    windows2_length]

theorem contTriangles_color (ap : List Vec3) (path : Vec3) (col : Color) :
    ∀ tr ∈ contTriangles ap path col, tr.color = col := by
  intro tr htr
  simp only [contTriangles, List.mem_map] at htr
  obtain ⟨tr', _, rfl⟩ := htr
  rfl

/-- C4: sweeping a shape whose sole boundary cycle is one continuous edge
produces no boundary-representation side face — the only
boundary-representation faces of the target are the two caps — and exactly
one `Triangles` face, whose content is the quad/triangle construction over
the cycle approximation: `2 × (sample count − 1)` triangles, every one
carrying the caller-supplied color. -/
theorem continuous_edge_fallback (l : Line) (srf : Surface) (fcol : Color)
    (path : Vec3) (tol : ℚ) (color : Color) :
    countTriFaces
        (sweep_shape (continuousEdgeShape 0 l srf fcol) path tol color) = 1 ∧
    countBrepFaces
        (sweep_shape (continuousEdgeShape 0 l srf fcol) path tol color) = 2 ∧
    (sweep_shape (continuousEdgeShape 0 l srf fcol) path tol
          color).faces.getD 2 default =
      .triangles (contTriangles
        (approximate_cycle (continuousEdgeShape 0 l srf fcol)
          ((continuousEdgeShape 0 l srf fcol).cycleAt ⟨0, 0⟩) tol)
        path color) ∧
    (contTriangles
        (approximate_cycle (continuousEdgeShape 0 l srf fcol)
          ((continuousEdgeShape 0 l srf fcol).cycleAt ⟨0, 0⟩) tol)
        path color).length =
      2 * ((approximate_cycle (continuousEdgeShape 0 l srf fcol)
        ((continuousEdgeShape 0 l srf fcol).cycleAt ⟨0, 0⟩) tol).length - 1) ∧
    (∀ tr ∈ contTriangles
        (approximate_cycle (continuousEdgeShape 0 l srf fcol)
          ((continuousEdgeShape 0 l srf fcol).cycleAt ⟨0, 0⟩) tol)
        path color, tr.color = color) := by
  have hmain : sweep_shape (continuousEdgeShape 0 l srf fcol) path tol color =
      { id := 1, points := [],
        curves := [.line l,
          (Curve.line l).transform (Transform.translation path)],
        surfaces := [srf, srf.transform (Transform.translation path)],
        vertices := [],
        edges := [⟨⟨1, 0⟩, none⟩, ⟨⟨1, 1⟩, none⟩],
        cycles := [⟨[⟨1, 0⟩]⟩, ⟨[⟨1, 1⟩]⟩],
        faces := [.face ⟨1, 0⟩ [⟨1, 0⟩] color, .face ⟨1, 1⟩ [⟨1, 1⟩] color,
          .triangles (contTriangles
            (approximate_cycle (continuousEdgeShape 0 l srf fcol)
              ((continuousEdgeShape 0 l srf fcol).cycleAt ⟨0, 0⟩) tol)
            path color)] } := rfl
  refine ⟨?_, ?_, ?_, contTriangles_length _ _ _, contTriangles_color _ _ _⟩
  · rw [hmain]
    rfl
  · rw [hmain]
    rfl
  · rw [hmain]
    rfl

/-! ## C1, C2 and C3: the sweep's general case, side-edge caching and caps -/

theorem multi_filter_single {source : Shape}
    (hmulti : ∀ c ∈ source.cycles, 2 ≤ c.edges.length) :
    source.cycles.filter (fun c => c.edges.length == 1) = [] := by
  rw [List.filter_eq_nil]
  intro c hc
  have := hmulti c hc
  simp only [beq_iff_eq]
  omega

theorem multi_filter_all {source : Shape}
    (hmulti : ∀ c ∈ source.cycles, 2 ≤ c.edges.length) :
    source.cycles.filter (fun c => !(c.edges.length == 1)) =
      source.cycles := by
  rw [List.filter_eq_self]
  intro c hc
  have := hmulti c hc
  simp only [Bool.not_eq_true', beq_eq_false_iff_ne, ne_eq]
  omega

/-- C1 counterexample: the code takes the `Triangles` fallback whenever the
cycle has exactly one edge, without consulting continuity (sweep.rs line 134
tests `edges.len() == 1` only).  A shape whose sole cycle is one DISCRETE
(non-continuous) edge — which the claim places in the general case — is swept
into one `Triangles` face and zero boundary-representation side faces. -/
theorem general_case_side_faces_counterexample :
    singleDiscreteEdgeShape.cycles = [⟨[⟨0, 0⟩]⟩] ∧
    (singleDiscreteEdgeShape.edgeAt ⟨0, 0⟩).vertices.isSome = true ∧
    countTriFaces
      (sweep_shape singleDiscreteEdgeShape ⟨0, 0, 1⟩ 0 (0, 0, 0, 0)) = 1 ∧
    countBrepFaces
      (sweep_shape singleDiscreteEdgeShape ⟨0, 0, 1⟩ 0 (0, 0, 0, 0)) = 0 := by
  decide

/-- C1 (amended): the general case is taken exactly for cycles with two or
more edges (a single edge always takes the fallback, discrete or not).  For a
well-formed source whose cycles all have at least two edges and form closed
discrete chains, the sweep produces no `Triangles` face at all, produces
exactly `2·F + Σ_cycles len(cycle)` boundary-representation faces (two caps
per source face plus one side face per cycle edge), every face beyond the
`2·F` caps is a `Face::Face` over a swept-curve surface along the sweep path
bounded by a single four-edge side cycle, and at most `Σ len(cycle)` side
edges are created beyond the `2·E` bottom/top copies. -/
theorem general_case_side_faces (source : Shape) (path : Vec3)
    (tolerance : ℚ) (color : Color)
    (hwf : sourceWF source = true)
    (hmulti : ∀ c ∈ source.cycles, 2 ≤ c.edges.length)
    (hchain : ∀ c ∈ source.cycles, closedChainB source c = true) :
    countTriFaces (sweep_shape source path tolerance color) = 0 ∧
    countBrepFaces (sweep_shape source path tolerance color) =
      2 * source.faces.length + totalCycleEdges source ∧
    (∃ caps side,
      (sweep_shape source path tolerance color).faces = caps ++ side ∧
      caps.length = 2 * source.faces.length ∧
      (∀ f ∈ caps, isBrepFace f = true) ∧
      (∀ f ∈ side, sideBrepFace (sweep_shape source path tolerance color)
        path f)) ∧
    (sweep_shape source path tolerance color).edges.length ≤
      2 * source.edges.length + totalCycleEdges source := by
  obtain ⟨-, htri, hbrep, ⟨caps, side, hfac, hcapslen, hcapstri, hside⟩,
    hedges⟩ := sweep_shape_spec source path tolerance color hwf
      (fun c hc _ => hchain c hc)
  have htri0 : countTriFaces (sweep_shape source path tolerance color) =
      0 := by
    rw [htri, multi_filter_single hmulti]
    rfl
  have hsum : ((source.cycles.filter fun c => !(c.edges.length == 1)).map
      fun c => c.edges.length).sum = totalCycleEdges source := by
    rw [multi_filter_all hmulti]
    rfl
  have hsidetri : countTriL side = 0 := by
    have h1 : countTriL (sweep_shape source path tolerance color).faces =
        0 := htri0
    rw [hfac, countTriL_append] at h1
    omega
  have hnotri : ∀ f ∈ side, isTriFace f = false := by
    intro f hf
    by_contra hne
    rw [Bool.not_eq_false] at hne
    have : f ∈ side.filter isTriFace := List.mem_filter.mpr ⟨hf, hne⟩
    rw [List.length_eq_zero.mp hsidetri] at this
    simp at this
  have hnocapstri : ∀ f ∈ caps, isTriFace f = false := by
    intro f hf
    by_contra hne
    rw [Bool.not_eq_false] at hne
    have : f ∈ caps.filter isTriFace := List.mem_filter.mpr ⟨hf, hne⟩
    rw [List.length_eq_zero.mp hcapstri] at this
    simp at this
  refine ⟨htri0, ?_, ⟨caps, side, hfac, hcapslen, ?_, ?_⟩, ?_⟩
  · rw [hbrep, hsum]
  · intro f hf
    have := hnocapstri f hf
    cases f with
    | face _ _ _ => rfl
    | triangles _ => simp [isTriFace] at this
  · intro f hf
    rcases hside f hf with h1 | h2
    · rw [hnotri f hf] at h1
      simp at h1
    · exact h2
  · rw [hsum] at hedges
    exact hedges

/-- C1 witness: the unit-triangle sketch (three discrete edges in one closed
cycle) swept along `(0,0,1)` satisfies every hypothesis and hence the
amended conclusion. -/
theorem general_case_side_faces_witness :
    (sourceWF unitTriangleShape = true ∧
     (∀ c ∈ unitTriangleShape.cycles, 2 ≤ c.edges.length) ∧
     (∀ c ∈ unitTriangleShape.cycles,
       closedChainB unitTriangleShape c = true)) ∧
    countTriFaces
      (sweep_shape unitTriangleShape ⟨0, 0, 1⟩ 0 (0, 0, 0, 0)) = 0 ∧
    countBrepFaces (sweep_shape unitTriangleShape ⟨0, 0, 1⟩ 0 (0, 0, 0, 0)) =
      2 * unitTriangleShape.faces.length +
        totalCycleEdges unitTriangleShape ∧
    (∃ caps side,
      (sweep_shape unitTriangleShape ⟨0, 0, 1⟩ 0 (0, 0, 0, 0)).faces =
        caps ++ side ∧
      caps.length = 2 * unitTriangleShape.faces.length ∧
      (∀ f ∈ caps, isBrepFace f = true) ∧
      (∀ f ∈ side, sideBrepFace
        (sweep_shape unitTriangleShape ⟨0, 0, 1⟩ 0 (0, 0, 0, 0))
        ⟨0, 0, 1⟩ f)) ∧
    (sweep_shape unitTriangleShape ⟨0, 0, 1⟩ 0 (0, 0, 0, 0)).edges.length ≤
      2 * unitTriangleShape.edges.length +
        totalCycleEdges unitTriangleShape :=
  ⟨⟨by decide, by decide, by decide⟩,
   general_case_side_faces unitTriangleShape ⟨0, 0, 1⟩ 0 (0, 0, 0, 0)
     (by decide) (by decide) (by decide)⟩

/-- C2 counterexample: the side-edge cache (`vertex_bottom_to_edge`,
sweep.rs line 183) is created INSIDE the cycle loop, so it is per-cycle, not
shared across the cycles of a face set.  In the bowtie — one face bounded by
two triangular cycles sharing their apex vertex (edge 0 of each cycle starts
at the shared vertex) — the swept shape holds TWO distinct side edges from
the shared vertex's bottom copy `⟨1,0⟩` to its top copy `⟨1,1⟩`, where the
claim demands exactly one. -/
theorem side_edge_cache_per_cycle_counterexample :
    bowtieShape.cycles =
      [⟨[⟨0, 0⟩, ⟨0, 1⟩, ⟨0, 2⟩]⟩, ⟨[⟨0, 3⟩, ⟨0, 4⟩, ⟨0, 5⟩]⟩] ∧
    bowtieShape.faces =
      [Face.face ⟨0, 0⟩ [⟨0, 0⟩, ⟨0, 1⟩] (255, 0, 0, 255)] ∧
    edgeFst bowtieShape ⟨0, 0⟩ = edgeFst bowtieShape ⟨0, 3⟩ ∧
    ((sweep_shape bowtieShape ⟨0, 0, 1⟩ 0 (0, 0, 0, 0)).edges.filter
      fun e => e.vertices == some (⟨1, 0⟩, ⟨1, 1⟩)).length = 2 := by
  decide

/-- C2 (amended): side-edge sharing holds per cycle only.  For a well-formed
source whose cycles all have at least two edges and form closed discrete
chains, sweeping produces exactly `n = Σ_cycles len(cycle)` side faces
(`2·F + n` boundary-representation faces in total), and — because within each
cycle the cache keyed by the bottom vertex handle deduplicates the side edges
of that cycle's (at most `len`) distinct vertices — at most `n` distinct side
edges beyond the `2·E` bottom/top edge copies:
`target.edges.len ≤ 2·E + n`.  Sharing across cycles is NOT provided (see
the counterexample). -/
theorem side_edge_cache_per_cycle (source : Shape) (path : Vec3)
    (tolerance : ℚ) (color : Color)
    (hwf : sourceWF source = true)
    (hmulti : ∀ c ∈ source.cycles, 2 ≤ c.edges.length)
    (hchain : ∀ c ∈ source.cycles, closedChainB source c = true) :
    countBrepFaces (sweep_shape source path tolerance color) =
      2 * source.faces.length + totalCycleEdges source ∧
    (sweep_shape source path tolerance color).edges.length ≤
      2 * source.edges.length + totalCycleEdges source := by
  obtain ⟨-, -, hbrep, -, hedges⟩ :=
    sweep_shape_spec source path tolerance color hwf
      (fun c hc _ => hchain c hc)
  have hsum : ((source.cycles.filter fun c => !(c.edges.length == 1)).map
      fun c => c.edges.length).sum = totalCycleEdges source := by
    rw [multi_filter_all hmulti]
    rfl
  constructor
  · rw [hbrep, hsum]
  · rw [hsum] at hedges
    exact hedges

/-- C2 witness: the unit-triangle sketch swept along `(0,0,1)` satisfies the
hypotheses and hence the amended conclusion. -/
theorem side_edge_cache_per_cycle_witness :
    (sourceWF unitTriangleShape = true ∧
     (∀ c ∈ unitTriangleShape.cycles, 2 ≤ c.edges.length) ∧
     (∀ c ∈ unitTriangleShape.cycles,
       closedChainB unitTriangleShape c = true)) ∧
    countBrepFaces (sweep_shape unitTriangleShape ⟨0, 0, 1⟩ 0 (0, 0, 0, 0)) =
      2 * unitTriangleShape.faces.length +
        totalCycleEdges unitTriangleShape ∧
    (sweep_shape unitTriangleShape ⟨0, 0, 1⟩ 0 (0, 0, 0, 0)).edges.length ≤
      2 * unitTriangleShape.edges.length +
        totalCycleEdges unitTriangleShape :=
  ⟨⟨by decide, by decide, by decide⟩,
   side_edge_cache_per_cycle unitTriangleShape ⟨0, 0, 1⟩ 0 (0, 0, 0, 0)
     (by decide) (by decide) (by decide)⟩

/-- C3: for every `h ≥ 0`, sweeping the flat unit triangle
`{(0,0,0), (1,0,0), (0,1,0)}` along `(0,0,h)` with tolerance `0` yields a
shape containing a face structurally equal (surface and dereferenced cycles,
color ignored) to the original triangle face, and a second face structurally
equal to the same triangle face translated to height `h`. -/
theorem sweep_preserves_caps (h : ℚ) (hh : 0 ≤ h) :
    (∃ fB ∈ (sweep_shape unitTriangleShape ⟨0, 0, h⟩ 0 (0, 0, 0, 0)).faces,
      faceEq (sweep_shape unitTriangleShape ⟨0, 0, h⟩ 0 (0, 0, 0, 0)) fB
        unitTriangleShape (Face.face ⟨0, 0⟩ [⟨0, 0⟩] (255, 0, 0, 255)) =
        some true) ∧
    (∃ fT ∈ (sweep_shape unitTriangleShape ⟨0, 0, h⟩ 0 (0, 0, 0, 0)).faces,
      faceEq (sweep_shape unitTriangleShape ⟨0, 0, h⟩ 0 (0, 0, 0, 0)) fT
        (raisedTriangleShape h)
        (Face.face ⟨0, 0⟩ [⟨0, 0⟩] (255, 0, 0, 255)) = some true) := by
  have hwf : sourceWF unitTriangleShape = true := by decide
  have hcyc : ∀ c ∈ unitTriangleShape.cycles, (c.edges.length == 1) = false →
      closedChainB unitTriangleShape c = true := by decide
  obtain ⟨hcaps, -, -, -, -⟩ :=
    sweep_shape_spec unitTriangleShape ⟨0, 0, h⟩ 0 (0, 0, 0, 0) hwf hcyc
  have hfmem : Face.face ⟨0, 0⟩ [⟨0, 0⟩] (255, 0, 0, 255) ∈
      unitTriangleShape.faces := by decide
  obtain ⟨hB, hT⟩ := hcaps _ hfmem ⟨0, 0⟩ [⟨0, 0⟩] (255, 0, 0, 255) rfl
  constructor
  · obtain ⟨sb, cyB, hmem, hok, hdeep, hsurf, hres⟩ := hB
    refine ⟨Face.face sb cyB (0, 0, 0, 0), hmem, ?_⟩
    simp only [faceEq, Face.surfaceAcc, Face.cyclesAcc]
    rw [hsurf]
    simp only [resolveCycleAt] at hres
    rw [hres]
    simp
  · obtain ⟨st, cyT, hmem, hok, hdeep, hsurf, hres⟩ := hT
    refine ⟨Face.face st cyT (0, 0, 0, 0), hmem, ?_⟩
    have hS : (sweep_shape unitTriangleShape ⟨0, 0, h⟩ 0
        (0, 0, 0, 0)).surfaceAt st =
        (raisedTriangleShape h).surfaceAt ⟨0, 0⟩ := by
      rw [hsurf]
      rw [show unitTriangleShape.surfaceAt ⟨0, 0⟩ = Surface.sweptCurve
        (SweptCurve.plane_from_points ⟨0, 0, 0⟩ ⟨1, 0, 0⟩ ⟨0, 1, 0⟩) from rfl]
      rw [show (raisedTriangleShape h).surfaceAt ⟨0, 0⟩ = Surface.sweptCurve
        (SweptCurve.plane_from_points ⟨0, 0, h⟩ ⟨1, 0, h⟩ ⟨0, 1, h⟩) from rfl]
      simp [Surface.transform, SweptCurve.transform, Curve.transform,
        Line.transform, Transform.transform_point, Transform.transform_vector,
        Transform.translation, SweptCurve.plane_from_points, Line.from_points]
    have hC : cyT.map (fun ch => resolveCycleAt
        (sweep_shape unitTriangleShape ⟨0, 0, h⟩ 0 (0, 0, 0, 0)) ch) =
        ([⟨0, 0⟩] : List (Handle Cycle)).map
          (fun ch => resolveCycleAt (raisedTriangleShape h) ch) := by
      rw [hres]
      simp only [List.map_cons, List.map_nil]
      rw [show resolveCycleAt unitTriangleShape ⟨0, 0⟩ =
        [⟨Curve.line (Line.from_points ⟨0, 0, 0⟩ ⟨1, 0, 0⟩),
          some (⟨0, 0, 0⟩, ⟨1, 0, 0⟩)⟩,
         ⟨Curve.line (Line.from_points ⟨1, 0, 0⟩ ⟨0, 1, 0⟩),
          some (⟨1, 0, 0⟩, ⟨0, 1, 0⟩)⟩,
         ⟨Curve.line (Line.from_points ⟨0, 1, 0⟩ ⟨0, 0, 0⟩),
          some (⟨0, 1, 0⟩, ⟨0, 0, 0⟩)⟩] from rfl]
      rw [show resolveCycleAt (raisedTriangleShape h) ⟨0, 0⟩ =
        [⟨Curve.line (Line.from_points ⟨0, 0, h⟩ ⟨1, 0, h⟩),
          some (⟨0, 0, h⟩, ⟨1, 0, h⟩)⟩,
         ⟨Curve.line (Line.from_points ⟨1, 0, h⟩ ⟨0, 1, h⟩),
          some (⟨1, 0, h⟩, ⟨0, 1, h⟩)⟩,
         ⟨Curve.line (Line.from_points ⟨0, 1, h⟩ ⟨0, 0, h⟩),
          some (⟨0, 1, h⟩, ⟨0, 0, h⟩)⟩] from rfl]
      simp [ResolvedEdge.mapTop, Curve.transform, Line.transform,
        Transform.transform_point, Transform.transform_vector,
        Transform.translation, Line.from_points]
    simp only [faceEq, Face.surfaceAcc, Face.cyclesAcc]
    rw [hS]
    simp only [resolveCycleAt] at hC
    rw [hC]
    simp

/-- C3 witness: the cap-preservation property at height `h = 1`. -/
theorem sweep_preserves_caps_witness :
    (0 : ℚ) ≤ 1 ∧
    ((∃ fB ∈ (sweep_shape unitTriangleShape ⟨0, 0, 1⟩ 0 (0, 0, 0, 0)).faces,
      faceEq (sweep_shape unitTriangleShape ⟨0, 0, 1⟩ 0 (0, 0, 0, 0)) fB
        unitTriangleShape (Face.face ⟨0, 0⟩ [⟨0, 0⟩] (255, 0, 0, 255)) =
        some true) ∧
    (∃ fT ∈ (sweep_shape unitTriangleShape ⟨0, 0, 1⟩ 0 (0, 0, 0, 0)).faces,
      faceEq (sweep_shape unitTriangleShape ⟨0, 0, 1⟩ 0 (0, 0, 0, 0)) fT
        (raisedTriangleShape 1)
        (Face.face ⟨0, 0⟩ [⟨0, 0⟩] (255, 0, 0, 255)) = some true)) :=
  ⟨by norm_num, sweep_preserves_caps 1 (by norm_num)⟩

end Fornjot
